import Mathlib

/-!
# Verification of the playchess board core

Shallow embedding of the chess position engine in `board.cpp`
(`src/unnamed/part_001`): the 10×12 mailbox board, per-piece position
lists, Zobrist-style incremental hash, pseudo-move generation, the
make/unmake protocol and the FEN codec.

Modelling conventions:
* machine integers become `Nat` (all hash values stay below `2^64`
  because the only operation used on them is XOR);
* mailbox offsets are signed, so square arithmetic inside scans is done
  in `Int` with a bounds-checked array read `pieces_at` (reads outside
  the 120-cell array, which are undefined in the C++, read as empty);
* `ASSERT` compiles to `__builtin_unreachable()` in release builds, so a
  failed assertion has no defined behaviour; we model every state
  mutator as `Option`-valued, returning `none` when an assertion would
  fail.  `validate_board` is an empty function unless `DEBUG` is
  defined, and is modelled as a no-op;
* the per-piece arrays `m_positions[p]` (fixed capacity) together with
  the counters `m_num_pieces[p]` are modelled as the list of their first
  `m_num_pieces[p]` entries: the tail beyond the counter is never read
  by any operation;
* `std::vector<history_t> m_history` is a stack (`push_back`/`pop_back`)
  and is modelled as a list with the most recent entry first; the
  `mutable` move cache `m_move_cache` is an association list.
-/

set_option maxHeartbeats 4000000
set_option maxRecDepth 100000

namespace Playchess

/-- Modelled from the spec (§3, `square.h` is not in the sources): squares are
10×12 mailbox indices, `A1 = 21`, stepping `+10` is up one rank and `+1` is
right one file; `INVALID_SQUARE` is the "no square" sentinel (any non-playing
index serves; we use the border cell 0). -/
def INVALID_SQUARE : Nat := 0

/-- Modelled from the spec: a playing square of the 8×8 interior. -/
def valid_square (sq : Nat) : Prop :=
  21 ≤ sq ∧ sq ≤ 98 ∧ 1 ≤ sq % 10 ∧ sq % 10 ≤ 8

instance (sq : Nat) : Decidable (valid_square sq) := by
  unfold valid_square; infer_instance

/-- Modelled from the spec: validity of a signed mailbox index. -/
def valid_square_i (i : Int) : Prop :=
  21 ≤ i ∧ i ≤ 98 ∧ 1 ≤ i % 10 ∧ i % 10 ≤ 8

instance (i : Int) : Decidable (valid_square_i i) := by
  unfold valid_square_i; infer_instance

/-- Modelled from the spec: `get_square_120_rc(row, col) = 21 + 10*row + col`. -/
def get_square_120_rc (row col : Nat) : Nat := 21 + 10 * row + col

/-- Modelled from the spec: the rank (row) of a square, `A1` on row 0.
Computed in `Int` so that the comparisons against rank constants agree with
the C++ unsigned arithmetic on every in-range input. -/
def get_square_row (i : Int) : Int := i / 10 - 2

/-- Modelled from the spec: the file (column) of a square. -/
def get_square_col (i : Int) : Int := i % 10 - 1

def A1 : Nat := 21
def B1 : Nat := 22
def C1 : Nat := 23
def D1 : Nat := 24
def E1 : Nat := 25
def F1 : Nat := 26
def G1 : Nat := 27
def H1 : Nat := 28
def A8 : Nat := 91
def B8 : Nat := 92
def C8 : Nat := 93
def D8 : Nat := 94
def E8 : Nat := 95
def F8 : Nat := 96
def G8 : Nat := 97
def H8 : Nat := 98

/-- Modelled from the spec (§3, `piece.h` is not in the sources): 16 piece
identifiers, low three bits the species, bit 3 the colour (`piece ^ 8` flips
side), `INVALID_PIECE` the empty-square marker.  Species: pawn 1, knight 2,
bishop 3, rook 4, queen 5, king 6. -/
def INVALID_PIECE : Nat := 0

def WHITE_PAWN : Nat := 1
def WHITE_KNIGHT : Nat := 2
def WHITE_BISHOP : Nat := 3
def WHITE_ROOK : Nat := 4
def WHITE_QUEEN : Nat := 5
def WHITE_KING : Nat := 6
def BLACK_PAWN : Nat := 9
def BLACK_KNIGHT : Nat := 10
def BLACK_BISHOP : Nat := 11
def BLACK_ROOK : Nat := 12
def BLACK_QUEEN : Nat := 13
def BLACK_KING : Nat := 14

/-- The two sides; `false` is white (spec: white = 0, black = 1). -/
def WHITE : Bool := false
def BLACK : Bool := true

/-- Modelled from the spec: a valid (non-sentinel) piece identifier. -/
def valid_piece (p : Nat) : Prop := p < 16 ∧ 1 ≤ p % 8 ∧ p % 8 ≤ 6

instance (p : Nat) : Decidable (valid_piece p) := by
  unfold valid_piece; infer_instance

/-- Modelled from the spec: bit 3 of the identifier is the colour. -/
def get_side (p : Nat) : Bool := p &&& 8 == 8

/-- Modelled from the spec: species predicates derived from the identifier. -/
def is_pawn (p : Nat) : Bool := p % 8 == 1

def is_knight (p : Nat) : Bool := p % 8 == 2

def is_king (p : Nat) : Bool := p % 8 == 6

def is_diag (p : Nat) : Bool := p % 8 == 3 || p % 8 == 5

def is_ortho (p : Nat) : Bool := p % 8 == 4 || p % 8 == 5

/-- Modelled from the spec: the pieces whose movement can strip castling
rights (rook or king), as used by `update_castling`. -/
def is_castle (p : Nat) : Bool := p % 8 == 4 || p % 8 == 6

/-- Modelled from the spec: two identifiers of opposite colours. -/
def opposite_colours (a b : Nat) : Bool := get_side a != get_side b

/-- Modelled from the spec (§3, `castle_state.h` is not in the sources):
the four castle-right bits. -/
def WHITE_SHORT : Nat := 1
def WHITE_LONG : Nat := 2
def BLACK_SHORT : Nat := 4
def BLACK_LONG : Nat := 8

/-- `c & ~mask` for a bit mask, written subtractively so it is total on
`Nat`. -/
def clear_bits (c mask : Nat) : Nat := c - (c &&& mask)

/-- Modelled from the spec (§4.1, `move.hpp` is not in the sources): the move
flag enum. -/
inductive MoveFlag where
  | QUIET_MOVE
  | DOUBLE_PAWN_MOVE
  | CAPTURE_MOVE
  | EN_PASSANT_MOVE
  | SHORT_CASTLE_MOVE
  | LONG_CASTLE_MOVE
  | PROMOTE_MOVE
  | PROMOTE_CAPTURE_MOVE
deriving DecidableEq, Repr

/-- Modelled from the spec (§4.1): a move carries `(from, to, moved,
captured, promoted, flag)`; the packed-integer encoding round-trips, so the
record of its six fields is a faithful model.  `fr`/`to` are squares, the
piece fields hold `INVALID_PIECE` when absent. -/
structure Move where
  fr : Nat
  toSq : Nat
  moved : Nat
  captured : Nat
  promoted : Nat
  flag : MoveFlag
deriving DecidableEq, Repr

def quiet_move (fr tsq piece : Nat) : Move :=
  ⟨fr, tsq, piece, INVALID_PIECE, INVALID_PIECE, .QUIET_MOVE⟩

def double_move (fr tsq piece : Nat) : Move :=
  ⟨fr, tsq, piece, INVALID_PIECE, INVALID_PIECE, .DOUBLE_PAWN_MOVE⟩

def capture_move (fr tsq piece captured : Nat) : Move :=
  ⟨fr, tsq, piece, captured, INVALID_PIECE, .CAPTURE_MOVE⟩

/-- Modelled from the spec: an en-passant move is a capture (its undo
restores a pawn), so the captured field holds the enemy pawn. -/
def en_passant_move (fr tsq piece : Nat) : Move :=
  ⟨fr, tsq, piece, piece ^^^ 8, INVALID_PIECE, .EN_PASSANT_MOVE⟩

def castle_move (fr tsq piece : Nat) (flag : MoveFlag) : Move :=
  ⟨fr, tsq, piece, INVALID_PIECE, INVALID_PIECE, flag⟩

def promote_move (fr tsq piece promoted : Nat) : Move :=
  ⟨fr, tsq, piece, INVALID_PIECE, promoted, .PROMOTE_MOVE⟩

def promote_capture_move (fr tsq piece promoted captured : Nat) : Move :=
  ⟨fr, tsq, piece, captured, promoted, .PROMOTE_CAPTURE_MOVE⟩

def move_from (m : Move) : Nat := m.fr
def move_to (m : Move) : Nat := m.toSq
def moved_piece (m : Move) : Nat := m.moved
def captured_piece (m : Move) : Nat := m.captured
def promoted_piece (m : Move) : Nat := m.promoted
def move_flag (m : Move) : MoveFlag := m.flag

def move_captured (m : Move) : Bool := m.captured != INVALID_PIECE

def move_promoted (m : Move) : Bool :=
  m.flag == .PROMOTE_MOVE || m.flag == .PROMOTE_CAPTURE_MOVE

def move_castled (m : Move) : Bool :=
  m.flag == .SHORT_CASTLE_MOVE || m.flag == .LONG_CASTLE_MOVE

/-- Modelled from the spec (§4.2, `hash.h` is not in the sources): one fixed
sampling of the random 64-bit table `piece_hash[square][piece]`: zero whenever
the piece is `INVALID_PIECE` or the square is a sentinel, nonzero (and below
`2^64`) otherwise. -/
def piece_hash (sq p : Nat) : Nat :=
  if valid_square sq ∧ valid_piece p then (16 * sq + p + 1) * 4294967311 else 0

/-- Modelled from the spec: the `castle_hash[0..16)` table. -/
def castle_hash (c : Nat) : Nat := (c + 1) * 2654435761

/-- Modelled from the spec: the `enpas_hash` table, zero at
`INVALID_SQUARE`. -/
def enpas_hash (sq : Nat) : Nat :=
  if valid_square sq then (sq + 1) * 65537 else 0

/-- Modelled from the spec: the side-to-move hash constant. -/
def side_hash : Nat := 1234567891234567891

/-- One `history_t` undo record (move, prior castle state, prior en-passant,
prior fifty-move clock, prior hash). -/
structure HistoryEntry where
  move : Move
  castle_state : Nat
  en_passant : Nat
  fifty_move : Nat
  hash : Nat
deriving DecidableEq, Repr

/-- The `Board` state of `board.hpp`/`board.cpp`.  `positions p` models the
first `m_num_pieces[p]` cells of `m_positions[p]`, so `m_num_pieces[p]` is
`(positions p).length`. -/
structure Board where
  pieces : Nat → Nat
  positions : Nat → List Nat
  next_move_colour : Bool
  castle_state : Nat
  en_passant : Nat
  fifty_move : Nat
  half_move : Nat
  hash : Nat
  history : List HistoryEntry
  move_cache : List (Nat × List Move)

def num_pieces (B : Board) (p : Nat) : Nat := (B.positions p).length

/-- Bounds-checked read of the 120-cell piece array at a signed index. -/
def pieces_at (pieces : Nat → Nat) (i : Int) : Nat :=
  if 0 ≤ i ∧ i < 120 then pieces i.toNat else INVALID_PIECE

/-- XOR of the piece-square hashes over the whole mailbox. -/
def board_hash (pieces : Nat → Nat) : Nat :=
  (List.range 120).foldl (fun h sq => h ^^^ piece_hash sq (pieces sq)) 0

/-- `Board::compute_hash`: XOR over all squares of `piece_hash`, XOR
`castle_hash[castle_state]`, XOR `enpas_hash[en_passant]`, XOR `side_hash`
when black is to move. -/
def compute_hash (B : Board) : Nat :=
  board_hash B.pieces ^^^ castle_hash B.castle_state ^^^
    enpas_hash B.en_passant ^^^ (if B.next_move_colour then side_hash else 0)

/-! ## Attack detection (`Board::square_attacked`) -/

/-- The `while (valid_square(cur) && m_pieces[cur] == INVALID_PIECE)` scan of
a ray: returns the first index that is off-board or occupied.  The fuel (120)
exceeds the length of any mailbox ray. -/
def scan_ray (pieces : Nat → Nat) (off : Int) : Nat → Int → Int
  | 0, cur => cur
  | fuel + 1, cur =>
    if valid_square_i cur ∧ pieces_at pieces cur = INVALID_PIECE then
      scan_ray pieces off fuel (cur + off)
    else cur

def diagonal_offsets : List Int := [-11, -9, 9, 11]
def orthogonal_offsets : List Int := [-10, -1, 1, 10]
def knight_offsets : List Int := [-21, -19, -12, -8, 8, 12, 19, 21]
def king_queen_offsets : List Int := [-11, -10, -9, -1, 1, 9, 10, 11]

/-- One ray of `square_attacked`: the first step hits the enemy king, or the
first non-empty square along the ray is an enemy piece with the ray's
capability. -/
def ray_attacks (pieces : Nat → Nat) (king_square sq : Nat) (off : Int)
    (cap : Nat → Bool) (side : Bool) : Bool :=
  let first : Int := (sq : Int) + off
  if (king_square : Int) = first then true
  else
    let stop := scan_ray pieces off 120 first
    let p := pieces_at pieces stop
    decide (valid_square_i stop) && (get_side p == side) && cap p

/-- `Board::square_attacked(sq, side)` on the board components, including the
early-return guard `get_side(m_pieces[sq] == side)` exactly as written in the
source (the `bool` comparison result converts to the integer 0 or 1 before
`get_side` is applied). -/
def square_attacked_c (pieces : Nat → Nat) (positions : Nat → List Nat)
    (sq : Nat) (side : Bool) : Bool :=
  let king_piece := if side = WHITE then WHITE_KING else BLACK_KING
  let knight_piece := if side = WHITE then WHITE_KNIGHT else BLACK_KNIGHT
  let pawn_piece := if side = WHITE then WHITE_PAWN else BLACK_PAWN
  let king_square := (positions king_piece).headD 0
  if decide (valid_piece (pieces sq)) &&
      get_side (if pieces sq == (if side then 1 else 0) then 1 else 0) then
    false
  else
    diagonal_offsets.any (fun off =>
      ray_attacks pieces king_square sq off is_diag side) ||
    orthogonal_offsets.any (fun off =>
      ray_attacks pieces king_square sq off is_ortho side) ||
    knight_offsets.any (fun off =>
      pieces_at pieces ((sq : Int) + off) == knight_piece) ||
    [(if side = WHITE then (-9 : Int) else 9),
      (if side = WHITE then (-11 : Int) else 11)].any (fun off =>
      pieces_at pieces ((sq : Int) + off) == pawn_piece)

/-- `square_attacked` with the early-return guard removed: the comparison
variant the spec says is intended, under which the guard's behaviour is the
question of claim C9. -/
def square_attacked_no_guard_c (pieces : Nat → Nat) (positions : Nat → List Nat)
    (sq : Nat) (side : Bool) : Bool :=
  let king_piece := if side = WHITE then WHITE_KING else BLACK_KING
  let knight_piece := if side = WHITE then WHITE_KNIGHT else BLACK_KNIGHT
  let pawn_piece := if side = WHITE then WHITE_PAWN else BLACK_PAWN
  let king_square := (positions king_piece).headD 0
  diagonal_offsets.any (fun off =>
    ray_attacks pieces king_square sq off is_diag side) ||
  orthogonal_offsets.any (fun off =>
    ray_attacks pieces king_square sq off is_ortho side) ||
  knight_offsets.any (fun off =>
    pieces_at pieces ((sq : Int) + off) == knight_piece) ||
  [(if side = WHITE then (-9 : Int) else 9),
    (if side = WHITE then (-11 : Int) else 11)].any (fun off =>
    pieces_at pieces ((sq : Int) + off) == pawn_piece)

def square_attacked (B : Board) (sq : Nat) (side : Bool) : Bool :=
  square_attacked_c B.pieces B.positions sq side

/-- `Board::king_in_check`. -/
def king_in_check (B : Board) : Bool :=
  let king_piece := if B.next_move_colour = WHITE then WHITE_KING else BLACK_KING
  square_attacked B ((B.positions king_piece).headD 0) (!B.next_move_colour)

/-! ## Pseudo-move generation (`Board::pseudo_moves`) -/

/-- The slider loop: quiet moves over the empty run, then a capture at the
first non-empty square when it holds an enemy non-king.  Fuel 120 exceeds the
length of any mailbox ray. -/
def slide_gen (pieces : Nat → Nat) (piece start : Nat) (off : Int) :
    Nat → Int → List Move
  | 0, _ => []
  | fuel + 1, cur =>
    if valid_square_i cur ∧ pieces_at pieces cur = INVALID_PIECE then
      quiet_move start cur.toNat piece ::
        slide_gen pieces piece start off fuel (cur + off)
    else if valid_square_i cur ∧ opposite_colours piece (pieces_at pieces cur) ∧
        ¬ is_king (pieces_at pieces cur) then
      [capture_move start cur.toNat piece (pieces_at pieces cur)]
    else []

/-- Moves of one slider class: for each piece of that class (in piece-list
order), for each ray offset, the slider loop. -/
def slider_moves (pieces : Nat → Nat) (positions : Nat → List Nat)
    (piece : Nat) (offsets : List Int) : List Move :=
  (positions piece).flatMap (fun start =>
    offsets.flatMap (fun off =>
      slide_gen pieces piece start off 120 ((start : Int) + off)))

/-- Moves of a single-step piece (knight; the king block of the source has
the same emission conditions). -/
def leaper_moves_from (pieces : Nat → Nat) (piece start : Nat)
    (offsets : List Int) : List Move :=
  offsets.flatMap (fun off =>
    let cur : Int := (start : Int) + off
    let p := pieces_at pieces cur
    if valid_square_i cur ∧ p = INVALID_PIECE then
      [quiet_move start cur.toNat piece]
    else if valid_square_i cur ∧ opposite_colours piece p ∧ ¬ is_king p then
      [capture_move start cur.toNat piece p]
    else [])

/-- The pawn block of `pseudo_moves` for one pawn: double push, single
push/promotions, the two diagonal captures, then en-passant. -/
def pawn_moves_from (pieces : Nat → Nat) (en_passant : Nat) (side : Bool)
    (pawn_piece : Nat) (promote_pieces : List Nat) (start : Nat) : List Move :=
  let s : Int := start
  let doubles :=
    (if side = WHITE ∧ get_square_row s = 1 ∧
        pieces_at pieces (s + 10) = INVALID_PIECE ∧
        pieces_at pieces (s + 20) = INVALID_PIECE then
      [double_move start (s + 20).toNat pawn_piece]
    else []) ++
    (if side = BLACK ∧ get_square_row s = 6 ∧
        pieces_at pieces (s - 10) = INVALID_PIECE ∧
        pieces_at pieces (s - 20) = INVALID_PIECE then
      [double_move start (s - 20).toNat pawn_piece]
    else [])
  let off : Int := if side = WHITE then 10 else -10
  let cur : Int := s + off
  let singles :=
    if valid_square_i cur ∧ pieces_at pieces cur = INVALID_PIECE then
      if get_square_row cur = 0 ∨ get_square_row cur = 7 then
        promote_pieces.map (fun pr => promote_move start cur.toNat pawn_piece pr)
      else
        [quiet_move start cur.toNat pawn_piece]
    else []
  let caps : Int → List Move := fun csq =>
    let p := pieces_at pieces csq
    if valid_square_i csq ∧ p ≠ INVALID_PIECE ∧ opposite_colours pawn_piece p ∧
        ¬ is_king p then
      if get_square_row csq = 0 ∨ get_square_row csq = 7 then
        promote_pieces.map (fun pr =>
          promote_capture_move start csq.toNat pawn_piece pr p)
      else
        [capture_move start csq.toNat pawn_piece p]
    else []
  let eps :=
    if en_passant ≠ INVALID_SQUARE then
      (if cur - 1 = (en_passant : Int) ∧
          pieces_at pieces (cur - 1) = INVALID_PIECE then
        [en_passant_move start en_passant pawn_piece]
      else []) ++
      (if cur + 1 = (en_passant : Int) ∧
          pieces_at pieces (cur + 1) = INVALID_PIECE then
        [en_passant_move start en_passant pawn_piece]
      else [])
    else []
  doubles ++ singles ++ caps (cur - 1) ++ caps (cur + 1) ++ eps

/-- The castling block of `pseudo_moves` (note: the destination squares `G1`,
`C1`, `G8`, `C8` are never attack-tested). -/
def castle_gen (pieces : Nat → Nat) (positions : Nat → List Nat) (side : Bool)
    (castle_state : Nat) : List Move :=
  if side = WHITE then
    let d1_attacked := square_attacked_c pieces positions D1 BLACK
    let e1_attacked := square_attacked_c pieces positions E1 BLACK
    let f1_attacked := square_attacked_c pieces positions F1 BLACK
    (if castle_state &&& WHITE_SHORT ≠ 0 ∧ ¬ e1_attacked ∧ ¬ f1_attacked ∧
        pieces F1 = INVALID_PIECE ∧ pieces G1 = INVALID_PIECE then
      [castle_move E1 G1 WHITE_KING .SHORT_CASTLE_MOVE]
    else []) ++
    (if castle_state &&& WHITE_LONG ≠ 0 ∧ ¬ e1_attacked ∧ ¬ d1_attacked ∧
        pieces D1 = INVALID_PIECE ∧ pieces C1 = INVALID_PIECE ∧
        pieces B1 = INVALID_PIECE then
      [castle_move E1 C1 WHITE_KING .LONG_CASTLE_MOVE]
    else [])
  else
    let d8_attacked := square_attacked_c pieces positions D8 WHITE
    let e8_attacked := square_attacked_c pieces positions E8 WHITE
    let f8_attacked := square_attacked_c pieces positions F8 WHITE
    (if castle_state &&& BLACK_SHORT ≠ 0 ∧ ¬ e8_attacked ∧ ¬ f8_attacked ∧
        pieces F8 = INVALID_PIECE ∧ pieces G8 = INVALID_PIECE then
      [castle_move E8 G8 BLACK_KING .SHORT_CASTLE_MOVE]
    else []) ++
    (if castle_state &&& BLACK_LONG ≠ 0 ∧ ¬ e8_attacked ∧ ¬ d8_attacked ∧
        pieces D8 = INVALID_PIECE ∧ pieces C8 = INVALID_PIECE ∧
        pieces B8 = INVALID_PIECE then
      [castle_move E8 C8 BLACK_KING .LONG_CASTLE_MOVE]
    else [])

/-- The body of `pseudo_moves` after the draw cut-off, on the board
components it reads: queens, rooks, bishops, knights, pawns, king, castling,
in source order.  `promote_pieces` is the source's `piece ^ 8u` list. -/
def gen_moves (pieces : Nat → Nat) (positions : Nat → List Nat) (side : Bool)
    (castle_state : Nat) (en_passant : Nat) : List Move :=
  let king_piece := if side = WHITE then WHITE_KING else BLACK_KING
  let queen_piece := if side = WHITE then WHITE_QUEEN else BLACK_QUEEN
  let rook_piece := if side = WHITE then WHITE_ROOK else BLACK_ROOK
  let bishop_piece := if side = WHITE then WHITE_BISHOP else BLACK_BISHOP
  let knight_piece := if side = WHITE then WHITE_KNIGHT else BLACK_KNIGHT
  let pawn_piece := if side = WHITE then WHITE_PAWN else BLACK_PAWN
  let promote_pieces : List Nat :=
    [queen_piece ^^^ 8, rook_piece ^^^ 8, bishop_piece ^^^ 8, knight_piece ^^^ 8]
  slider_moves pieces positions queen_piece king_queen_offsets ++
  slider_moves pieces positions rook_piece orthogonal_offsets ++
  slider_moves pieces positions bishop_piece diagonal_offsets ++
  (positions knight_piece).flatMap
    (fun start => leaper_moves_from pieces knight_piece start knight_offsets) ++
  (positions pawn_piece).flatMap
    (fun start =>
      pawn_moves_from pieces en_passant side pawn_piece promote_pieces start) ++
  leaper_moves_from pieces king_piece ((positions king_piece).headD 0)
    king_queen_offsets ++
  castle_gen pieces positions side castle_state

/-- `pseudo_moves` computed from scratch (the function body without the
cache lookup), at the default argument `side = m_next_move_colour`. -/
def pseudo_moves_scratch (B : Board) : List Move :=
  if B.half_move > 1000 ∨ B.fifty_move > 75 then []
  else gen_moves B.pieces B.positions B.next_move_colour B.castle_state B.en_passant

/-- `Board::pseudo_moves`: the memoized entry for the current hash when one
exists, otherwise the scratch computation. -/
def pseudo_moves (B : Board) : List Move :=
  match B.move_cache.lookup B.hash with
  | some cached => cached
  | none => pseudo_moves_scratch B

/-! ## State mutation primitives -/

/-- Pointwise function update (the array store `f[x] = v`). -/
def updf {α : Type} (f : Nat → α) (x : Nat) (v : α) : Nat → α :=
  fun y => if y = x then v else f y

/-- The `remove_piece` piece-list edit: overwrite the first occurrence of `x`
with the last in-use entry, then shrink the count by one. -/
def swap_remove (l : List Nat) (x : Nat) : List Nat :=
  (l.set (l.indexOf x) (l.getLastD 0)).dropLast

/-- `Board::remove_piece`; `none` when an `ASSERT` would fail (no valid piece
on the square, or the square missing from its piece list). -/
def remove_piece (B : Board) (sq : Nat) : Option Board :=
  let p := B.pieces sq
  if valid_piece p ∧ sq ∈ B.positions p then
    some { B with
      pieces := updf B.pieces sq INVALID_PIECE,
      positions := updf B.positions p (swap_remove (B.positions p) sq),
      hash := B.hash ^^^ piece_hash sq p }
  else none

/-- `Board::add_piece`. -/
def add_piece (B : Board) (sq piece : Nat) : Option Board :=
  if valid_piece piece ∧ B.pieces sq = INVALID_PIECE then
    some { B with
      pieces := updf B.pieces sq piece,
      positions := updf B.positions piece (B.positions piece ++ [sq]),
      hash := B.hash ^^^ piece_hash sq piece }
  else none

/-- `Board::move_piece` (the destination must be empty; the moved square must
occur in its piece list). -/
def move_piece (B : Board) (fr tsq : Nat) : Option Board :=
  if B.pieces tsq = INVALID_PIECE then
    let p := B.pieces fr
    if fr ∈ B.positions p then
      some { B with
        pieces := updf (updf B.pieces fr INVALID_PIECE) tsq p,
        positions := updf B.positions p
          ((B.positions p).set ((B.positions p).indexOf fr) tsq),
        hash := B.hash ^^^ piece_hash fr p ^^^ piece_hash tsq p }
    else none
  else none

/-- `Board::set_castle_state`. -/
def set_castle_state (B : Board) (s : Nat) : Board :=
  { B with
    castle_state := s,
    hash := B.hash ^^^ castle_hash B.castle_state ^^^ castle_hash s }

/-- `Board::set_en_passant`. -/
def set_en_passant (B : Board) (sq : Nat) : Board :=
  { B with
    en_passant := sq,
    hash := B.hash ^^^ enpas_hash B.en_passant ^^^ enpas_hash sq }

/-- `Board::switch_colours`. -/
def switch_colours (B : Board) : Board :=
  { B with
    next_move_colour := !B.next_move_colour,
    hash := B.hash ^^^ side_hash }

/-- `Board::update_castling`: strips rights keyed on the `from` square when
the moved piece is a king or rook. -/
def update_castling (B : Board) (sq moved : Nat) : Board :=
  if is_castle moved then
    let c0 := B.castle_state
    let c1 := if sq = E1 ∨ sq = A1 then clear_bits c0 WHITE_LONG else c0
    let c2 := if sq = E1 ∨ sq = H1 then clear_bits c1 WHITE_SHORT else c1
    let c3 := if sq = E8 ∨ sq = A8 then clear_bits c2 BLACK_LONG else c2
    let c4 := if sq = E8 ∨ sq = H8 then clear_bits c3 BLACK_SHORT else c3
    { B with
      castle_state := c4,
      hash := B.hash ^^^ castle_hash c0 ^^^ castle_hash c4 }
  else B

/-! ## Make / unmake (`Board::make_move`, `Board::unmake_move`) -/

/-- The undo record pushed by `make_move` (pre-move castle state, en-passant
target, fifty-move count, hash). -/
def make_entry (B : Board) (m : Move) : HistoryEntry :=
  { move := m, castle_state := B.castle_state, en_passant := B.en_passant,
    fifty_move := B.fifty_move, hash := B.hash }

/-- The promotion branch of `make_move`'s application block. -/
def make_apply_promote (B1 : Board) (m : Move) : Option Board :=
  (if move_captured m then remove_piece B1 m.toSq else some B1).bind (fun Ba =>
    (add_piece Ba m.toSq (promoted_piece m)).bind (fun Bb =>
      (remove_piece Bb m.fr).bind (fun Bc =>
        some (set_en_passant Bc INVALID_SQUARE))))

/-- The two rook/king `move_piece` calls of a castle move. -/
def make_castle_moves (B1 : Board) (cur_side : Bool) (flag : MoveFlag) :
    Option Board :=
  if cur_side = WHITE then
    if flag = MoveFlag.SHORT_CASTLE_MOVE then
      (move_piece B1 E1 G1).bind (fun By => move_piece By H1 F1)
    else
      (move_piece B1 E1 C1).bind (fun By => move_piece By A1 D1)
  else
    if flag = MoveFlag.SHORT_CASTLE_MOVE then
      (move_piece B1 E8 G8).bind (fun By => move_piece By H8 F8)
    else
      (move_piece B1 E8 C8).bind (fun By => move_piece By A8 D8)

/-- The castling branch of `make_move`'s application block: move the king
and rook, strip both of the mover's rights, clear en-passant. -/
def make_apply_castle (B1 : Board) (cur_side : Bool) (m : Move) :
    Option Board :=
  (make_castle_moves B1 cur_side m.flag).bind (fun Bx =>
    some (set_en_passant
      (set_castle_state Bx
        (clear_bits Bx.castle_state
          (if cur_side = WHITE then WHITE_LONG ||| WHITE_SHORT
           else BLACK_LONG ||| BLACK_SHORT)))
      INVALID_SQUARE))

/-- The square of the pawn captured en passant (`to ∓ 10`). -/
def enpas_capture_square (cur_side : Bool) (tsq : Nat) : Nat :=
  if cur_side = WHITE then tsq - 10 else tsq + 10

/-- The en-passant bookkeeping at the head of the non-promotion,
non-castling branch: a double pawn move records the jumped square, anything
else clears the target. -/
def make_enpas_update (B1 : Board) (cur_side : Bool) (m : Move) : Board :=
  if m.flag = MoveFlag.DOUBLE_PAWN_MOVE then
    set_en_passant B1 (enpas_capture_square cur_side m.toSq)
  else set_en_passant B1 INVALID_SQUARE

/-- The quiet/double/capture/en-passant branch of `make_move`'s application
block (an unrecognized flag falls through with only the en-passant update,
as in the source). -/
def make_apply_basic (B1 : Board) (cur_side : Bool) (m : Move) :
    Option Board :=
  if m.flag = MoveFlag.QUIET_MOVE then
    (move_piece (make_enpas_update B1 cur_side m) m.fr m.toSq).bind (fun Ba =>
      some (update_castling Ba m.fr (moved_piece m)))
  else if m.flag = MoveFlag.DOUBLE_PAWN_MOVE then
    move_piece (make_enpas_update B1 cur_side m) m.fr m.toSq
  else if m.flag = MoveFlag.CAPTURE_MOVE then
    (remove_piece (make_enpas_update B1 cur_side m) m.toSq).bind (fun Ba =>
      (move_piece Ba m.fr m.toSq).bind (fun Bb =>
        some (update_castling Bb m.fr (moved_piece m))))
  else if m.flag = MoveFlag.EN_PASSANT_MOVE then
    (remove_piece (make_enpas_update B1 cur_side m)
      (enpas_capture_square cur_side m.toSq)).bind (fun Ba =>
        move_piece Ba m.fr m.toSq)
  else some (make_enpas_update B1 cur_side m)

/-- The move-application block of `Board::make_move` (the flag-directed piece
motion between the bookkeeping and the fifty-move update). -/
def make_apply (B1 : Board) (cur_side : Bool) (m : Move) : Option Board :=
  if move_promoted m then make_apply_promote B1 m
  else if move_castled m then make_apply_castle B1 cur_side m
  else make_apply_basic B1 cur_side m

/-- The bookkeeping prefix of `make_move`: history push and ply increment. -/
def make_start (B : Board) (m : Move) : Board :=
  { B with history := make_entry B m :: B.history,
           half_move := B.half_move + 1 }

/-- The tail of `make_move` after the piece motion: fifty-move update and
side switch. -/
def make_finish (B3 : Board) (m : Move) : Board :=
  switch_colours { B3 with
    fifty_move := if move_captured m || is_pawn (moved_piece m) then 0
                  else B3.fifty_move + 1 }

/-- `Board::make_move`: push the undo record, apply the move by flag, update
the fifty-move clock, switch sides, and report whether the king of the side
that just moved is left unattacked.  `none` models a failed internal
assertion. -/
def make_move (B : Board) (m : Move) : Option (Board × Bool) :=
  let cur_side := B.next_move_colour
  match make_apply (make_start B m) cur_side m with
  | none => none
  | some B3 =>
    let B5 := make_finish B3 m
    let king_piece := if cur_side = WHITE then WHITE_KING else BLACK_KING
    let valid := ! square_attacked B5 ((B5.positions king_piece).headD 0) (!cur_side)
    some (B5, valid)

/-- The promotion branch of `unmake_move`'s reversal block. -/
def unmake_reverse_promote (B5 : Board) (m : Move) : Option Board :=
  (remove_piece B5 m.toSq).bind (fun Ba =>
    (add_piece Ba m.fr (moved_piece m)).bind (fun Bb =>
      if move_captured m then add_piece Bb m.toSq (captured_piece m)
      else some Bb))

/-- The reversed rook/king `move_piece` calls of a castle move. -/
def unmake_castle_moves (B5 : Board) (cur_side : Bool) (flag : MoveFlag) :
    Option Board :=
  if cur_side = WHITE then
    if flag = MoveFlag.SHORT_CASTLE_MOVE then
      (move_piece B5 G1 E1).bind (fun Ba => move_piece Ba F1 H1)
    else
      (move_piece B5 C1 E1).bind (fun Ba => move_piece Ba D1 A1)
  else
    if flag = MoveFlag.SHORT_CASTLE_MOVE then
      (move_piece B5 G8 E8).bind (fun Ba => move_piece Ba F8 H8)
    else
      (move_piece B5 C8 E8).bind (fun Ba => move_piece Ba D8 A8)

/-- The quiet/double/capture/en-passant branch of the reversal block: move
the piece back and restore any captured piece (for en-passant at the square
behind the restored en-passant target). -/
def unmake_reverse_basic (B5 : Board) (cur_side : Bool) (m : Move) :
    Option Board :=
  (move_piece B5 m.toSq m.fr).bind (fun Ba =>
    if move_captured m then
      add_piece Ba
        (if m.flag = MoveFlag.CAPTURE_MOVE then m.toSq
         else enpas_capture_square cur_side B5.en_passant)
        (captured_piece m)
    else some Ba)

/-- The flag-directed reversal block of `Board::unmake_move`. -/
def unmake_reverse (B5 : Board) (cur_side : Bool) (m : Move) : Option Board :=
  if move_promoted m then unmake_reverse_promote B5 m
  else if move_castled m then unmake_castle_moves B5 cur_side m.flag
  else unmake_reverse_basic B5 cur_side m

/-- The restoration prefix of `unmake_move`: pop the entry, restore castle
state, en-passant, fifty-move clock, decrement the ply count and switch
sides. -/
def unmake_start (B : Board) (entry : HistoryEntry) (rest : List HistoryEntry) :
    Board :=
  let B1 : Board := { B with history := rest }
  let B2 := set_castle_state B1 entry.castle_state
  let B3 := set_en_passant B2 entry.en_passant
  let B4 : Board := { B3 with fifty_move := entry.fifty_move }
  switch_colours { B4 with half_move := B4.half_move - 1 }

/-- `Board::unmake_move`: pop the undo record, restore clocks and side,
reverse the piece motion by flag, and check the restored hash against the
record (a failing `ASSERT` is `none`). -/
def unmake_move (B : Board) : Option Board :=
  match B.history with
  | [] => none
  | entry :: rest =>
    if B.half_move = 0 then none
    else
      let B5 := unmake_start B entry rest
      match unmake_reverse B5 B5.next_move_colour entry.move with
      | none => none
      | some B6 => if B6.hash = entry.hash then some B6 else none

/-! ## FEN codec (`Board::Board(const std::string&)` and `Board::fen`) -/

/-- Modelled from the spec (`piece.h` missing): FEN letter of each piece. -/
def char_from_piece (p : Nat) : Char :=
  if p = 1 then 'P' else if p = 2 then 'N' else if p = 3 then 'B'
  else if p = 4 then 'R' else if p = 5 then 'Q' else if p = 6 then 'K'
  else if p = 9 then 'p' else if p = 10 then 'n' else if p = 11 then 'b'
  else if p = 12 then 'r' else if p = 13 then 'q' else if p = 14 then 'k'
  else '.'

/-- Modelled from the spec: piece identifier of a FEN letter
(`INVALID_PIECE` for anything else, which the parser rejects). -/
def piece_from_char (c : Char) : Nat :=
  if c = 'P' then 1 else if c = 'N' then 2 else if c = 'B' then 3
  else if c = 'R' then 4 else if c = 'Q' then 5 else if c = 'K' then 6
  else if c = 'p' then 9 else if c = 'n' then 10 else if c = 'b' then 11
  else if c = 'r' then 12 else if c = 'q' then 13 else if c = 'k' then 14
  else INVALID_PIECE

/-- Modelled from the spec: `string_from_square` (algebraic name, `-` for
`INVALID_SQUARE`). -/
def string_from_square (sq : Nat) : List Char :=
  if sq = INVALID_SQUARE then ['-']
  else [Char.ofNat (97 + (sq % 10 - 1)), Char.ofNat (49 + (sq / 10 - 2))]

/-- The maximum length of a piece list (`MAX_PIECE_FREQ`). -/
def MAX_PIECE_FREQ : Nat := 10

/-- Part 1 of the parser: the placement field, consuming characters up to and
including the space that terminates it.  Mirrors the source loop: `/` checks
`square_idx % 10 == 9` and steps down a rank, a digit writes that many empty
squares, a letter must be a valid piece on a valid square with a free piece
list slot.  `none` models a failed `ASSERT` (and running off the string). -/
def parse_placement :
    List Char → Nat → (Nat → Nat) → (Nat → List Nat) →
    Option (List Char × Nat × (Nat → Nat) × (Nat → List Nat))
  | [], _, _, _ => none
  | c :: cs, idx, pieces, positions =>
    if c = ' ' then some (cs, idx, pieces, positions)
    else if c = '/' then
      if idx % 10 = 9 then parse_placement cs (idx - 18) pieces positions
      else none
    else if '1' ≤ c ∧ c ≤ '8' then
      let n := c.toNat - 48
      let pieces' := (List.range n).foldl
        (fun f i => updf f (idx + i) INVALID_PIECE) pieces
      if (idx + n) % 10 = 9 ∨ valid_square (idx + n) then
        parse_placement cs (idx + n) pieces' positions
      else none
    else
      let p := piece_from_char c
      if valid_square idx ∧ valid_piece p ∧ (positions p).length < MAX_PIECE_FREQ then
        if (idx + 1) % 10 = 9 ∨ valid_square (idx + 1) then
          parse_placement cs (idx + 1)
            (updf pieces idx p) (updf positions p (positions p ++ [idx]))
        else none
      else none

/-- Part 3 of the parser: the castling field when it does not start with
`-`, consuming characters up to (not including) the terminating space. -/
def parse_castle : List Char → Nat → Option (List Char × Nat)
  | [], _ => none
  | c :: cs, acc =>
    if c = ' ' then some (cs, acc)
    else if c = 'K' then parse_castle cs (acc ||| WHITE_SHORT)
    else if c = 'Q' then parse_castle cs (acc ||| WHITE_LONG)
    else if c = 'k' then parse_castle cs (acc ||| BLACK_SHORT)
    else if c = 'q' then parse_castle cs (acc ||| BLACK_LONG)
    else none

/-- Part 5 of the parser: a decimal number terminated by a space (the space
is consumed). -/
def parse_number_sp : List Char → Nat → Option (List Char × Nat)
  | [], _ => none
  | c :: cs, acc =>
    if c = ' ' then some (cs, acc)
    else if '0' ≤ c ∧ c ≤ '9' then parse_number_sp cs (10 * acc + (c.toNat - 48))
    else none

/-- Part 6 of the parser: a decimal number running to the end of the
string (an empty digit string parses as 0, as in the source). -/
def parse_number_end : List Char → Nat → Option Nat
  | [], acc => some acc
  | c :: cs, acc =>
    if '0' ≤ c ∧ c ≤ '9' then parse_number_end cs (10 * acc + (c.toNat - 48))
    else none

/-- The castling field: `-` followed by a space, or a `KQkq` subset. -/
def parse_castle_field (rest2 : List Char) : Option (List Char × Nat) :=
  match rest2 with
  | '-' :: c :: cs => if c = ' ' then some (cs, 0) else none
  | cs => parse_castle cs 0

/-- The en-passant field: `-` or an algebraic square whose rank must match
the side to move; the target is elided to `INVALID_SQUARE` when no pawn of
the side to move stands beside it. -/
def parse_ep_field (rest3 : List Char) (colour : Bool) (pieces : Nat → Nat) :
    Option (List Char × Nat) :=
  match rest3 with
  | '-' :: c :: cs => if c = ' ' then some (cs, INVALID_SQUARE) else none
  | c1 :: c2 :: c3 :: cs =>
    let row : Int := (c2.toNat : Int) - 49
    let col : Int := (c1.toNat : Int) - 97
    if (colour = WHITE → row = 5) ∧ (colour = BLACK → row = 2) ∧ c3 = ' ' then
      let ep_i : Int := 21 + 10 * row + col
      let my_pawn := if colour = WHITE then WHITE_PAWN else BLACK_PAWN
      if pieces_at pieces (ep_i - 1) ≠ my_pawn ∧
          pieces_at pieces (ep_i + 1) ≠ my_pawn then
        some (cs, INVALID_SQUARE)
      else some (cs, ep_i.toNat)
    else none
  | _ => none

/-- Assembling the parsed fields into the board, with the hash freshly
computed (`m_hash = compute_hash()`). -/
def assemble_board (pieces : Nat → Nat) (positions : Nat → List Nat)
    (colour : Bool) (castle ep fifty full : Nat) : Board :=
  let B0 : Board :=
    { pieces := pieces, positions := positions,
      next_move_colour := colour, castle_state := castle,
      en_passant := ep, fifty_move := fifty,
      half_move := 2 * full + (if colour then 1 else 0),
      hash := 0, history := [], move_cache := [] }
  { B0 with hash := compute_hash B0 }

/-- Parts 2–6 of the FEN constructor, after the placement field. -/
def parse_after_placement (rest1 : List Char) (idx : Nat)
    (pieces : Nat → Nat) (positions : Nat → List Nat) : Option Board :=
  if idx ≠ 29 then none
  else
    match rest1 with
    | side_chr :: _ :: rest2 =>
      (if side_chr = 'w' then some WHITE
       else if side_chr = 'b' then some BLACK
       else none).bind (fun colour =>
        (parse_castle_field rest2).bind (fun st3 =>
          (parse_ep_field st3.1 colour pieces).bind (fun st4 =>
            (parse_number_sp st4.1 0).bind (fun st5 =>
              (parse_number_end st5.1 0).bind (fun full =>
                some (assemble_board pieces positions colour st3.2 st4.2
                  st5.2 full))))))
    | _ => none

/-- The FEN constructor `Board::Board(const std::string &fen)`.  Failed
assertions are `none`; the final `validate_board()` call is empty in release
builds and is modelled as a no-op. -/
def board_from_fen (fen : List Char) : Option Board :=
  (parse_placement fen A8 (fun _ => INVALID_PIECE) (fun _ => [])).bind
    (fun st1 => parse_after_placement st1.1 st1.2.1 st1.2.2.1 st1.2.2.2)

/-- The run-length encoding of one rank of `Board::fen` with `b` blanks
pending: the source loop flushes the blank counter before each piece letter,
before each `/`, and after the loop, so the counter never crosses a rank
boundary and the loop is exactly this per-rank recursion. -/
def flush_blank (b : Nat) : List Char :=
  if b = 0 then [] else [Char.ofNat (48 + b)]

def encode_rank : List Nat → Nat → List Char
  | [], b => flush_blank b
  | p :: rest, b =>
    if p = INVALID_PIECE then encode_rank rest (b + 1)
    else flush_blank b ++ char_from_piece p :: encode_rank rest 0

/-- The pieces of one rank in file order. -/
def rank_cells (pieces : Nat → Nat) (row : Nat) : List Nat :=
  (List.range 8).map (fun col => pieces (21 + 10 * row + col))

/-- Part 1 of `Board::fen`: ranks 8 down to 1 separated by `/`. -/
def encode_placement (pieces : Nat → Nat) : List Char :=
  encode_rank (rank_cells pieces 7) 0 ++ '/' ::
  (encode_rank (rank_cells pieces 6) 0 ++ '/' ::
  (encode_rank (rank_cells pieces 5) 0 ++ '/' ::
  (encode_rank (rank_cells pieces 4) 0 ++ '/' ::
  (encode_rank (rank_cells pieces 3) 0 ++ '/' ::
  (encode_rank (rank_cells pieces 2) 0 ++ '/' ::
  (encode_rank (rank_cells pieces 1) 0 ++ '/' ::
  encode_rank (rank_cells pieces 0) 0))))))

/-- Part 3 of `Board::fen`: the castling field (`K`, `Q`, `k`, `q` in that
order, `-` when empty). -/
def castle_chars (c : Nat) : List Char :=
  if c = 0 then ['-']
  else
    (if c &&& WHITE_SHORT ≠ 0 then ['K'] else []) ++
    (if c &&& WHITE_LONG ≠ 0 then ['Q'] else []) ++
    (if c &&& BLACK_SHORT ≠ 0 then ['k'] else []) ++
    (if c &&& BLACK_LONG ≠ 0 then ['q'] else [])

/-- Decimal rendering (`operator<<` on an unsigned integer). -/
def dec_digits (n : Nat) : List Char :=
  if _h : n < 10 then [Char.ofNat (48 + n)]
  else dec_digits (n / 10) ++ [Char.ofNat (48 + n % 10)]
decreasing_by exact Nat.div_lt_self (by omega) (by omega)

/-- `Board::fen`: the six space-separated fields. -/
def fen_string (B : Board) : List Char :=
  encode_placement B.pieces ++ ' ' ::
  ((if B.next_move_colour = WHITE then 'w' else 'b') :: ' ' ::
  (castle_chars B.castle_state ++ ' ' ::
  (string_from_square B.en_passant ++ ' ' ::
  (dec_digits B.fifty_move ++ ' ' :: dec_digits (B.half_move / 2)))))

/-! ## The documented board invariants (spec §3) -/

/-- The §3 invariants of a board, as checked by `validate_board` plus the
parity of the ply counter that the FEN constructor establishes
(`half_move = 2 * full_move + colour`): sentinels empty, square contents
valid-or-empty, piece lists consistent with the piece array and duplicate
free, exactly one king per side, list lengths within `MAX_PIECE_FREQ`,
castle mask in range, en-passant target on the rank matching the side to
move. -/
def ValidBoard (B : Board) : Prop :=
  (∀ sq < 120, ¬ valid_square sq → B.pieces sq = INVALID_PIECE) ∧
  (∀ sq < 120, B.pieces sq = INVALID_PIECE ∨ valid_piece (B.pieces sq)) ∧
  (∀ p < 16, ∀ sq ∈ B.positions p, valid_square sq ∧ B.pieces sq = p) ∧
  (∀ p < 16, (B.positions p).Nodup) ∧
  (∀ sq < 120, valid_piece (B.pieces sq) → sq ∈ B.positions (B.pieces sq)) ∧
  (∀ p, ¬ valid_piece p → B.positions p = []) ∧
  (B.positions WHITE_KING).length = 1 ∧
  (B.positions BLACK_KING).length = 1 ∧
  (∀ p < 16, (B.positions p).length ≤ MAX_PIECE_FREQ) ∧
  B.castle_state < 16 ∧
  (B.en_passant = INVALID_SQUARE ∨
    (valid_square B.en_passant ∧
      get_square_row (B.en_passant : Int) =
        (if B.next_move_colour = WHITE then 5 else 2))) ∧
  B.half_move % 2 = (if B.next_move_colour then 1 else 0)

/-! ## Game operation sequences -/

/-- A step of the mutation API: one `make_move` (its legality result is
discarded, as in `legal_moves`) or one `unmake_move`. -/
inductive GameOp where
  | mk_move (m : Move)
  | un_move
deriving DecidableEq, Repr

/-- Run a sequence of make/unmake calls, `none` if any internal assertion
fails. -/
def run_ops : Board → List GameOp → Option Board
  | B, [] => some B
  | B, GameOp.mk_move m :: ops =>
    match make_move B m with
    | some (B', _) => run_ops B' ops
    | none => none
  | B, GameOp.un_move :: ops =>
    match unmake_move B with
    | some B' => run_ops B' ops
    | none => none

/-- An inert board value, used only as the `Option.getD` default when naming
concrete parse results in witnesses. -/
def empty_board : Board :=
  { pieces := fun _ => INVALID_PIECE, positions := fun _ => [],
    next_move_colour := WHITE, castle_state := 0,
    en_passant := INVALID_SQUARE, fifty_move := 0, half_move := 0,
    hash := 0, history := [], move_cache := [] }

/-- A small concrete position (white King e1 and pawn d2, black king e8)
used by the hash-invariant witness. -/
def c2w_fen : List Char := "4k3/8/8/8/8/8/3P4/4K3 w - - 0 1".toList

def c2w_board : Board := (board_from_fen c2w_fen).getD empty_board

/-- Play d2–d4 and take it back. -/
def c2w_ops : List GameOp :=
  [GameOp.mk_move (double_move 34 54 WHITE_PAWN), GameOp.un_move]

def c2w_board2 : Board := (run_ops c2w_board c2w_ops).getD empty_board


/-- The concrete move used by the `make_move` contract witness. -/
def c7w_move : Move := double_move 34 54 WHITE_PAWN

def c7w_pair : Board × Bool := (make_move c2w_board c7w_move).getD (empty_board, false)


/-- Kings-only position (Ke1, ke8) for the draw cut-off counterexample. -/
def c4_pieces : Nat → Nat := fun sq =>
  if sq = E1 then WHITE_KING else if sq = E8 then BLACK_KING
  else INVALID_PIECE

def c4_positions : Nat → List Nat := fun p =>
  if p = WHITE_KING then [E1] else if p = BLACK_KING then [E8] else []

def c4_board0 : Board :=
  { pieces := c4_pieces, positions := c4_positions,
    next_move_colour := WHITE, castle_state := 0,
    en_passant := INVALID_SQUARE, fifty_move := 0, half_move := 20,
    hash := 0, history := [], move_cache := [] }

def c4_board1 : Board := { c4_board0 with hash := compute_hash c4_board0 }

/-- The same position after the fifty-move counter has run past 75: the
hash does not cover the counters, so the entry the cache stored at
`c4_board1` still matches. -/
def c4_board : Board :=
  { c4_board1 with
    fifty_move := 76,
    move_cache := [(c4_board1.hash, pseudo_moves_scratch c4_board1)] }

/-- The counter has run past 75 but no cache entry exists. -/
def c4w_board : Board := { c4_board1 with fifty_move := 76 }

/-- Kings-only position (Ka1, kh8) for the cache-transparency claim. -/
def c3_pieces : Nat → Nat := fun sq =>
  if sq = A1 then WHITE_KING else if sq = H8 then BLACK_KING
  else INVALID_PIECE

def c3_positions : Nat → List Nat := fun p =>
  if p = WHITE_KING then [A1] else if p = BLACK_KING then [H8] else []

def c3_board0 : Board :=
  { pieces := c3_pieces, positions := c3_positions,
    next_move_colour := WHITE, castle_state := 0,
    en_passant := INVALID_SQUARE, fifty_move := 0, half_move := 30,
    hash := 0, history := [], move_cache := [] }

def c3_board1 : Board := { c3_board0 with hash := compute_hash c3_board0 }

/-- `c3_board1` revisited with the fifty-move counter at 76 and the cache
entry that was stored when the counter was 0. -/
def c3_board : Board :=
  { c3_board1 with
    fifty_move := 76,
    move_cache := [(c3_board1.hash, pseudo_moves_scratch c3_board1)] }

/-- `c3_board1` revisited with both counters still under the cut-offs. -/
def c3w_board : Board :=
  { c3_board1 with
    fifty_move := 10,
    move_cache := [(c3_board1.hash, pseudo_moves_scratch c3_board1)] }


/-! ## Definitions supporting the round-trip and generation analyses -/

/-! ## The piece-list/piece-array coherence core and its preservation -/

/-- The piece-list consistency core of `validate_board`: list entries are
valid squares holding their piece, lists are duplicate-free, every occupied
square occurs in its list, invalid piece ids have empty lists. -/
def PosCore (B : Board) : Prop :=
  (∀ p < 16, ∀ sq ∈ B.positions p, valid_square sq ∧ B.pieces sq = p) ∧
  (∀ p < 16, (B.positions p).Nodup) ∧
  (∀ sq, valid_square sq → valid_piece (B.pieces sq) →
    sq ∈ B.positions (B.pieces sq)) ∧
  (∀ p, ¬ valid_piece p → B.positions p = [])

/-- The facts about an emitted pseudo-move that `make`/`unmake` symmetry
depends on, keyed by flag: destination validity, the `captured` field
agreeing with the board, the `moved` field of a promotion agreeing with the
board, the en-passant target, and castle moves coming from the castling
block. -/
def MoveFacts (pieces : Nat → Nat) (positions : Nat → List Nat) (side : Bool)
    (cs ep : Nat) (m : Move) : Prop :=
  match m.flag with
  | .QUIET_MOVE => valid_square m.toSq ∧ m.captured = INVALID_PIECE
  | .DOUBLE_PAWN_MOVE => valid_square m.toSq ∧ m.captured = INVALID_PIECE ∧
      (side = WHITE → m.toSq / 10 = 5) ∧ (side = BLACK → m.toSq / 10 = 6)
  | .CAPTURE_MOVE => valid_square m.toSq ∧ m.captured = pieces m.toSq
  | .EN_PASSANT_MOVE => m.toSq = ep ∧ ep ≠ INVALID_SQUARE ∧
      m.captured ≠ INVALID_PIECE
  | .PROMOTE_MOVE => valid_square m.toSq ∧ m.captured = INVALID_PIECE ∧
      m.moved = pieces m.fr ∧ m.fr ≠ m.toSq
  | .PROMOTE_CAPTURE_MOVE => valid_square m.toSq ∧
      m.captured = pieces m.toSq ∧ m.moved = pieces m.fr ∧ m.fr ≠ m.toSq ∧
      m.captured ≠ INVALID_PIECE
  | .SHORT_CASTLE_MOVE => m ∈ castle_gen pieces positions side cs
  | .LONG_CASTLE_MOVE => m ∈ castle_gen pieces positions side cs

/-- The state a completed `unmake_move` is required to restore: every scalar
field, the hash, the history and the piece array bit-exactly, the per-piece
position lists up to order (their lengths, the stored counts, agree). -/
def Restored (B' B : Board) : Prop :=
  (∀ sq, B'.pieces sq = B.pieces sq) ∧
  (∀ p, (B'.positions p).Perm (B.positions p)) ∧
  B'.next_move_colour = B.next_move_colour ∧
  B'.castle_state = B.castle_state ∧
  B'.en_passant = B.en_passant ∧
  B'.fifty_move = B.fifty_move ∧
  B'.half_move = B.half_move ∧
  B'.hash = B.hash ∧
  B'.history = B.history ∧
  B'.move_cache = B.move_cache

/-! ## C1: round trip -/

def c1cx_fen : List Char := "k7/1p6/8/8/8/8/2p5/KR6 w - - 0 1".data

def c1cx_board : Board := (board_from_fen c1cx_fen).getD empty_board

def c1cx_move : Move := capture_move B1 82 WHITE_ROOK BLACK_PAWN

def c1cx_after : Board :=
  ((make_move c1cx_board c1cx_move).map Prod.fst).getD empty_board

def c1cx_back : Board := (unmake_move c1cx_after).getD empty_board

/-! ## C10: castle-right stripping is keyed on the from-square only -/

/-- The castle-state update of `update_castling`, as a function of the
from-square, the moved piece and the old rights. -/
def castle_rights_after (sq moved c : Nat) : Nat :=
  if is_castle moved then
    let c1 := if sq = E1 ∨ sq = A1 then clear_bits c WHITE_LONG else c
    let c2 := if sq = E1 ∨ sq = H1 then clear_bits c1 WHITE_SHORT else c1
    let c3 := if sq = E8 ∨ sq = A8 then clear_bits c2 BLACK_LONG else c2
    if sq = E8 ∨ sq = H8 then clear_bits c3 BLACK_SHORT else c3
  else c

def c10_fen : List Char := "R6r/8/7k/8/8/8/8/4K3 w kq - 0 1".data

def c10_board : Board := (board_from_fen c10_fen).getD empty_board

def c10_move : Move := capture_move A8 H8 WHITE_ROOK BLACK_ROOK

def c10_after : Board :=
  ((make_move c10_board c10_move).map Prod.fst).getD empty_board

def c5_fen : List Char := "4k1r1/8/8/8/8/8/8/4K2R w K - 0 1".data

def c5_board : Board := (board_from_fen c5_fen).getD empty_board

def c5_move : Move := castle_move E1 G1 WHITE_KING MoveFlag.SHORT_CASTLE_MOVE

/-! ## C6: the en-passant invariant -/

/-- The pawn of a given side. -/
def side_pawn (c : Bool) : Nat := if c = WHITE then WHITE_PAWN else BLACK_PAWN

def c6_fen : List Char := "k7/8/8/8/8/8/3P4/K7 w - - 0 1".data

def c6_board : Board := (board_from_fen c6_fen).getD empty_board

def c6_move : Move := double_move 34 54 WHITE_PAWN

def c6_after : Board :=
  ((make_move c6_board c6_move).map Prod.fst).getD empty_board

def sq_occs (pieces : Nat → Nat) (p lo len : Nat) : List Nat :=
  (List.range' lo len).filter (fun sq => pieces sq == p)

def c8cx_P0 : Board :=
  { pieces := fun sq =>
      if sq = 25 then WHITE_KING else if sq = 95 then BLACK_KING
      else if sq = 54 then WHITE_PAWN else INVALID_PIECE,
    positions := fun p =>
      if p = WHITE_KING then [25] else if p = BLACK_KING then [95]
      else if p = WHITE_PAWN then [54] else [],
    next_move_colour := BLACK, castle_state := 0,
    en_passant := 44, fifty_move := 0, half_move := 1,
    hash := 0, history := [], move_cache := [] }

def c8cx_P : Board := { c8cx_P0 with hash := compute_hash c8cx_P0 }

def c8cx_qfen : List Char := "4k3/8/8/8/3P4/8/8/4K3 b - d3 0 0".toList

def c8cx_Q : Board := (board_from_fen c8cx_qfen).getD empty_board

def c8w_fen : List Char := "4k3/8/8/8/8/8/8/4K3 w - - 0 1".toList

def c8w_board : Board := (board_from_fen c8w_fen).getD empty_board

/-- A FEN-parseable board whose en-passant data is incoherent with the
position: the en-passant target d3 survives parsing thanks to the black
pawn on c3, but the capture square d4 holds a white knight, not the white
pawn an en-passant capture would restore. -/
def c1ep_fen : List Char := "4k3/8/8/8/2pN4/2p5/8/4K3 b - d3 0 1".toList

def c1ep_board : Board := (board_from_fen c1ep_fen).getD empty_board

/-- The en-passant capture c4xd3 the generator emits from `c1ep_board`. -/
def c1ep_move : Move := en_passant_move 53 44 BLACK_PAWN

def c1ep_after : Board :=
  ((make_move c1ep_board c1ep_move).map Prod.fst).getD empty_board

/-- A FEN whose en-passant field has the unvalidated file character `z`:
the row character is checked, the file character is not, and the white
pawn on g8 defeats the neighbour-pawn elision. -/
def c6z_fen : List Char := "4k1P1/8/8/8/8/8/8/4K3 w - z6 0 1".toList

def c6z_board : Board := (board_from_fen c6z_fen).getD empty_board

/-! # Theorems -/

/-! ## XOR and update infrastructure -/

theorem updf_same {α : Type} (f : Nat → α) (x : Nat) (v : α) :
    updf f x v x = v := by simp [updf]

theorem updf_other {α : Type} (f : Nat → α) (x : Nat) (v : α) {y : Nat}
    (h : y ≠ x) : updf f x v y = f y := by simp [updf, h]

theorem nat_xor_left_comm (a b c : Nat) : a ^^^ (b ^^^ c) = b ^^^ (a ^^^ c) := by
  rw [← Nat.xor_assoc, Nat.xor_comm a b, Nat.xor_assoc]

theorem nat_xor_cancel_left (a b : Nat) : a ^^^ (a ^^^ b) = b := by
  rw [← Nat.xor_assoc, Nat.xor_self, Nat.zero_xor]

theorem foldl_xor_acc (g : Nat → Nat) (l : List Nat) (a : Nat) :
    l.foldl (fun h x => h ^^^ g x) a = a ^^^ l.foldl (fun h x => h ^^^ g x) 0 := by
  induction l generalizing a with
  | nil => simp
  | cons x xs ih =>
    simp only [List.foldl_cons]
    rw [ih (a ^^^ g x), ih (0 ^^^ g x)]
    simp [Nat.xor_assoc]

theorem foldl_xor_congr (g g' : Nat → Nat) (l : List Nat)
    (h : ∀ x ∈ l, g x = g' x) :
    l.foldl (fun h x => h ^^^ g x) 0 = l.foldl (fun h x => h ^^^ g' x) 0 := by
  induction l with
  | nil => rfl
  | cons x xs ih =>
    simp only [List.foldl_cons]
    rw [foldl_xor_acc g, foldl_xor_acc g']
    rw [h x (by simp), ih (fun y hy => h y (by simp [hy]))]

theorem foldl_xor_split (g : Nat → Nat) (l1 l2 : List Nat) (x : Nat) :
    (l1 ++ x :: l2).foldl (fun h y => h ^^^ g y) 0 =
      l1.foldl (fun h y => h ^^^ g y) 0 ^^^ g x ^^^
        l2.foldl (fun h y => h ^^^ g y) 0 := by
  rw [List.foldl_append, List.foldl_cons, foldl_xor_acc g l2]

theorem piece_hash_invalid (sq : Nat) : piece_hash sq INVALID_PIECE = 0 := by
  have : ¬ valid_piece INVALID_PIECE := by decide
  simp [piece_hash, this]

theorem piece_hash_bad_square {sq : Nat} (h : ¬ valid_square sq) (p : Nat) :
    piece_hash sq p = 0 := by
  simp [piece_hash, h]

/-- Updating one mailbox cell XORs the old and new piece hashes into the
board hash (off-board updates leave it unchanged since their hashes are
zero). -/
theorem board_hash_updf (f : Nat → Nat) (sq v : Nat) :
    board_hash (updf f sq v) =
      board_hash f ^^^ piece_hash sq (f sq) ^^^ piece_hash sq v := by
  by_cases hsq : sq < 120
  · obtain ⟨l1, l2, hsplit⟩ := List.append_of_mem (List.mem_range.mpr hsq)
    have hnd : (List.range 120).Nodup := List.nodup_range 120
    rw [hsplit] at hnd
    obtain ⟨hl1, hl2, hdisj⟩ := List.nodup_append.mp hnd
    have hsq1 : sq ∉ l1 := fun hc => hdisj hc (List.mem_cons_self _ _)
    have hsq2 : sq ∉ l2 := (List.nodup_cons.mp hl2).1
    unfold board_hash
    rw [hsplit, foldl_xor_split, foldl_xor_split]
    rw [foldl_xor_congr (fun x => piece_hash x (updf f sq v x))
      (fun x => piece_hash x (f x)) l1
      (fun x hx => by
        show piece_hash x (updf f sq v x) = piece_hash x (f x)
        have hne : x ≠ sq := fun hxy => hsq1 (hxy ▸ hx)
        rw [updf_other _ _ _ hne])]
    rw [foldl_xor_congr (fun x => piece_hash x (updf f sq v x))
      (fun x => piece_hash x (f x)) l2
      (fun x hx => by
        show piece_hash x (updf f sq v x) = piece_hash x (f x)
        have hne : x ≠ sq := fun hxy => hsq2 (hxy ▸ hx)
        rw [updf_other _ _ _ hne])]
    rw [updf_same]
    simp [Nat.xor_assoc, Nat.xor_comm, nat_xor_left_comm, nat_xor_cancel_left,
      Nat.xor_self, Nat.xor_zero, Nat.zero_xor]
  · have h0 : ¬ valid_square sq := by unfold valid_square; omega
    rw [piece_hash_bad_square h0, piece_hash_bad_square h0,
      Nat.xor_zero, Nat.xor_zero]
    unfold board_hash
    apply foldl_xor_congr
    intro x hx
    have hxs : x ≠ sq := by have := List.mem_range.mp hx; omega
    rw [updf_other _ _ _ hxs]

/-! ## Characterizations of the `Option`-valued primitives -/

theorem remove_piece_eq_some {B B' : Board} {sq : Nat} :
    remove_piece B sq = some B' ↔
      valid_piece (B.pieces sq) ∧ sq ∈ B.positions (B.pieces sq) ∧
      B' = { B with
        pieces := updf B.pieces sq INVALID_PIECE,
        positions := updf B.positions (B.pieces sq)
          (swap_remove (B.positions (B.pieces sq)) sq),
        hash := B.hash ^^^ piece_hash sq (B.pieces sq) } := by
  unfold remove_piece
  by_cases h : valid_piece (B.pieces sq) ∧ sq ∈ B.positions (B.pieces sq)
  · simp only [if_pos h, Option.some_inj]
    constructor
    · intro he; exact ⟨h.1, h.2, he.symm⟩
    · intro he; exact he.2.2.symm
  · simp only [if_neg h]
    constructor
    · intro he; cases he
    · intro he; exact absurd ⟨he.1, he.2.1⟩ h

theorem add_piece_eq_some {B B' : Board} {sq piece : Nat} :
    add_piece B sq piece = some B' ↔
      valid_piece piece ∧ B.pieces sq = INVALID_PIECE ∧
      B' = { B with
        pieces := updf B.pieces sq piece,
        positions := updf B.positions piece (B.positions piece ++ [sq]),
        hash := B.hash ^^^ piece_hash sq piece } := by
  unfold add_piece
  by_cases h : valid_piece piece ∧ B.pieces sq = INVALID_PIECE
  · simp only [if_pos h, Option.some_inj]
    constructor
    · intro he; exact ⟨h.1, h.2, he.symm⟩
    · intro he; exact he.2.2.symm
  · simp only [if_neg h]
    constructor
    · intro he; cases he
    · intro he; exact absurd ⟨he.1, he.2.1⟩ h

theorem move_piece_eq_some {B B' : Board} {fr tsq : Nat} :
    move_piece B fr tsq = some B' ↔
      B.pieces tsq = INVALID_PIECE ∧ fr ∈ B.positions (B.pieces fr) ∧
      B' = { B with
        pieces := updf (updf B.pieces fr INVALID_PIECE) tsq (B.pieces fr),
        positions := updf B.positions (B.pieces fr)
          ((B.positions (B.pieces fr)).set
            ((B.positions (B.pieces fr)).indexOf fr) tsq),
        hash := B.hash ^^^ piece_hash fr (B.pieces fr) ^^^
          piece_hash tsq (B.pieces fr) } := by
  unfold move_piece
  by_cases h1 : B.pieces tsq = INVALID_PIECE
  · by_cases h2 : fr ∈ B.positions (B.pieces fr)
    · simp only [if_pos h1, if_pos h2, Option.some_inj]
      constructor
      · intro he; exact ⟨h1, h2, he.symm⟩
      · intro he; exact he.2.2.symm
    · simp only [if_pos h1, if_neg h2]
      constructor
      · intro he; cases he
      · intro he; exact absurd he.2.1 h2
  · simp only [if_neg h1]
    constructor
    · intro he; cases he
    · intro he; exact absurd he.1 h1


/-! ## Hash invariant: each primitive keeps `hash = compute_hash` -/

theorem compute_hash_fields (B : Board) :
    compute_hash B = board_hash B.pieces ^^^ castle_hash B.castle_state ^^^
      enpas_hash B.en_passant ^^^
      (if B.next_move_colour then side_hash else 0) := rfl

theorem remove_piece_hashinv {B B' : Board} {sq : Nat}
    (h : remove_piece B sq = some B') (hi : B.hash = compute_hash B) :
    B'.hash = compute_hash B' := by
  obtain ⟨hv, hmem, rfl⟩ := remove_piece_eq_some.mp h
  rw [compute_hash_fields] at hi
  rw [compute_hash_fields]
  dsimp only
  rw [board_hash_updf, piece_hash_invalid, hi]
  simp [Nat.xor_assoc, Nat.xor_comm, nat_xor_left_comm, nat_xor_cancel_left,
    Nat.xor_self, Nat.xor_zero, Nat.zero_xor]

theorem add_piece_hashinv {B B' : Board} {sq piece : Nat}
    (h : add_piece B sq piece = some B') (hi : B.hash = compute_hash B) :
    B'.hash = compute_hash B' := by
  obtain ⟨hv, hempty, rfl⟩ := add_piece_eq_some.mp h
  rw [compute_hash_fields] at hi
  rw [compute_hash_fields]
  dsimp only
  rw [board_hash_updf, hempty, piece_hash_invalid, hi]
  simp [Nat.xor_assoc, Nat.xor_comm, nat_xor_left_comm, nat_xor_cancel_left,
    Nat.xor_self, Nat.xor_zero, Nat.zero_xor]

theorem move_piece_hashinv {B B' : Board} {fr tsq : Nat}
    (h : move_piece B fr tsq = some B') (hi : B.hash = compute_hash B) :
    B'.hash = compute_hash B' := by
  obtain ⟨hempty, hmem, rfl⟩ := move_piece_eq_some.mp h
  rw [compute_hash_fields] at hi
  rw [compute_hash_fields]
  dsimp only
  rw [board_hash_updf, board_hash_updf, piece_hash_invalid, hi]
  by_cases hft : tsq = fr
  · subst hft
    rw [updf_same, piece_hash_invalid]
    simp [Nat.xor_assoc, Nat.xor_comm, nat_xor_left_comm, nat_xor_cancel_left,
      Nat.xor_self, Nat.xor_zero, Nat.zero_xor]
  · rw [updf_other _ _ _ hft, hempty, piece_hash_invalid]
    simp [Nat.xor_assoc, Nat.xor_comm, nat_xor_left_comm, nat_xor_cancel_left,
      Nat.xor_self, Nat.xor_zero, Nat.zero_xor]

theorem set_castle_state_hashinv {B : Board} {st : Nat}
    (hi : B.hash = compute_hash B) :
    (set_castle_state B st).hash = compute_hash (set_castle_state B st) := by
  unfold set_castle_state
  rw [compute_hash_fields] at hi
  rw [compute_hash_fields]
  dsimp only
  rw [hi]
  simp [Nat.xor_assoc, Nat.xor_comm, nat_xor_left_comm, nat_xor_cancel_left,
    Nat.xor_self, Nat.xor_zero, Nat.zero_xor]

theorem set_en_passant_hashinv {B : Board} {sq : Nat}
    (hi : B.hash = compute_hash B) :
    (set_en_passant B sq).hash = compute_hash (set_en_passant B sq) := by
  unfold set_en_passant
  rw [compute_hash_fields] at hi
  rw [compute_hash_fields]
  dsimp only
  rw [hi]
  simp [Nat.xor_assoc, Nat.xor_comm, nat_xor_left_comm, nat_xor_cancel_left,
    Nat.xor_self, Nat.xor_zero, Nat.zero_xor]

theorem switch_colours_hashinv {B : Board}
    (hi : B.hash = compute_hash B) :
    (switch_colours B).hash = compute_hash (switch_colours B) := by
  unfold switch_colours
  rw [compute_hash_fields] at hi
  rw [compute_hash_fields]
  dsimp only
  rw [hi]
  cases hc : B.next_move_colour <;>
    simp [Nat.xor_assoc, Nat.xor_comm, nat_xor_left_comm, nat_xor_cancel_left,
      Nat.xor_self, Nat.xor_zero, Nat.zero_xor]

theorem update_castling_hashinv {B : Board} {sq moved : Nat}
    (hi : B.hash = compute_hash B) :
    (update_castling B sq moved).hash =
      compute_hash (update_castling B sq moved) := by
  unfold update_castling
  by_cases hc : is_castle moved
  · simp only [hc, if_true]
    rw [compute_hash_fields] at hi
    rw [compute_hash_fields]
    dsimp only
    rw [hi]
    simp [Nat.xor_assoc, Nat.xor_comm, nat_xor_left_comm, nat_xor_cancel_left,
      Nat.xor_self, Nat.xor_zero, Nat.zero_xor]
  · simp only [hc, if_false]
    exact hi

/-! ## Eliminating `make_move` / `unmake_move` into their stages -/

theorem make_move_eq_some {B : Board} {m : Move} {B' : Board} {r : Bool} :
    make_move B m = some (B', r) ↔
      ∃ B3, make_apply (make_start B m) B.next_move_colour m = some B3 ∧
        B' = make_finish B3 m ∧
        r = ! square_attacked B'
          ((B'.positions (if B.next_move_colour = WHITE then WHITE_KING
            else BLACK_KING)).headD 0) (!B.next_move_colour) := by
  unfold make_move
  cases happ : make_apply (make_start B m) B.next_move_colour m with
  | none =>
    simp only [happ]
    constructor
    · intro hc; exact Option.noConfusion hc
    · rintro ⟨B3, hB3, -, -⟩; exact Option.noConfusion hB3
  | some B3 =>
    simp only [happ, Option.some_inj, Prod.mk.injEq]
    constructor
    · rintro ⟨hB', hr⟩
      exact ⟨B3, rfl, hB'.symm, by rw [← hB', ← hr]⟩
    · rintro ⟨B3', hB3', hB', hr⟩
      cases hB3'
      exact ⟨hB'.symm, by rw [hr, hB']⟩

theorem unmake_move_eq_some {B B' : Board} :
    unmake_move B = some B' ↔
      ∃ entry rest, B.history = entry :: rest ∧ B.half_move ≠ 0 ∧
        unmake_reverse (unmake_start B entry rest)
          (unmake_start B entry rest).next_move_colour entry.move = some B' ∧
        B'.hash = entry.hash := by
  unfold unmake_move
  cases hh : B.history with
  | nil =>
    simp only []
    constructor
    · intro hc; exact Option.noConfusion hc
    · rintro ⟨e, rs, he, -⟩; exact List.noConfusion he
  | cons entry rest =>
    simp only []
    constructor
    · intro hc
      by_cases hz : B.half_move = 0
      · rw [if_pos hz] at hc; exact Option.noConfusion hc
      · rw [if_neg hz] at hc
        cases hrev : unmake_reverse (unmake_start B entry rest)
            (unmake_start B entry rest).next_move_colour entry.move with
        | none =>
          simp only [hrev] at hc
          exact Option.noConfusion hc
        | some B6 =>
          simp only [hrev] at hc
          by_cases hhash : B6.hash = entry.hash
          · rw [if_pos hhash] at hc
            cases Option.some_inj.mp hc
            exact ⟨entry, rest, rfl, hz, hrev, hhash⟩
          · rw [if_neg hhash] at hc; exact Option.noConfusion hc
    · rintro ⟨e, rs, he, hz, hrev, hhash⟩
      injection he with h1 h2
      subst h1; subst h2
      rw [if_neg hz]
      simp only [hrev]
      rw [if_pos hhash]

/-! ## Hash invariant through `make_move` and `unmake_move` -/

theorem make_apply_promote_hashinv {B1 B3 : Board} {m : Move}
    (h : make_apply_promote B1 m = some B3) (hi : B1.hash = compute_hash B1) :
    B3.hash = compute_hash B3 := by
  unfold make_apply_promote at h
  rcases Option.bind_eq_some.mp h with ⟨Ba, hBa, h2⟩
  have hai : Ba.hash = compute_hash Ba := by
    by_cases hcap : move_captured m
    · rw [if_pos hcap] at hBa; exact remove_piece_hashinv hBa hi
    · rw [if_neg hcap] at hBa; cases Option.some_inj.mp hBa; exact hi
  rcases Option.bind_eq_some.mp h2 with ⟨Bb, hBb, h3⟩
  have hbi := add_piece_hashinv hBb hai
  rcases Option.bind_eq_some.mp h3 with ⟨Bc, hBc, h4⟩
  have hci := remove_piece_hashinv hBc hbi
  cases Option.some_inj.mp h4
  exact set_en_passant_hashinv hci

theorem make_castle_moves_hashinv {B1 Bx : Board} {cs : Bool} {flag : MoveFlag}
    (h : make_castle_moves B1 cs flag = some Bx)
    (hi : B1.hash = compute_hash B1) : Bx.hash = compute_hash Bx := by
  unfold make_castle_moves at h
  by_cases hw : cs = WHITE
  · rw [if_pos hw] at h
    by_cases hs : flag = MoveFlag.SHORT_CASTLE_MOVE
    · rw [if_pos hs] at h
      rcases Option.bind_eq_some.mp h with ⟨By, hBy, h2⟩
      exact move_piece_hashinv h2 (move_piece_hashinv hBy hi)
    · rw [if_neg hs] at h
      rcases Option.bind_eq_some.mp h with ⟨By, hBy, h2⟩
      exact move_piece_hashinv h2 (move_piece_hashinv hBy hi)
  · rw [if_neg hw] at h
    by_cases hs : flag = MoveFlag.SHORT_CASTLE_MOVE
    · rw [if_pos hs] at h
      rcases Option.bind_eq_some.mp h with ⟨By, hBy, h2⟩
      exact move_piece_hashinv h2 (move_piece_hashinv hBy hi)
    · rw [if_neg hs] at h
      rcases Option.bind_eq_some.mp h with ⟨By, hBy, h2⟩
      exact move_piece_hashinv h2 (move_piece_hashinv hBy hi)

theorem make_apply_castle_hashinv {B1 B3 : Board} {cs : Bool} {m : Move}
    (h : make_apply_castle B1 cs m = some B3)
    (hi : B1.hash = compute_hash B1) : B3.hash = compute_hash B3 := by
  unfold make_apply_castle at h
  rcases Option.bind_eq_some.mp h with ⟨Bx, hBx, h2⟩
  have hxi := make_castle_moves_hashinv hBx hi
  cases Option.some_inj.mp h2
  exact set_en_passant_hashinv (set_castle_state_hashinv hxi)

theorem make_enpas_update_hashinv {B1 : Board} {cs : Bool} {m : Move}
    (hi : B1.hash = compute_hash B1) :
    (make_enpas_update B1 cs m).hash = compute_hash (make_enpas_update B1 cs m) := by
  unfold make_enpas_update
  split
  · exact set_en_passant_hashinv hi
  · exact set_en_passant_hashinv hi

theorem make_apply_basic_hashinv {B1 B3 : Board} {cs : Bool} {m : Move}
    (h : make_apply_basic B1 cs m = some B3)
    (hi : B1.hash = compute_hash B1) : B3.hash = compute_hash B3 := by
  have h2i := @make_enpas_update_hashinv B1 cs m hi
  unfold make_apply_basic at h
  by_cases hq : m.flag = MoveFlag.QUIET_MOVE
  · rw [if_pos hq] at h
    rcases Option.bind_eq_some.mp h with ⟨Ba, hBa, h2⟩
    cases Option.some_inj.mp h2
    exact update_castling_hashinv (move_piece_hashinv hBa h2i)
  · rw [if_neg hq] at h
    by_cases hd : m.flag = MoveFlag.DOUBLE_PAWN_MOVE
    · rw [if_pos hd] at h
      exact move_piece_hashinv h h2i
    · rw [if_neg hd] at h
      by_cases hcp : m.flag = MoveFlag.CAPTURE_MOVE
      · rw [if_pos hcp] at h
        rcases Option.bind_eq_some.mp h with ⟨Ba, hBa, h2⟩
        rcases Option.bind_eq_some.mp h2 with ⟨Bb, hBb, h3⟩
        cases Option.some_inj.mp h3
        exact update_castling_hashinv
          (move_piece_hashinv hBb (remove_piece_hashinv hBa h2i))
      · rw [if_neg hcp] at h
        by_cases hep : m.flag = MoveFlag.EN_PASSANT_MOVE
        · rw [if_pos hep] at h
          rcases Option.bind_eq_some.mp h with ⟨Ba, hBa, h2⟩
          exact move_piece_hashinv h2 (remove_piece_hashinv hBa h2i)
        · rw [if_neg hep] at h
          cases Option.some_inj.mp h
          exact h2i

theorem make_apply_hashinv {B1 B3 : Board} {cs : Bool} {m : Move}
    (h : make_apply B1 cs m = some B3)
    (hi : B1.hash = compute_hash B1) : B3.hash = compute_hash B3 := by
  unfold make_apply at h
  by_cases hp : move_promoted m
  · rw [if_pos hp] at h; exact make_apply_promote_hashinv h hi
  · rw [if_neg hp] at h
    by_cases hc : move_castled m
    · rw [if_pos hc] at h; exact make_apply_castle_hashinv h hi
    · rw [if_neg hc] at h; exact make_apply_basic_hashinv h hi

theorem make_move_hashinv {B B' : Board} {m : Move} {r : Bool}
    (h : make_move B m = some (B', r)) (hi : B.hash = compute_hash B) :
    B'.hash = compute_hash B' := by
  obtain ⟨B3, happ, hB', -⟩ := make_move_eq_some.mp h
  have h1 : (make_start B m).hash = compute_hash (make_start B m) := hi
  have h3 := make_apply_hashinv happ h1
  subst hB'
  unfold make_finish
  exact switch_colours_hashinv h3

theorem unmake_start_hashinv {B : Board} {e : HistoryEntry}
    {rest : List HistoryEntry} (hi : B.hash = compute_hash B) :
    (unmake_start B e rest).hash = compute_hash (unmake_start B e rest) := by
  unfold unmake_start
  exact switch_colours_hashinv
    (set_en_passant_hashinv (set_castle_state_hashinv hi))

theorem unmake_reverse_promote_hashinv {B5 B6 : Board} {m : Move}
    (h : unmake_reverse_promote B5 m = some B6)
    (hi : B5.hash = compute_hash B5) : B6.hash = compute_hash B6 := by
  unfold unmake_reverse_promote at h
  rcases Option.bind_eq_some.mp h with ⟨Ba, hBa, h2⟩
  have hai := remove_piece_hashinv hBa hi
  rcases Option.bind_eq_some.mp h2 with ⟨Bb, hBb, h3⟩
  have hbi := add_piece_hashinv hBb hai
  by_cases hcap : move_captured m
  · rw [if_pos hcap] at h3; exact add_piece_hashinv h3 hbi
  · rw [if_neg hcap] at h3; cases Option.some_inj.mp h3; exact hbi

theorem unmake_castle_moves_hashinv {B5 B6 : Board} {cs : Bool} {flag : MoveFlag}
    (h : unmake_castle_moves B5 cs flag = some B6)
    (hi : B5.hash = compute_hash B5) : B6.hash = compute_hash B6 := by
  unfold unmake_castle_moves at h
  by_cases hw : cs = WHITE
  · rw [if_pos hw] at h
    by_cases hs : flag = MoveFlag.SHORT_CASTLE_MOVE
    · rw [if_pos hs] at h
      rcases Option.bind_eq_some.mp h with ⟨Ba, hBa, h2⟩
      exact move_piece_hashinv h2 (move_piece_hashinv hBa hi)
    · rw [if_neg hs] at h
      rcases Option.bind_eq_some.mp h with ⟨Ba, hBa, h2⟩
      exact move_piece_hashinv h2 (move_piece_hashinv hBa hi)
  · rw [if_neg hw] at h
    by_cases hs : flag = MoveFlag.SHORT_CASTLE_MOVE
    · rw [if_pos hs] at h
      rcases Option.bind_eq_some.mp h with ⟨Ba, hBa, h2⟩
      exact move_piece_hashinv h2 (move_piece_hashinv hBa hi)
    · rw [if_neg hs] at h
      rcases Option.bind_eq_some.mp h with ⟨Ba, hBa, h2⟩
      exact move_piece_hashinv h2 (move_piece_hashinv hBa hi)

theorem unmake_reverse_basic_hashinv {B5 B6 : Board} {cs : Bool} {m : Move}
    (h : unmake_reverse_basic B5 cs m = some B6)
    (hi : B5.hash = compute_hash B5) : B6.hash = compute_hash B6 := by
  unfold unmake_reverse_basic at h
  rcases Option.bind_eq_some.mp h with ⟨Ba, hBa, h2⟩
  have hai := move_piece_hashinv hBa hi
  by_cases hcap : move_captured m
  · rw [if_pos hcap] at h2; exact add_piece_hashinv h2 hai
  · rw [if_neg hcap] at h2; cases Option.some_inj.mp h2; exact hai

theorem unmake_reverse_hashinv {B5 B6 : Board} {cs : Bool} {m : Move}
    (h : unmake_reverse B5 cs m = some B6)
    (hi : B5.hash = compute_hash B5) : B6.hash = compute_hash B6 := by
  unfold unmake_reverse at h
  by_cases hp : move_promoted m
  · rw [if_pos hp] at h; exact unmake_reverse_promote_hashinv h hi
  · rw [if_neg hp] at h
    by_cases hc : move_castled m
    · rw [if_pos hc] at h; exact unmake_castle_moves_hashinv h hi
    · rw [if_neg hc] at h; exact unmake_reverse_basic_hashinv h hi

theorem unmake_move_hashinv {B B' : Board}
    (h : unmake_move B = some B') (hi : B.hash = compute_hash B) :
    B'.hash = compute_hash B' := by
  obtain ⟨entry, rest, hh, hz, hrev, -⟩ := unmake_move_eq_some.mp h
  exact unmake_reverse_hashinv hrev (unmake_start_hashinv hi)


/-! ## The hash invariant at construction and through game sequences -/

theorem assemble_board_hashinv (pieces : Nat → Nat) (positions : Nat → List Nat)
    (colour : Bool) (castle ep fifty full : Nat) :
    (assemble_board pieces positions colour castle ep fifty full).hash =
      compute_hash (assemble_board pieces positions colour castle ep fifty full) := rfl

theorem board_from_fen_hashinv {f : List Char} {B : Board}
    (h : board_from_fen f = some B) : B.hash = compute_hash B := by
  unfold board_from_fen at h
  rcases Option.bind_eq_some.mp h with ⟨st1, h1, h2⟩
  unfold parse_after_placement at h2
  by_cases hidx : st1.2.1 ≠ 29
  · rw [if_pos hidx] at h2; exact Option.noConfusion h2
  · rw [if_neg hidx] at h2
    match hr : st1.1, h2 with
    | [], h2 => exact Option.noConfusion h2
    | [c], h2 => exact Option.noConfusion h2
    | side_chr :: c2 :: rest2, h2 =>
      rcases Option.bind_eq_some.mp h2 with ⟨colour, h3, h4⟩
      rcases Option.bind_eq_some.mp h4 with ⟨st3, h5, h6⟩
      rcases Option.bind_eq_some.mp h6 with ⟨st4, h7, h8⟩
      rcases Option.bind_eq_some.mp h8 with ⟨st5, h9, h10⟩
      rcases Option.bind_eq_some.mp h10 with ⟨full, h11, h12⟩
      cases Option.some_inj.mp h12
      exact assemble_board_hashinv _ _ _ _ _ _ _

theorem run_ops_hashinv {ops : List GameOp} {B B' : Board}
    (h : run_ops B ops = some B') (hi : B.hash = compute_hash B) :
    B'.hash = compute_hash B' := by
  induction ops generalizing B with
  | nil =>
    unfold run_ops at h
    cases Option.some_inj.mp h
    exact hi
  | cons op ops ih =>
    unfold run_ops at h
    cases op with
    | mk_move m =>
      cases hm : make_move B m with
      | none =>
        simp only [hm] at h
        exact Option.noConfusion h
      | some pr =>
        obtain ⟨B1, r⟩ := pr
        simp only [hm] at h
        exact ih h (make_move_hashinv hm hi)
    | un_move =>
      cases hm : unmake_move B with
      | none =>
        simp only [hm] at h
        exact Option.noConfusion h
      | some B1 =>
        simp only [hm] at h
        exact ih h (unmake_move_hashinv hm hi)


/-! ## Claim C2 -/

/-- **C2.** After FEN construction and after any sequence of
`make_move`/`unmake_move` calls that completes without a failed assertion,
the incrementally maintained stored hash equals the full Zobrist
recomputation (XOR over occupied squares of `piece_hash`, XOR
`castle_hash[castle_state]`, XOR `enpas_hash[en_passant]`, XOR `side_hash`
when black is to move). -/
theorem C2_stored_hash_equals_recomputation (f : List Char)
    (ops : List GameOp) (B B2 : Board) (hparse : board_from_fen f = some B)
    (hrun : run_ops B ops = some B2) :
    B.hash = compute_hash B ∧ B2.hash = compute_hash B2 :=
  ⟨board_from_fen_hashinv hparse,
   run_ops_hashinv hrun (board_from_fen_hashinv hparse)⟩

/-- Witness for C2 at a concrete position and a concrete make/unmake pair. -/
theorem C2_witness :
    c2w_board.hash = compute_hash c2w_board ∧
    c2w_board2.hash = compute_hash c2w_board2 :=
  C2_stored_hash_equals_recomputation c2w_fen c2w_ops c2w_board c2w_board2
    (by rfl) (by rfl)



/-! ## Frame lemmas (fields untouched by the primitives) -/

theorem remove_piece_frame {B B' : Board} {sq : Nat}
    (h : remove_piece B sq = some B') :
    B'.next_move_colour = B.next_move_colour ∧
    B'.castle_state = B.castle_state ∧ B'.en_passant = B.en_passant ∧
    B'.fifty_move = B.fifty_move ∧ B'.half_move = B.half_move ∧
    B'.history = B.history ∧ B'.move_cache = B.move_cache := by
  obtain ⟨-, -, rfl⟩ := remove_piece_eq_some.mp h
  exact ⟨rfl, rfl, rfl, rfl, rfl, rfl, rfl⟩

theorem add_piece_frame {B B' : Board} {sq piece : Nat}
    (h : add_piece B sq piece = some B') :
    B'.next_move_colour = B.next_move_colour ∧
    B'.castle_state = B.castle_state ∧ B'.en_passant = B.en_passant ∧
    B'.fifty_move = B.fifty_move ∧ B'.half_move = B.half_move ∧
    B'.history = B.history ∧ B'.move_cache = B.move_cache := by
  obtain ⟨-, -, rfl⟩ := add_piece_eq_some.mp h
  exact ⟨rfl, rfl, rfl, rfl, rfl, rfl, rfl⟩

theorem move_piece_frame {B B' : Board} {fr tsq : Nat}
    (h : move_piece B fr tsq = some B') :
    B'.next_move_colour = B.next_move_colour ∧
    B'.castle_state = B.castle_state ∧ B'.en_passant = B.en_passant ∧
    B'.fifty_move = B.fifty_move ∧ B'.half_move = B.half_move ∧
    B'.history = B.history ∧ B'.move_cache = B.move_cache := by
  obtain ⟨-, -, rfl⟩ := move_piece_eq_some.mp h
  exact ⟨rfl, rfl, rfl, rfl, rfl, rfl, rfl⟩

theorem make_apply_frame {B1 B3 : Board} {cs : Bool} {m : Move}
    (h : make_apply B1 cs m = some B3) :
    B3.next_move_colour = B1.next_move_colour ∧
    B3.history = B1.history ∧ B3.half_move = B1.half_move ∧
    B3.move_cache = B1.move_cache := by
  unfold make_apply at h
  by_cases hp : move_promoted m
  · rw [if_pos hp] at h
    unfold make_apply_promote at h
    rcases Option.bind_eq_some.mp h with ⟨Ba, hBa, h2⟩
    have fa : Ba.next_move_colour = B1.next_move_colour ∧
        Ba.history = B1.history ∧ Ba.half_move = B1.half_move ∧
        Ba.move_cache = B1.move_cache := by
      by_cases hcap : move_captured m
      · rw [if_pos hcap] at hBa
        obtain ⟨f1, -, -, -, f5, f6, f7⟩ := remove_piece_frame hBa
        exact ⟨f1, f6, f5, f7⟩
      · rw [if_neg hcap] at hBa; cases Option.some_inj.mp hBa
        exact ⟨rfl, rfl, rfl, rfl⟩
    rcases Option.bind_eq_some.mp h2 with ⟨Bb, hBb, h3⟩
    obtain ⟨g1, -, -, -, g5, g6, g7⟩ := add_piece_frame hBb
    rcases Option.bind_eq_some.mp h3 with ⟨Bc, hBc, h4⟩
    obtain ⟨k1, -, -, -, k5, k6, k7⟩ := remove_piece_frame hBc
    cases Option.some_inj.mp h4
    refine ⟨?_, ?_, ?_, ?_⟩
    · show Bc.next_move_colour = B1.next_move_colour
      rw [k1, g1, fa.1]
    · show Bc.history = B1.history
      rw [k6, g6, fa.2.1]
    · show Bc.half_move = B1.half_move
      rw [k5, g5, fa.2.2.1]
    · show Bc.move_cache = B1.move_cache
      rw [k7, g7, fa.2.2.2]
  · rw [if_neg hp] at h
    by_cases hc : move_castled m
    · rw [if_pos hc] at h
      unfold make_apply_castle at h
      rcases Option.bind_eq_some.mp h with ⟨Bx, hBx, h2⟩
      have fx : Bx.next_move_colour = B1.next_move_colour ∧
          Bx.history = B1.history ∧ Bx.half_move = B1.half_move ∧
          Bx.move_cache = B1.move_cache := by
        unfold make_castle_moves at hBx
        by_cases hw : cs = WHITE
        · rw [if_pos hw] at hBx
          by_cases hs : m.flag = MoveFlag.SHORT_CASTLE_MOVE
          · rw [if_pos hs] at hBx
            rcases Option.bind_eq_some.mp hBx with ⟨By, hBy, hb2⟩
            obtain ⟨f1, -, -, -, f5, f6, f7⟩ := move_piece_frame hBy
            obtain ⟨g1, -, -, -, g5, g6, g7⟩ := move_piece_frame hb2
            exact ⟨g1.trans f1, g6.trans f6, g5.trans f5, g7.trans f7⟩
          · rw [if_neg hs] at hBx
            rcases Option.bind_eq_some.mp hBx with ⟨By, hBy, hb2⟩
            obtain ⟨f1, -, -, -, f5, f6, f7⟩ := move_piece_frame hBy
            obtain ⟨g1, -, -, -, g5, g6, g7⟩ := move_piece_frame hb2
            exact ⟨g1.trans f1, g6.trans f6, g5.trans f5, g7.trans f7⟩
        · rw [if_neg hw] at hBx
          by_cases hs : m.flag = MoveFlag.SHORT_CASTLE_MOVE
          · rw [if_pos hs] at hBx
            rcases Option.bind_eq_some.mp hBx with ⟨By, hBy, hb2⟩
            obtain ⟨f1, -, -, -, f5, f6, f7⟩ := move_piece_frame hBy
            obtain ⟨g1, -, -, -, g5, g6, g7⟩ := move_piece_frame hb2
            exact ⟨g1.trans f1, g6.trans f6, g5.trans f5, g7.trans f7⟩
          · rw [if_neg hs] at hBx
            rcases Option.bind_eq_some.mp hBx with ⟨By, hBy, hb2⟩
            obtain ⟨f1, -, -, -, f5, f6, f7⟩ := move_piece_frame hBy
            obtain ⟨g1, -, -, -, g5, g6, g7⟩ := move_piece_frame hb2
            exact ⟨g1.trans f1, g6.trans f6, g5.trans f5, g7.trans f7⟩
      cases Option.some_inj.mp h2
      exact ⟨fx.1, fx.2.1, fx.2.2.1, fx.2.2.2⟩
    · rw [if_neg hc] at h
      unfold make_apply_basic at h
      have fenp : (make_enpas_update B1 cs m).next_move_colour = B1.next_move_colour ∧
          (make_enpas_update B1 cs m).history = B1.history ∧
          (make_enpas_update B1 cs m).half_move = B1.half_move ∧
          (make_enpas_update B1 cs m).move_cache = B1.move_cache := by
        unfold make_enpas_update
        split
        · exact ⟨rfl, rfl, rfl, rfl⟩
        · exact ⟨rfl, rfl, rfl, rfl⟩
      by_cases hq : m.flag = MoveFlag.QUIET_MOVE
      · rw [if_pos hq] at h
        rcases Option.bind_eq_some.mp h with ⟨Ba, hBa, h2⟩
        obtain ⟨f1, -, -, -, f5, f6, f7⟩ := move_piece_frame hBa
        cases Option.some_inj.mp h2
        have hu : (update_castling Ba m.fr (moved_piece m)).next_move_colour = Ba.next_move_colour ∧
            (update_castling Ba m.fr (moved_piece m)).history = Ba.history ∧
            (update_castling Ba m.fr (moved_piece m)).half_move = Ba.half_move ∧
            (update_castling Ba m.fr (moved_piece m)).move_cache = Ba.move_cache := by
          unfold update_castling
          split
          · exact ⟨rfl, rfl, rfl, rfl⟩
          · exact ⟨rfl, rfl, rfl, rfl⟩
        exact ⟨hu.1.trans (f1.trans fenp.1), hu.2.1.trans (f6.trans fenp.2.1),
          hu.2.2.1.trans (f5.trans fenp.2.2.1),
          hu.2.2.2.trans (f7.trans fenp.2.2.2)⟩
      · rw [if_neg hq] at h
        by_cases hd : m.flag = MoveFlag.DOUBLE_PAWN_MOVE
        · rw [if_pos hd] at h
          obtain ⟨f1, -, -, -, f5, f6, f7⟩ := move_piece_frame h
          exact ⟨f1.trans fenp.1, f6.trans fenp.2.1,
            f5.trans fenp.2.2.1, f7.trans fenp.2.2.2⟩
        · rw [if_neg hd] at h
          by_cases hcp : m.flag = MoveFlag.CAPTURE_MOVE
          · rw [if_pos hcp] at h
            rcases Option.bind_eq_some.mp h with ⟨Ba, hBa, h2⟩
            rcases Option.bind_eq_some.mp h2 with ⟨Bb, hBb, h3⟩
            obtain ⟨f1, -, -, -, f5, f6, f7⟩ := remove_piece_frame hBa
            obtain ⟨g1, -, -, -, g5, g6, g7⟩ := move_piece_frame hBb
            cases Option.some_inj.mp h3
            have hu : (update_castling Bb m.fr (moved_piece m)).next_move_colour = Bb.next_move_colour ∧
                (update_castling Bb m.fr (moved_piece m)).history = Bb.history ∧
                (update_castling Bb m.fr (moved_piece m)).half_move = Bb.half_move ∧
                (update_castling Bb m.fr (moved_piece m)).move_cache = Bb.move_cache := by
              unfold update_castling
              split
              · exact ⟨rfl, rfl, rfl, rfl⟩
              · exact ⟨rfl, rfl, rfl, rfl⟩
            exact ⟨hu.1.trans (g1.trans (f1.trans fenp.1)),
              hu.2.1.trans (g6.trans (f6.trans fenp.2.1)),
              hu.2.2.1.trans (g5.trans (f5.trans fenp.2.2.1)),
              hu.2.2.2.trans (g7.trans (f7.trans fenp.2.2.2))⟩
          · rw [if_neg hcp] at h
            by_cases hep : m.flag = MoveFlag.EN_PASSANT_MOVE
            · rw [if_pos hep] at h
              rcases Option.bind_eq_some.mp h with ⟨Ba, hBa, h2⟩
              obtain ⟨f1, -, -, -, f5, f6, f7⟩ := remove_piece_frame hBa
              obtain ⟨g1, -, -, -, g5, g6, g7⟩ := move_piece_frame h2
              exact ⟨g1.trans (f1.trans fenp.1), g6.trans (f6.trans fenp.2.1),
                g5.trans (f5.trans fenp.2.2.1), g7.trans (f7.trans fenp.2.2.2)⟩
            · rw [if_neg hep] at h
              cases Option.some_inj.mp h
              exact ⟨fenp.1, fenp.2.1, fenp.2.2.1, fenp.2.2.2⟩

/-- **C7.** Whenever `make_move` completes, it has pushed exactly one undo
record capturing the pre-move castle state, en-passant target, fifty-move
count, and hash; it has switched the side to move; and it returns `true` iff
the king of the side that just moved is not attacked by the opponent in the
resulting position. -/
theorem C7_make_move_contract (B B2 : Board) (m : Move) (r : Bool)
    (h : make_move B m = some (B2, r)) :
    B2.history = { move := m, castle_state := B.castle_state,
                   en_passant := B.en_passant, fifty_move := B.fifty_move,
                   hash := B.hash } :: B.history ∧
    B2.next_move_colour = !B.next_move_colour ∧
    (r = true ↔ square_attacked B2
      ((B2.positions (if B.next_move_colour = WHITE then WHITE_KING
        else BLACK_KING)).headD 0) (!B.next_move_colour) = false) := by
  obtain ⟨B3, happ, hB2, hr⟩ := make_move_eq_some.mp h
  obtain ⟨fc, fh, -, -⟩ := make_apply_frame happ
  have hhist : B2.history = B3.history := by rw [hB2]; rfl
  have hcol : B2.next_move_colour = !B3.next_move_colour := by rw [hB2]; rfl
  refine ⟨?_, ?_, ?_⟩
  · rw [hhist, fh]; rfl
  · rw [hcol, fc]; rfl
  · rw [hr]
    cases square_attacked B2
      ((B2.positions (if B.next_move_colour = WHITE then WHITE_KING
        else BLACK_KING)).headD 0) (!B.next_move_colour) <;> simp


/-- Witness for C7 at a concrete board and move. -/
theorem C7_witness :
    c7w_pair.1.history = { move := c7w_move,
                           castle_state := c2w_board.castle_state,
                           en_passant := c2w_board.en_passant,
                           fifty_move := c2w_board.fifty_move,
                           hash := c2w_board.hash } :: c2w_board.history ∧
    c7w_pair.1.next_move_colour = !c2w_board.next_move_colour ∧
    (c7w_pair.2 = true ↔ square_attacked c7w_pair.1
      ((c7w_pair.1.positions (if c2w_board.next_move_colour = WHITE
        then WHITE_KING else BLACK_KING)).headD 0)
      (!c2w_board.next_move_colour) = false) :=
  C7_make_move_contract c2w_board c7w_pair.1 c7w_move c7w_pair.2 (by rfl)


/-- **C9.** The early-return guard of `square_attacked` never fires: for
every board, square and side, `square_attacked` (with the source's
`get_side(m_pieces[sq] == side)` guard) returns exactly the value of the
guard-free function determined by the ray walks, knight offsets, pawn
offsets and king adjacency. -/
theorem C9_square_attacked_guard_dead (B : Board) (sq : Nat) (side : Bool) :
    square_attacked B sq side =
      square_attacked_no_guard_c B.pieces B.positions sq side := by
  unfold square_attacked square_attacked_c square_attacked_no_guard_c
  have hg : get_side (if B.pieces sq == (if side then 1 else 0)
      then 1 else 0) = false := by
    by_cases hb : (B.pieces sq == (if side then 1 else 0)) = true
    · rw [if_pos hb]; decide
    · rw [if_neg hb]; decide
  rw [hg]
  simp

/-- **C4 counterexample.** A board whose fifty-move counter exceeds 75 on
which `pseudo_moves` returns a non-empty list: the cache lookup precedes the
draw cut-off, and the position hash does not cover the counters, so the
list memoized at fifty-move 0 is returned verbatim. -/
theorem C4_counterexample :
    c4_board.fifty_move > 75 ∧ pseudo_moves c4_board ≠ [] := by
  constructor
  · decide
  · decide

/-- **C4 (amended).** Provided the move cache holds no entry for the current
hash, a board whose `fifty_move` exceeds 75 or whose `half_move` exceeds
1000 gets an empty pseudo-move list. -/
theorem C4_draw_cutoff_empty (B : Board)
    (hcache : B.move_cache.lookup B.hash = none)
    (hdraw : B.fifty_move > 75 ∨ B.half_move > 1000) :
    pseudo_moves B = [] := by
  unfold pseudo_moves
  rw [hcache]
  unfold pseudo_moves_scratch
  rcases hdraw with h | h
  · rw [if_pos (Or.inr h)]
  · rw [if_pos (Or.inl h)]

/-- Witness for the amended C4. -/
theorem C4_draw_cutoff_empty_witness : pseudo_moves c4w_board = [] :=
  C4_draw_cutoff_empty c4w_board rfl (Or.inl (by decide))

/-- **C3 counterexample.** The memoization is not transparent: a board that
shares its hash with the board whose move list was cached (differing only in
the fifty-move counter) receives the cached list, which differs from its own
from-scratch list (empty, because the counter has passed the draw
cut-off). -/
theorem C3_counterexample :
    c3_board.hash = c3_board1.hash ∧
    c3_board.move_cache.lookup c3_board.hash =
      some (pseudo_moves_scratch c3_board1) ∧
    pseudo_moves c3_board ≠ pseudo_moves_scratch c3_board := by
  refine ⟨rfl, by decide, by decide⟩

/-- **C3 (amended).** The cache is transparent for boards below the draw
cut-offs: when the cached entry was computed from a board agreeing with the
current one on the piece array, piece lists, side to move, castle state and
en-passant target, and both boards' counters are within the cut-offs, the
value returned by `pseudo_moves` equals the from-scratch computation. -/
theorem C3_cache_transparent_below_cutoff (B B0 : Board)
    (hp : B0.pieces = B.pieces) (hpos : B0.positions = B.positions)
    (hcol : B0.next_move_colour = B.next_move_colour)
    (hcast : B0.castle_state = B.castle_state)
    (hep : B0.en_passant = B.en_passant)
    (hcut : ¬ (B.half_move > 1000 ∨ B.fifty_move > 75))
    (hcut0 : ¬ (B0.half_move > 1000 ∨ B0.fifty_move > 75))
    (hcache : B.move_cache.lookup B.hash = some (pseudo_moves_scratch B0)) :
    pseudo_moves B = pseudo_moves_scratch B := by
  unfold pseudo_moves
  rw [hcache]
  unfold pseudo_moves_scratch
  rw [if_neg hcut0, if_neg hcut, hp, hpos, hcol, hcast, hep]

/-- Witness for the amended C3. -/
theorem C3_cache_transparent_witness :
    pseudo_moves c3w_board = pseudo_moves_scratch c3w_board :=
  C3_cache_transparent_below_cutoff c3w_board c3_board1 rfl rfl rfl rfl rfl
    (by decide) (by decide) (by decide)




/-! # Round-trip, generation and field-invariant theorems -/

/-! ## List lemmas for the piece-list edits -/

theorem indexOf_append_cons {x : Nat} (A Bb : List Nat) (hA : x ∉ A) :
    (A ++ x :: Bb).indexOf x = A.length := by
  induction A with
  | nil => simp [List.indexOf_cons_self]
  | cons a t ih =>
    have hax : a ≠ x := fun hc => hA (hc ▸ List.mem_cons_self a t)
    simp only [List.cons_append, List.indexOf_cons, List.length_cons]
    have hb : (a == x) = false := beq_eq_false_iff_ne.mpr hax
    rw [hb, cond_false, ih (fun hc => hA (List.mem_cons_of_mem a hc))]

theorem set_append_cons (A Bb : List Nat) (x v : Nat) :
    (A ++ x :: Bb).set A.length v = A ++ v :: Bb := by
  induction A with
  | nil => simp
  | cons a t ih => simp [ih]

/-- Splitting a duplicate-free list at an element. -/
theorem nodup_split {l : List Nat} {x : Nat} (hx : x ∈ l) (hnd : l.Nodup) :
    ∃ A Bb, l = A ++ x :: Bb ∧ x ∉ A ∧ x ∉ Bb := by
  obtain ⟨A, Bb, rfl⟩ := List.append_of_mem hx
  obtain ⟨hA, hBb, hdisj⟩ := List.nodup_append.mp hnd
  exact ⟨A, Bb, rfl, fun hc => hdisj hc (List.mem_cons_self _ _),
    (List.nodup_cons.mp hBb).1⟩

theorem swap_remove_last (A : List Nat) (x : Nat) (hA : x ∉ A) :
    swap_remove (A ++ [x]) x = A := by
  unfold swap_remove
  rw [indexOf_append_cons A [] hA]
  have hlast : (A ++ [x]).getLastD 0 = x := by
    rw [List.getLastD_eq_getLast?]
    rw [List.getLast?_concat]
    rfl
  rw [hlast, set_append_cons A [] x x]
  simp

theorem swap_remove_perm {l : List Nat} {x : Nat} (hx : x ∈ l)
    (hnd : l.Nodup) : (swap_remove l x).Perm (l.erase x) := by
  obtain ⟨A, Bb, rfl, hA, hBb⟩ := nodup_split hx hnd
  rcases List.eq_nil_or_concat Bb with rfl | ⟨Bb', last, rfl⟩
  · rw [swap_remove_last A x hA]
    rw [List.erase_append_right _ hA, List.erase_cons_head]
    simp
  · simp only [List.concat_eq_append] at *
    unfold swap_remove
    rw [indexOf_append_cons A (Bb' ++ [last]) hA]
    have hlast : (A ++ x :: (Bb' ++ [last])).getLastD 0 = last := by
      rw [List.getLastD_eq_getLast?]
      rw [show A ++ x :: (Bb' ++ [last]) = (A ++ x :: Bb') ++ [last] by simp]
      rw [List.getLast?_concat]
      rfl
    rw [hlast, set_append_cons A (Bb' ++ [last]) x last]
    rw [show A ++ last :: (Bb' ++ [last]) = (A ++ last :: Bb') ++ [last] by
      simp]
    rw [List.dropLast_concat]
    rw [List.erase_append_right _ hA, List.erase_cons_head]
    exact List.Perm.append_left A (List.perm_append_singleton last Bb').symm

theorem swap_remove_append_perm {l : List Nat} {x : Nat} (hx : x ∈ l)
    (hnd : l.Nodup) : (swap_remove l x ++ [x]).Perm l :=
  ((List.perm_append_singleton x _).trans
    (List.Perm.cons x (swap_remove_perm hx hnd))).trans
    (List.perm_cons_erase hx).symm

theorem swap_remove_nodup {l : List Nat} {x : Nat} (hx : x ∈ l)
    (hnd : l.Nodup) : (swap_remove l x).Nodup :=
  (swap_remove_perm hx hnd).nodup_iff.mpr (hnd.erase x)

theorem not_mem_swap_remove {l : List Nat} {x : Nat} (hx : x ∈ l)
    (hnd : l.Nodup) : x ∉ swap_remove l x := by
  intro hc
  exact (List.Nodup.not_mem_erase hnd)
    ((swap_remove_perm hx hnd).mem_iff.mp hc)

theorem mem_of_mem_swap_remove {l : List Nat} {x y : Nat} (hx : x ∈ l)
    (hnd : l.Nodup) (hy : y ∈ swap_remove l x) : y ∈ l :=
  List.mem_of_mem_erase ((swap_remove_perm hx hnd).mem_iff.mp hy)

theorem mem_swap_remove_of_ne {l : List Nat} {x y : Nat} (hx : x ∈ l)
    (hnd : l.Nodup) (hy : y ∈ l) (hne : y ≠ x) : y ∈ swap_remove l x :=
  (swap_remove_perm hx hnd).mem_iff.mpr ((List.mem_erase_of_ne hne).mpr hy)

theorem set_getElem_self (l : List Nat) (i : Nat) (h : i < l.length) :
    l.set i (l.get ⟨i, h⟩) = l := by
  induction l generalizing i with
  | nil => rfl
  | cons a t ih =>
    cases i with
    | zero => rfl
    | succ j =>
      simp only [List.set_cons_succ, List.cons.injEq, true_and]
      exact ih j (by simpa using h)

/-- The `move_piece` list edit in split form. -/
theorem set_indexOf_split {l : List Nat} {x : Nat} (y : Nat) (hx : x ∈ l)
    (hnd : l.Nodup) :
    ∃ A Bb, l = A ++ x :: Bb ∧ x ∉ A ∧ x ∉ Bb ∧ l.indexOf x = A.length ∧
      l.set (l.indexOf x) y = A ++ y :: Bb := by
  obtain ⟨A, Bb, rfl, hA, hBb⟩ := nodup_split hx hnd
  refine ⟨A, Bb, rfl, hA, hBb, indexOf_append_cons A Bb hA, ?_⟩
  rw [indexOf_append_cons A Bb hA, set_append_cons]

theorem nodup_append_cons_of {A Bb : List Nat} {x y : Nat}
    (hnd : (A ++ x :: Bb).Nodup) (hy : y ∉ A ++ x :: Bb) :
    (A ++ y :: Bb).Nodup := by
  obtain ⟨hA, hBb, hdisj⟩ := List.nodup_append.mp hnd
  obtain ⟨hxB, hBb'⟩ := List.nodup_cons.mp hBb
  rw [List.nodup_append]
  refine ⟨hA, List.nodup_cons.mpr ⟨?_, hBb'⟩, ?_⟩
  · intro hc
    exact hy (List.mem_append.mpr (Or.inr (List.mem_cons_of_mem x hc)))
  · intro a ha hc
    rcases List.mem_cons.mp hc with rfl | hc2
    · exact hy (List.mem_append.mpr (Or.inl ha))
    · exact hdisj ha (List.mem_cons_of_mem x hc2)

theorem valid_piece_lt {p : Nat} (h : valid_piece p) : p < 16 := h.1

theorem validboard_poscore {B : Board} (h : ValidBoard B) : PosCore B := by
  obtain ⟨h1, h2, h3, h4, h5, h6, -⟩ := h
  refine ⟨h3, h4, ?_, h6⟩
  intro sq hsq hvp
  have : sq < 120 := by
    obtain ⟨a, b, c, d⟩ := hsq
    omega
  exact h5 sq this hvp

theorem not_mem_positions_of_empty {B : Board} (hc : PosCore B) {sq : Nat}
    (hsq : B.pieces sq = INVALID_PIECE) {q : Nat} (hq : q < 16) :
    sq ∉ B.positions q := by
  intro hmem
  have h2 := (hc.1 q hq sq hmem).2
  rw [hsq] at h2
  have : ¬ valid_piece q := by rw [← h2]; decide
  have := hc.2.2.2 q this
  rw [this] at hmem
  cases hmem

theorem remove_piece_poscore {B B' : Board} {sq : Nat}
    (h : remove_piece B sq = some B') (hc : PosCore B) : PosCore B' := by
  obtain ⟨hv, hmem, rfl⟩ := remove_piece_eq_some.mp h
  obtain ⟨hcons, hnd, hcompl, hinv⟩ := hc
  have hplt : B.pieces sq < 16 := valid_piece_lt hv
  have hndp := hnd _ hplt
  refine ⟨?_, ?_, ?_, ?_⟩
  · intro q hq x hx
    dsimp only at hx ⊢
    by_cases hqp : q = B.pieces sq
    · subst hqp
      rw [updf_same] at hx
      have hxl := mem_of_mem_swap_remove hmem hndp hx
      have hxs : x ≠ sq := by
        intro hxeq
        subst hxeq
        exact not_mem_swap_remove hmem hndp hx
      obtain ⟨hvx, hpx⟩ := hcons _ hq x hxl
      exact ⟨hvx, by rw [updf_other _ _ _ hxs, hpx]⟩
    · rw [updf_other _ _ _ hqp] at hx
      obtain ⟨hvx, hpx⟩ := hcons q hq x hx
      have hxs : x ≠ sq := by
        intro hxeq
        subst hxeq
        exact hqp hpx.symm
      exact ⟨hvx, by rw [updf_other _ _ _ hxs, hpx]⟩
  · intro q hq
    dsimp only
    by_cases hqp : q = B.pieces sq
    · subst hqp
      rw [updf_same]
      exact swap_remove_nodup hmem hndp
    · rw [updf_other _ _ _ hqp]
      exact hnd q hq
  · intro x hxv hvx
    dsimp only at hvx ⊢
    by_cases hxs : x = sq
    · subst hxs
      rw [updf_same] at hvx
      exact absurd hvx (by decide)
    · rw [updf_other _ _ _ hxs] at hvx ⊢
      have hx := hcompl x hxv hvx
      by_cases hqp : B.pieces x = B.pieces sq
      · rw [hqp]
        rw [hqp] at hx
        rw [updf_same]
        exact mem_swap_remove_of_ne hmem hndp hx hxs
      · rw [updf_other _ _ _ hqp]
        exact hx
  · intro q hnvq
    dsimp only
    have hqp : q ≠ B.pieces sq := fun hc => hnvq (hc ▸ hv)
    rw [updf_other _ _ _ hqp]
    exact hinv q hnvq

theorem add_piece_poscore {B B' : Board} {sq piece : Nat}
    (h : add_piece B sq piece = some B') (hs : valid_square sq)
    (hc : PosCore B) : PosCore B' := by
  obtain ⟨hvp, hemp, rfl⟩ := add_piece_eq_some.mp h
  obtain ⟨hcons, hnd, hcompl, hinv⟩ := hc
  have hplt : piece < 16 := valid_piece_lt hvp
  have hnmem : ∀ q < 16, sq ∉ B.positions q := fun q hq =>
    not_mem_positions_of_empty ⟨hcons, hnd, hcompl, hinv⟩ hemp hq
  refine ⟨?_, ?_, ?_, ?_⟩
  · intro q hq x hx
    dsimp only at hx ⊢
    by_cases hqp : q = piece
    · subst hqp
      rw [updf_same] at hx
      rcases List.mem_append.mp hx with hxl | hxs
      · have hxs : x ≠ sq := fun hxeq => hnmem q hq (hxeq ▸ hxl)
        obtain ⟨hvx, hpx⟩ := hcons q hq x hxl
        exact ⟨hvx, by rw [updf_other _ _ _ hxs, hpx]⟩
      · have hxeq : x = sq := by simpa using hxs
        subst hxeq
        exact ⟨hs, updf_same _ _ _⟩
    · rw [updf_other _ _ _ hqp] at hx
      obtain ⟨hvx, hpx⟩ := hcons q hq x hx
      have hxs : x ≠ sq := fun hxeq => hnmem q hq (hxeq ▸ hx)
      exact ⟨hvx, by rw [updf_other _ _ _ hxs, hpx]⟩
  · intro q hq
    dsimp only
    by_cases hqp : q = piece
    · subst hqp
      rw [updf_same]
      rw [List.nodup_append]
      exact ⟨hnd q hq, List.nodup_singleton sq,
        fun x hxl hxs => hnmem q hq ((by simpa using hxs : x = sq) ▸ hxl)⟩
    · rw [updf_other _ _ _ hqp]
      exact hnd q hq
  · intro x hxv hvx
    dsimp only at hvx ⊢
    by_cases hxs : x = sq
    · subst hxs
      rw [updf_same] at hvx ⊢
      rw [updf_same]
      exact List.mem_append.mpr (Or.inr (List.mem_singleton.mpr rfl))
    · rw [updf_other _ _ _ hxs] at hvx ⊢
      have hx := hcompl x hxv hvx
      by_cases hqp : B.pieces x = piece
      · rw [hqp]
        rw [hqp] at hx
        rw [updf_same]
        exact List.mem_append.mpr (Or.inl hx)
      · rw [updf_other _ _ _ hqp]
        exact hx
  · intro q hnvq
    dsimp only
    have hqp : q ≠ piece := fun hce => hnvq (hce ▸ hvp)
    rw [updf_other _ _ _ hqp]
    exact hinv q hnvq

theorem move_piece_poscore {B B' : Board} {fr tsq : Nat}
    (h : move_piece B fr tsq = some B') (hts : valid_square tsq)
    (hc : PosCore B) : PosCore B' := by
  obtain ⟨hemp, hmem, rfl⟩ := move_piece_eq_some.mp h
  obtain ⟨hcons, hnd, hcompl, hinv⟩ := hc
  have hvp : valid_piece (B.pieces fr) := by
    by_contra hnv
    rw [hinv _ hnv] at hmem
    cases hmem
  have hplt : B.pieces fr < 16 := valid_piece_lt hvp
  have hndp := hnd _ hplt
  have hnmem : ∀ q < 16, tsq ∉ B.positions q := fun q hq =>
    not_mem_positions_of_empty ⟨hcons, hnd, hcompl, hinv⟩ hemp hq
  have hfrts : fr ≠ tsq := by
    intro hce
    have h2 : tsq ∈ B.positions (B.pieces fr) := by
      rw [← hce]; exact hmem
    exact hnmem _ hplt h2
  obtain ⟨A, Bb, hl, hA, hBb, hidx, hset⟩ :=
    set_indexOf_split tsq hmem hndp
  refine ⟨?_, ?_, ?_, ?_⟩
  · intro q hq x hx
    dsimp only at hx ⊢
    by_cases hqp : q = B.pieces fr
    · subst hqp
      rw [updf_same, hset] at hx
      rcases List.mem_append.mp hx with hxA | hxc
      · have hxl : x ∈ B.positions (B.pieces fr) := by
          rw [hl]; exact List.mem_append.mpr (Or.inl hxA)
        obtain ⟨hvx, hpx⟩ := hcons _ hq x hxl
        have hxfr : x ≠ fr := fun hce => hA (hce ▸ hxA)
        have hxts : x ≠ tsq := fun hce => hnmem _ hq (hce ▸ hxl)
        refine ⟨hvx, ?_⟩
        rw [updf_other _ _ _ hxts, updf_other _ _ _ hxfr, hpx]
      · rcases List.mem_cons.mp hxc with rfl | hxB
        · exact ⟨hts, updf_same _ _ _⟩
        · have hxl : x ∈ B.positions (B.pieces fr) := by
            rw [hl]
            exact List.mem_append.mpr (Or.inr (List.mem_cons_of_mem fr hxB))
          obtain ⟨hvx, hpx⟩ := hcons _ hq x hxl
          have hxfr : x ≠ fr := fun hce => hBb (hce ▸ hxB)
          have hxts : x ≠ tsq := fun hce => hnmem _ hq (hce ▸ hxl)
          refine ⟨hvx, ?_⟩
          rw [updf_other _ _ _ hxts, updf_other _ _ _ hxfr, hpx]
    · rw [updf_other _ _ _ hqp] at hx
      obtain ⟨hvx, hpx⟩ := hcons _ hq x hx
      have hxfr : x ≠ fr := by
        intro hce
        subst hce
        exact hqp hpx.symm
      have hxts : x ≠ tsq := fun hce => hnmem _ hq (hce ▸ hx)
      refine ⟨hvx, ?_⟩
      rw [updf_other _ _ _ hxts, updf_other _ _ _ hxfr]
      exact hpx
  · intro q hq
    dsimp only
    by_cases hqp : q = B.pieces fr
    · subst hqp
      rw [updf_same, hset]
      have hts_nmem : tsq ∉ A ++ fr :: Bb := by
        rw [← hl]
        exact hnmem _ hplt
      exact nodup_append_cons_of (hl ▸ hndp) hts_nmem
    · rw [updf_other _ _ _ hqp]
      exact hnd _ hq
  · intro sq hsq hvps
    dsimp only at hvps ⊢
    by_cases hsts : sq = tsq
    · subst hsts
      rw [updf_same] at hvps
      rw [updf_same, updf_same, hset]
      exact List.mem_append.mpr (Or.inr (List.mem_cons_self _ _))
    · rw [updf_other _ _ _ hsts] at hvps ⊢
      by_cases hsfr : sq = fr
      · subst hsfr
        rw [updf_same] at hvps
        exact absurd hvps (by decide)
      · rw [updf_other _ _ _ hsfr] at hvps ⊢
        have hmem2 := hcompl sq hsq hvps
        by_cases hqp : B.pieces sq = B.pieces fr
        · rw [hqp] at hmem2
          rw [hqp, updf_same, hset]
          rw [hl] at hmem2
          rcases List.mem_append.mp hmem2 with hA2 | hc2
          · exact List.mem_append.mpr (Or.inl hA2)
          · rcases List.mem_cons.mp hc2 with rfl | hB2
            · exact absurd rfl hsfr
            · exact List.mem_append.mpr (Or.inr (List.mem_cons_of_mem _ hB2))
        · rw [updf_other _ _ _ hqp]
          exact hmem2
  · intro q hnvq
    dsimp only
    have hqp : q ≠ B.pieces fr := fun hce => hnvq (hce ▸ hvp)
    rw [updf_other _ _ _ hqp]
    exact hinv q hnvq

/-- Membership in a piece list is characterised by the piece array. -/
theorem poscore_mem_positions_iff {B : Board} (hc : PosCore B) {p : Nat}
    (hp : valid_piece p) {sq : Nat} :
    sq ∈ B.positions p ↔ (valid_square sq ∧ B.pieces sq = p) := by
  obtain ⟨hcons, hnd, hcompl, hinv⟩ := hc
  constructor
  · exact hcons p (valid_piece_lt hp) sq
  · rintro ⟨hvs, hps⟩
    have hv2 : valid_piece (B.pieces sq) := by rw [hps]; exact hp
    have := hcompl sq hvs hv2
    rwa [hps] at this

/-- Two coherent boards with the same piece array have permuted lists. -/
theorem poscore_positions_perm {B B' : Board} (hc : PosCore B)
    (hc' : PosCore B') (hpieces : ∀ sq, B.pieces sq = B'.pieces sq)
    (p : Nat) : (B.positions p).Perm (B'.positions p) := by
  by_cases hvp : valid_piece p
  · refine (List.perm_ext_iff_of_nodup (hc.2.1 p (valid_piece_lt hvp))
      (hc'.2.1 p (valid_piece_lt hvp))).mpr ?_
    intro sq
    rw [poscore_mem_positions_iff hc hvp, poscore_mem_positions_iff hc' hvp,
      hpieces sq]
  · rw [hc.2.2.2 p hvp, hc'.2.2.2 p hvp]

/-! ## What the generator guarantees about each emitted move -/

theorem valid_square_toNat {c : Int} (h : valid_square_i c) :
    valid_square c.toNat := by
  obtain ⟨h1, h2, h3, h4⟩ := h
  refine ⟨?_, ?_, ?_, ?_⟩ <;> omega

theorem pieces_at_eq {pieces : Nat → Nat} {c : Int} (h : valid_square_i c) :
    pieces_at pieces c = pieces c.toNat := by
  obtain ⟨h1, h2, -, -⟩ := h
  unfold pieces_at
  rw [if_pos ⟨by omega, by omega⟩]

theorem mem_ite_nil {c : Prop} [Decidable c] {l : List Move} {x : Move}
    (h : x ∈ if c then l else []) : c ∧ x ∈ l := by
  by_cases hc : c
  · rw [if_pos hc] at h; exact ⟨hc, h⟩
  · rw [if_neg hc] at h; cases h

theorem slide_gen_facts {pieces : Nat → Nat} {piece start : Nat} {off : Int}
    {m : Move} {fuel : Nat} {cur : Int}
    (hm : m ∈ slide_gen pieces piece start off fuel cur) :
    ∃ c : Int, valid_square_i c ∧
      ((m = quiet_move start c.toNat piece ∧
        pieces_at pieces c = INVALID_PIECE) ∨
       (m = capture_move start c.toNat piece (pieces_at pieces c) ∧
        pieces_at pieces c ≠ INVALID_PIECE)) := by
  induction fuel generalizing cur with
  | zero => simp [slide_gen] at hm
  | succ fuel ih =>
    by_cases h1 : valid_square_i cur ∧ pieces_at pieces cur = INVALID_PIECE
    · rw [slide_gen, if_pos h1] at hm
      rcases List.mem_cons.mp hm with rfl | hm2
      · exact ⟨cur, h1.1, Or.inl ⟨rfl, h1.2⟩⟩
      · exact ih hm2
    · by_cases h2 : valid_square_i cur ∧
          opposite_colours piece (pieces_at pieces cur) ∧
          ¬ is_king (pieces_at pieces cur)
      · rw [slide_gen, if_neg h1, if_pos h2] at hm
        rcases List.mem_singleton.mp hm with rfl
        exact ⟨cur, h2.1, Or.inr ⟨rfl, fun hemp => h1 ⟨h2.1, hemp⟩⟩⟩
      · rw [slide_gen, if_neg h1, if_neg h2] at hm
        cases hm

theorem leaper_facts {pieces : Nat → Nat} {piece start : Nat}
    {offsets : List Int} {m : Move}
    (hm : m ∈ leaper_moves_from pieces piece start offsets) :
    ∃ c : Int, valid_square_i c ∧
      ((m = quiet_move start c.toNat piece ∧
        pieces_at pieces c = INVALID_PIECE) ∨
       (m = capture_move start c.toNat piece (pieces_at pieces c) ∧
        pieces_at pieces c ≠ INVALID_PIECE)) := by
  unfold leaper_moves_from at hm
  rcases List.mem_flatMap.mp hm with ⟨off, -, hm2⟩
  dsimp only at hm2
  by_cases h1 : valid_square_i ((start : Int) + off) ∧
      pieces_at pieces ((start : Int) + off) = INVALID_PIECE
  · rw [if_pos h1] at hm2
    rcases List.mem_singleton.mp hm2 with rfl
    exact ⟨(start : Int) + off, h1.1, Or.inl ⟨rfl, h1.2⟩⟩
  · by_cases h2 : valid_square_i ((start : Int) + off) ∧
        opposite_colours piece (pieces_at pieces ((start : Int) + off)) ∧
        ¬ is_king (pieces_at pieces ((start : Int) + off))
    · rw [if_neg h1, if_pos h2] at hm2
      rcases List.mem_singleton.mp hm2 with rfl
      exact ⟨(start : Int) + off, h2.1, Or.inr ⟨rfl, fun he => h1 ⟨h2.1, he⟩⟩⟩
    · rw [if_neg h1, if_neg h2] at hm2
      cases hm2

theorem qc_movefacts {pieces : Nat → Nat} {positions : Nat → List Nat}
    {side : Bool} {cs ep : Nat} {piece start : Nat} {m : Move}
    (h : ∃ c : Int, valid_square_i c ∧
      ((m = quiet_move start c.toNat piece ∧
        pieces_at pieces c = INVALID_PIECE) ∨
       (m = capture_move start c.toNat piece (pieces_at pieces c) ∧
        pieces_at pieces c ≠ INVALID_PIECE))) :
    MoveFacts pieces positions side cs ep m := by
  obtain ⟨c, hv, hd⟩ := h
  rcases hd with ⟨rfl, he⟩ | ⟨rfl, hne⟩
  · exact ⟨valid_square_toNat hv, rfl⟩
  · refine ⟨valid_square_toNat hv, ?_⟩
    show pieces_at pieces c = pieces c.toNat
    exact pieces_at_eq hv

theorem pawn_moves_facts {pieces : Nat → Nat} {positions : Nat → List Nat}
    {side : Bool} {cs ep : Nat} {ppiece : Nat} {promos : List Nat}
    {start : Nat} {m : Move} (hstart : valid_square start)
    (hpp : ppiece = WHITE_PAWN ∨ ppiece = BLACK_PAWN)
    (hps : pieces start = ppiece)
    (hm : m ∈ pawn_moves_from pieces ep side ppiece promos start) :
    MoveFacts pieces positions side cs ep m := by
  obtain ⟨a1, a2, a3, a4⟩ := hstart
  unfold pawn_moves_from at hm
  dsimp only at hm
  set off : Int := if side = WHITE then (10 : Int) else -10 with hoff
  rcases List.mem_append.mp hm with hm | hm_ep
  · rcases List.mem_append.mp hm with hm | hm_c2
    · rcases List.mem_append.mp hm with hm | hm_c1
      · rcases List.mem_append.mp hm with hm_d | hm_s
        · rcases List.mem_append.mp hm_d with hw | hb
          · obtain ⟨⟨hside, hrow, -, -⟩, hmem⟩ := mem_ite_nil hw
            rcases List.mem_singleton.mp hmem with rfl
            have hr : (start : Int) / 10 - 2 = 1 := hrow
            refine ⟨?_, rfl, ?_, ?_⟩
            · show valid_square ((start : Int) + 20).toNat
              unfold valid_square
              refine ⟨?_, ?_, ?_, ?_⟩ <;> omega
            · intro _
              show ((start : Int) + 20).toNat / 10 = 5
              omega
            · intro hb2
              rw [hside] at hb2
              exact absurd hb2 (by decide)
          · obtain ⟨⟨hside, hrow, -, -⟩, hmem⟩ := mem_ite_nil hb
            rcases List.mem_singleton.mp hmem with rfl
            have hr : (start : Int) / 10 - 2 = 6 := hrow
            refine ⟨?_, rfl, ?_, ?_⟩
            · show valid_square ((start : Int) - 20).toNat
              unfold valid_square
              refine ⟨?_, ?_, ?_, ?_⟩ <;> omega
            · intro hw2
              rw [hside] at hw2
              exact absurd hw2 (by decide)
            · intro _
              show ((start : Int) - 20).toNat / 10 = 6
              omega
        · obtain ⟨⟨hvc, hec⟩, hmem⟩ := mem_ite_nil hm_s
          split at hmem
          · rcases List.mem_map.mp hmem with ⟨pr, -, rfl⟩
            have hoffv : off = 10 ∨ off = -10 := by
              rw [hoff]
              by_cases h : side = WHITE
              · rw [if_pos h]
                exact Or.inl rfl
              · rw [if_neg h]
                exact Or.inr rfl
            refine ⟨valid_square_toNat hvc, rfl, hps.symm, ?_⟩
            show start ≠ ((start : Int) + off).toNat
            rcases hoffv with h10 | h10 <;> rw [h10] <;> omega
          · rcases List.mem_singleton.mp hmem with rfl
            exact ⟨valid_square_toNat hvc, rfl⟩
      · obtain ⟨⟨hvc, hpne, -, -⟩, hmem⟩ := mem_ite_nil hm_c1
        split at hmem
        · rcases List.mem_map.mp hmem with ⟨pr, -, rfl⟩
          have hoffv : off = 10 ∨ off = -10 := by
            rw [hoff]
            by_cases h : side = WHITE
            · rw [if_pos h]
              exact Or.inl rfl
            · rw [if_neg h]
              exact Or.inr rfl
          refine ⟨valid_square_toNat hvc, pieces_at_eq hvc, hps.symm, ?_, hpne⟩
          show start ≠ ((start : Int) + off - 1).toNat
          rcases hoffv with h10 | h10 <;> rw [h10] <;> omega
        · rcases List.mem_singleton.mp hmem with rfl
          exact ⟨valid_square_toNat hvc, pieces_at_eq hvc⟩
    · obtain ⟨⟨hvc, hpne, -, -⟩, hmem⟩ := mem_ite_nil hm_c2
      split at hmem
      · rcases List.mem_map.mp hmem with ⟨pr, -, rfl⟩
        have hoffv : off = 10 ∨ off = -10 := by
          rw [hoff]
          by_cases h : side = WHITE
          · rw [if_pos h]
            exact Or.inl rfl
          · rw [if_neg h]
            exact Or.inr rfl
        refine ⟨valid_square_toNat hvc, pieces_at_eq hvc, hps.symm, ?_, hpne⟩
        show start ≠ ((start : Int) + off + 1).toNat
        rcases hoffv with h10 | h10 <;> rw [h10] <;> omega
      · rcases List.mem_singleton.mp hmem with rfl
        exact ⟨valid_square_toNat hvc, pieces_at_eq hvc⟩
  · obtain ⟨hep0, hmem⟩ := mem_ite_nil hm_ep
    rcases List.mem_append.mp hmem with hm1 | hm2
    · obtain ⟨-, hmem1⟩ := mem_ite_nil hm1
      rcases List.mem_singleton.mp hmem1 with rfl
      refine ⟨rfl, hep0, ?_⟩
      rcases hpp with rfl | rfl
      · show WHITE_PAWN ^^^ 8 ≠ INVALID_PIECE
        decide
      · show BLACK_PAWN ^^^ 8 ≠ INVALID_PIECE
        decide
    · obtain ⟨-, hmem2⟩ := mem_ite_nil hm2
      rcases List.mem_singleton.mp hmem2 with rfl
      refine ⟨rfl, hep0, ?_⟩
      rcases hpp with rfl | rfl
      · show WHITE_PAWN ^^^ 8 ≠ INVALID_PIECE
        decide
      · show BLACK_PAWN ^^^ 8 ≠ INVALID_PIECE
        decide

theorem slider_facts {pieces : Nat → Nat} {positions : Nat → List Nat}
    {piece : Nat} {offsets : List Int} {m : Move}
    (hm : m ∈ slider_moves pieces positions piece offsets) :
    ∃ start : Nat, ∃ c : Int, valid_square_i c ∧
      ((m = quiet_move start c.toNat piece ∧
        pieces_at pieces c = INVALID_PIECE) ∨
       (m = capture_move start c.toNat piece (pieces_at pieces c) ∧
        pieces_at pieces c ≠ INVALID_PIECE)) := by
  unfold slider_moves at hm
  rcases List.mem_flatMap.mp hm with ⟨start, -, hm2⟩
  rcases List.mem_flatMap.mp hm2 with ⟨off, -, hm3⟩
  exact ⟨start, slide_gen_facts hm3⟩

theorem castle_gen_flags {pieces : Nat → Nat} {positions : Nat → List Nat}
    {side : Bool} {cs : Nat} {m : Move}
    (hm : m ∈ castle_gen pieces positions side cs) :
    m.flag = MoveFlag.SHORT_CASTLE_MOVE ∨
      m.flag = MoveFlag.LONG_CASTLE_MOVE := by
  unfold castle_gen at hm
  split at hm
  · dsimp only at hm
    rcases List.mem_append.mp hm with h1 | h2
    · obtain ⟨-, hm1⟩ := mem_ite_nil h1
      rcases List.mem_singleton.mp hm1 with rfl
      exact Or.inl rfl
    · obtain ⟨-, hm2⟩ := mem_ite_nil h2
      rcases List.mem_singleton.mp hm2 with rfl
      exact Or.inr rfl
  · dsimp only at hm
    rcases List.mem_append.mp hm with h1 | h2
    · obtain ⟨-, hm1⟩ := mem_ite_nil h1
      rcases List.mem_singleton.mp hm1 with rfl
      exact Or.inl rfl
    · obtain ⟨-, hm2⟩ := mem_ite_nil h2
      rcases List.mem_singleton.mp hm2 with rfl
      exact Or.inr rfl

theorem gen_moves_facts {pieces : Nat → Nat} {positions : Nat → List Nat}
    {side : Bool} {cs ep : Nat} {m : Move}
    (hcons : ∀ p < 16, ∀ sq ∈ positions p, valid_square sq ∧ pieces sq = p)
    (hm : m ∈ gen_moves pieces positions side cs ep) :
    MoveFacts pieces positions side cs ep m := by
  unfold gen_moves at hm
  dsimp only at hm
  rcases List.mem_append.mp hm with hm | hm7
  · rcases List.mem_append.mp hm with hm | hm6
    · rcases List.mem_append.mp hm with hm | hm5
      · rcases List.mem_append.mp hm with hm | hm4
        · rcases List.mem_append.mp hm with hm | hm3
          · rcases List.mem_append.mp hm with hm1 | hm2
            · obtain ⟨start, hfacts⟩ := slider_facts hm1
              exact qc_movefacts hfacts
            · obtain ⟨start, hfacts⟩ := slider_facts hm2
              exact qc_movefacts hfacts
          · obtain ⟨start, hfacts⟩ := slider_facts hm3
            exact qc_movefacts hfacts
        · rcases List.mem_flatMap.mp hm4 with ⟨start, -, hmk⟩
          exact qc_movefacts (leaper_facts hmk)
      · rcases List.mem_flatMap.mp hm5 with ⟨start, hst, hmp⟩
        have hlt : (if side = WHITE then WHITE_PAWN else BLACK_PAWN) < 16 := by
          by_cases h : side = WHITE
          · rw [if_pos h]; decide
          · rw [if_neg h]; decide
        have hsp := hcons _ hlt start hst
        refine pawn_moves_facts hsp.1 ?_ hsp.2 hmp
        by_cases h : side = WHITE
        · exact Or.inl (if_pos h)
        · exact Or.inr (if_neg h)
    · exact qc_movefacts (leaper_facts hm6)
  · rcases castle_gen_flags hm7 with hf | hf
    · simp only [MoveFacts, hf]
      exact hm7
    · simp only [MoveFacts, hf]
      exact hm7

/-! ## Support for the make/unmake round trip -/

theorem poscore_congr {B B' : Board} (hp : B'.pieces = B.pieces)
    (hpos : B'.positions = B.positions) (h : PosCore B) : PosCore B' := by
  unfold PosCore at h ⊢
  rw [hp, hpos]
  exact h

theorem mem_positions_valid {B : Board} (hc : PosCore B) {fr : Nat}
    (hmem : fr ∈ B.positions (B.pieces fr)) : valid_piece (B.pieces fr) := by
  by_contra hnv
  rw [hc.2.2.2 _ hnv] at hmem
  cases hmem

theorem update_castling_proj (B : Board) (sq moved : Nat) :
    (update_castling B sq moved).pieces = B.pieces ∧
    (update_castling B sq moved).positions = B.positions ∧
    (update_castling B sq moved).next_move_colour = B.next_move_colour ∧
    (update_castling B sq moved).en_passant = B.en_passant ∧
    (update_castling B sq moved).fifty_move = B.fifty_move ∧
    (update_castling B sq moved).half_move = B.half_move ∧
    (update_castling B sq moved).history = B.history ∧
    (update_castling B sq moved).move_cache = B.move_cache := by
  unfold update_castling
  split
  · exact ⟨rfl, rfl, rfl, rfl, rfl, rfl, rfl, rfl⟩
  · exact ⟨rfl, rfl, rfl, rfl, rfl, rfl, rfl, rfl⟩

theorem unmake_reverse_frame {B5 B6 : Board} {cs : Bool} {m : Move}
    (h : unmake_reverse B5 cs m = some B6) :
    B6.next_move_colour = B5.next_move_colour ∧
    B6.castle_state = B5.castle_state ∧ B6.en_passant = B5.en_passant ∧
    B6.fifty_move = B5.fifty_move ∧ B6.half_move = B5.half_move ∧
    B6.history = B5.history ∧ B6.move_cache = B5.move_cache := by
  unfold unmake_reverse at h
  by_cases hp : move_promoted m
  · rw [if_pos hp] at h
    unfold unmake_reverse_promote at h
    rcases Option.bind_eq_some.mp h with ⟨Ba, hBa, h2⟩
    obtain ⟨a1, a2, a3, a4, a5, a6, a7⟩ := remove_piece_frame hBa
    rcases Option.bind_eq_some.mp h2 with ⟨Bb, hBb, h3⟩
    obtain ⟨b1, b2, b3, b4, b5, b6, b7⟩ := add_piece_frame hBb
    by_cases hcap : move_captured m
    · rw [if_pos hcap] at h3
      obtain ⟨c1, c2, c3, c4, c5, c6, c7⟩ := add_piece_frame h3
      exact ⟨by rw [c1, b1, a1], by rw [c2, b2, a2], by rw [c3, b3, a3],
        by rw [c4, b4, a4], by rw [c5, b5, a5], by rw [c6, b6, a6],
        by rw [c7, b7, a7]⟩
    · rw [if_neg hcap] at h3
      cases Option.some_inj.mp h3
      exact ⟨by rw [b1, a1], by rw [b2, a2], by rw [b3, a3],
        by rw [b4, a4], by rw [b5, a5], by rw [b6, a6], by rw [b7, a7]⟩
  · rw [if_neg hp] at h
    by_cases hc : move_castled m
    · rw [if_pos hc] at h
      unfold unmake_castle_moves at h
      by_cases hw : cs = WHITE
      · rw [if_pos hw] at h
        by_cases hs : m.flag = MoveFlag.SHORT_CASTLE_MOVE
        · rw [if_pos hs] at h
          rcases Option.bind_eq_some.mp h with ⟨Ba, hBa, h2⟩
          obtain ⟨a1, a2, a3, a4, a5, a6, a7⟩ := move_piece_frame hBa
          obtain ⟨c1, c2, c3, c4, c5, c6, c7⟩ := move_piece_frame h2
          exact ⟨by rw [c1, a1], by rw [c2, a2], by rw [c3, a3],
            by rw [c4, a4], by rw [c5, a5], by rw [c6, a6], by rw [c7, a7]⟩
        · rw [if_neg hs] at h
          rcases Option.bind_eq_some.mp h with ⟨Ba, hBa, h2⟩
          obtain ⟨a1, a2, a3, a4, a5, a6, a7⟩ := move_piece_frame hBa
          obtain ⟨c1, c2, c3, c4, c5, c6, c7⟩ := move_piece_frame h2
          exact ⟨by rw [c1, a1], by rw [c2, a2], by rw [c3, a3],
            by rw [c4, a4], by rw [c5, a5], by rw [c6, a6], by rw [c7, a7]⟩
      · rw [if_neg hw] at h
        by_cases hs : m.flag = MoveFlag.SHORT_CASTLE_MOVE
        · rw [if_pos hs] at h
          rcases Option.bind_eq_some.mp h with ⟨Ba, hBa, h2⟩
          obtain ⟨a1, a2, a3, a4, a5, a6, a7⟩ := move_piece_frame hBa
          obtain ⟨c1, c2, c3, c4, c5, c6, c7⟩ := move_piece_frame h2
          exact ⟨by rw [c1, a1], by rw [c2, a2], by rw [c3, a3],
            by rw [c4, a4], by rw [c5, a5], by rw [c6, a6], by rw [c7, a7]⟩
        · rw [if_neg hs] at h
          rcases Option.bind_eq_some.mp h with ⟨Ba, hBa, h2⟩
          obtain ⟨a1, a2, a3, a4, a5, a6, a7⟩ := move_piece_frame hBa
          obtain ⟨c1, c2, c3, c4, c5, c6, c7⟩ := move_piece_frame h2
          exact ⟨by rw [c1, a1], by rw [c2, a2], by rw [c3, a3],
            by rw [c4, a4], by rw [c5, a5], by rw [c6, a6], by rw [c7, a7]⟩
    · rw [if_neg hc] at h
      unfold unmake_reverse_basic at h
      rcases Option.bind_eq_some.mp h with ⟨Ba, hBa, h2⟩
      obtain ⟨a1, a2, a3, a4, a5, a6, a7⟩ := move_piece_frame hBa
      by_cases hcap : move_captured m
      · rw [if_pos hcap] at h2
        obtain ⟨c1, c2, c3, c4, c5, c6, c7⟩ := add_piece_frame h2
        exact ⟨by rw [c1, a1], by rw [c2, a2], by rw [c3, a3],
          by rw [c4, a4], by rw [c5, a5], by rw [c6, a6], by rw [c7, a7]⟩
      · rw [if_neg hcap] at h2
        cases Option.some_inj.mp h2
        exact ⟨a1, a2, a3, a4, a5, a6, a7⟩

theorem board_hash_congr {f g : Nat → Nat} (h : ∀ sq, f sq = g sq) :
    board_hash f = board_hash g := by
  unfold board_hash
  exact foldl_xor_congr _ _ _ (fun x _ => by rw [h x])

theorem make_unmake_restored {B : Board} {m : Move}
    (hV : ValidBoard B) (hhi : B.hash = compute_hash B)
    (hmf : MoveFacts B.pieces B.positions B.next_move_colour B.castle_state
      B.en_passant m)
    (hep : m.flag = MoveFlag.EN_PASSANT_MOVE →
      B.pieces (enpas_capture_square B.next_move_colour m.toSq) = m.captured)
    {B5 : Board} {ok : Bool} (hmk : make_move B m = some (B5, ok)) :
    ∃ B6, unmake_move B5 = some B6 ∧ Restored B6 B := by
  have hcB : PosCore B := validboard_poscore hV
  obtain ⟨B3, hap, hB5, -⟩ := make_move_eq_some.mp hmk
  subst hB5
  obtain ⟨hf_col, hf_hist, hf_half, hf_cache⟩ := make_apply_frame hap
  have hist5 : (make_finish B3 m).history = make_entry B m :: B.history := by
    show B3.history = _
    rw [hf_hist]
    rfl
  have half5 : (make_finish B3 m).half_move = B.half_move + 1 := by
    show B3.half_move = _
    rw [hf_half]
    rfl
  have col5 : (make_finish B3 m).next_move_colour = !B.next_move_colour := by
    show (!B3.next_move_colour) = _
    rw [hf_col]
    rfl
  have cache5 : (make_finish B3 m).move_cache = B.move_cache := by
    show B3.move_cache = _
    rw [hf_cache]
    rfl
  set B5x := unmake_start (make_finish B3 m) (make_entry B m) B.history
    with hB5x
  have hx_pieces : B5x.pieces = B3.pieces := rfl
  have hx_positions : B5x.positions = B3.positions := rfl
  have hx_castle : B5x.castle_state = B.castle_state := rfl
  have hx_ep : B5x.en_passant = B.en_passant := rfl
  have hx_fifty : B5x.fifty_move = B.fifty_move := rfl
  have hx_hist : B5x.history = B.history := rfl
  have hx_cache : B5x.move_cache = (make_finish B3 m).move_cache := rfl
  have hx_half : B5x.half_move = B.half_move := by
    show (make_finish B3 m).half_move - 1 = _
    rw [half5]
    exact Nat.succ_sub_one _
  have hx_col : B5x.next_move_colour = B.next_move_colour := by
    show (!(make_finish B3 m).next_move_colour) = _
    rw [col5, Bool.not_not]
  have h5i : (make_finish B3 m).hash = compute_hash (make_finish B3 m) :=
    make_move_hashinv hmk hhi
  have hxi : B5x.hash = compute_hash B5x := unmake_start_hashinv h5i
  have hbranch : ∃ B6, unmake_reverse B5x B.next_move_colour m = some B6 ∧
      (∀ sq, B6.pieces sq = B.pieces sq) ∧ PosCore B6 := by
    cases hfl : m.flag with
    | QUIET_MOVE =>
      have hnp : ¬ (move_promoted m = true) := by
        simp [move_promoted, hfl]
      have hnc : ¬ (move_castled m = true) := by
        simp [move_castled, hfl]
      rw [make_apply, if_neg hnp, if_neg hnc, make_apply_basic, if_pos hfl,
        make_enpas_update, if_neg (by simp [hfl])] at hap
      simp only [MoveFacts, hfl] at hmf
      obtain ⟨hvts, hcap0⟩ := hmf
      rcases Option.bind_eq_some.mp hap with ⟨Ba, hBa, hB3⟩
      cases Option.some_inj.mp hB3
      obtain ⟨hemp, hmem, hBaeq⟩ := move_piece_eq_some.mp hBa
      have hps1 : (set_en_passant (make_start B m) INVALID_SQUARE).pieces =
          B.pieces := rfl
      have hpos1 : (set_en_passant (make_start B m) INVALID_SQUARE).positions =
          B.positions := rfl
      rw [hps1] at hemp
      rw [hps1, hpos1] at hmem
      rw [hps1, hpos1] at hBaeq
      have hvpf : valid_piece (B.pieces m.fr) := mem_positions_valid hcB hmem
      have hfrts : m.fr ≠ m.toSq := by
        intro hce
        rw [hce, hemp] at hvpf
        exact absurd hvpf (by decide)
      have hplt : B.pieces m.fr < 16 := valid_piece_lt hvpf
      have hndp : (B.positions (B.pieces m.fr)).Nodup := hcB.2.1 _ hplt
      obtain ⟨A, Bb, hl, hA, hBb, hidx, hset⟩ :=
        set_indexOf_split m.toSq hmem hndp
      have hvfr : valid_square m.fr := (hcB.1 _ hplt _ hmem).1
      have hcBa : PosCore Ba :=
        move_piece_poscore hBa hvts (poscore_congr rfl rfl hcB)
      have hBap : Ba.pieces =
          updf (updf B.pieces m.fr INVALID_PIECE) m.toSq (B.pieces m.fr) := by
        rw [hBaeq]
      have hBapos : Ba.positions = updf B.positions (B.pieces m.fr)
          ((B.positions (B.pieces m.fr)).set
            ((B.positions (B.pieces m.fr)).indexOf m.fr) m.toSq) := by
        rw [hBaeq]
      obtain ⟨hu1, hu2, -, -, -, -, -, -⟩ :=
        update_castling_proj Ba m.fr (moved_piece m)
      have hx_p_tsq : B5x.pieces m.toSq = B.pieces m.fr := by
        rw [hx_pieces, hu1, hBap, updf_same]
      have hx_p_fr : B5x.pieces m.fr = INVALID_PIECE := by
        rw [hx_pieces, hu1, hBap, updf_other _ _ _ hfrts, updf_same]
      have hx_pos_p : B5x.positions (B.pieces m.fr) = A ++ m.toSq :: Bb := by
        rw [hx_positions, hu2, hBapos, updf_same, hset]
      have hmemb : m.toSq ∈ B5x.positions (B5x.pieces m.toSq) := by
        rw [hx_p_tsq, hx_pos_p]
        exact List.mem_append.mpr (Or.inr (List.mem_cons_self _ _))
      have hmv := move_piece_eq_some.mpr ⟨hx_p_fr, hmemb, rfl⟩
      have hcapf : ¬ (move_captured m = true) := by
        simp [move_captured, hcap0]
      refine ⟨{ B5x with
          pieces := updf (updf B5x.pieces m.toSq INVALID_PIECE) m.fr
            (B5x.pieces m.toSq),
          positions := updf B5x.positions (B5x.pieces m.toSq)
            ((B5x.positions (B5x.pieces m.toSq)).set
              ((B5x.positions (B5x.pieces m.toSq)).indexOf m.toSq) m.fr),
          hash := B5x.hash ^^^ piece_hash m.toSq (B5x.pieces m.toSq) ^^^
            piece_hash m.fr (B5x.pieces m.toSq) }, ?_, ?_, ?_⟩
      · rw [unmake_reverse, if_neg hnp, if_neg hnc, unmake_reverse_basic, hmv,
          Option.some_bind, if_neg hcapf]
      · intro sq
        dsimp only
        by_cases hsf : sq = m.fr
        · subst hsf
          rw [updf_same, hx_p_tsq]
        · rw [updf_other _ _ _ hsf]
          by_cases hst : sq = m.toSq
          · subst hst
            rw [updf_same]
            exact hemp.symm
          · rw [updf_other _ _ _ hst, hx_pieces, hu1, hBap,
              updf_other _ _ _ hst, updf_other _ _ _ hsf]
      · exact move_piece_poscore hmv hvfr
          (poscore_congr (by rw [hx_pieces, hu1])
            (by rw [hx_positions, hu2]) hcBa)
    | DOUBLE_PAWN_MOVE =>
      have hnp : ¬ (move_promoted m = true) := by
        simp [move_promoted, hfl]
      have hnc : ¬ (move_castled m = true) := by
        simp [move_castled, hfl]
      rw [make_apply, if_neg hnp, if_neg hnc, make_apply_basic,
        if_neg (by simp [hfl]), if_pos hfl, make_enpas_update,
        if_pos hfl] at hap
      simp only [MoveFacts, hfl] at hmf
      obtain ⟨hvts, hcap0, -, -⟩ := hmf
      obtain ⟨hemp, hmem, hB3eq⟩ := move_piece_eq_some.mp hap
      have hps1 : (set_en_passant (make_start B m)
          (enpas_capture_square B.next_move_colour m.toSq)).pieces =
          B.pieces := rfl
      have hpos1 : (set_en_passant (make_start B m)
          (enpas_capture_square B.next_move_colour m.toSq)).positions =
          B.positions := rfl
      rw [hps1] at hemp
      rw [hps1, hpos1] at hmem
      rw [hps1, hpos1] at hB3eq
      have hvpf : valid_piece (B.pieces m.fr) := mem_positions_valid hcB hmem
      have hfrts : m.fr ≠ m.toSq := by
        intro hce
        rw [hce, hemp] at hvpf
        exact absurd hvpf (by decide)
      have hplt : B.pieces m.fr < 16 := valid_piece_lt hvpf
      have hndp : (B.positions (B.pieces m.fr)).Nodup := hcB.2.1 _ hplt
      obtain ⟨A, Bb, hl, hA, hBb, hidx, hset⟩ :=
        set_indexOf_split m.toSq hmem hndp
      have hvfr : valid_square m.fr := (hcB.1 _ hplt _ hmem).1
      have hcB3 : PosCore B3 :=
        move_piece_poscore hap hvts (poscore_congr rfl rfl hcB)
      have hB3p : B3.pieces =
          updf (updf B.pieces m.fr INVALID_PIECE) m.toSq (B.pieces m.fr) := by
        rw [hB3eq]
      have hB3pos : B3.positions = updf B.positions (B.pieces m.fr)
          ((B.positions (B.pieces m.fr)).set
            ((B.positions (B.pieces m.fr)).indexOf m.fr) m.toSq) := by
        rw [hB3eq]
      have hx_p_tsq : B5x.pieces m.toSq = B.pieces m.fr := by
        rw [hx_pieces, hB3p, updf_same]
      have hx_p_fr : B5x.pieces m.fr = INVALID_PIECE := by
        rw [hx_pieces, hB3p, updf_other _ _ _ hfrts, updf_same]
      have hx_pos_p : B5x.positions (B.pieces m.fr) = A ++ m.toSq :: Bb := by
        rw [hx_positions, hB3pos, updf_same, hset]
      have hmemb : m.toSq ∈ B5x.positions (B5x.pieces m.toSq) := by
        rw [hx_p_tsq, hx_pos_p]
        exact List.mem_append.mpr (Or.inr (List.mem_cons_self _ _))
      have hmv := move_piece_eq_some.mpr ⟨hx_p_fr, hmemb, rfl⟩
      have hcapf : ¬ (move_captured m = true) := by
        simp [move_captured, hcap0]
      refine ⟨{ B5x with
          pieces := updf (updf B5x.pieces m.toSq INVALID_PIECE) m.fr
            (B5x.pieces m.toSq),
          positions := updf B5x.positions (B5x.pieces m.toSq)
            ((B5x.positions (B5x.pieces m.toSq)).set
              ((B5x.positions (B5x.pieces m.toSq)).indexOf m.toSq) m.fr),
          hash := B5x.hash ^^^ piece_hash m.toSq (B5x.pieces m.toSq) ^^^
            piece_hash m.fr (B5x.pieces m.toSq) }, ?_, ?_, ?_⟩
      · rw [unmake_reverse, if_neg hnp, if_neg hnc, unmake_reverse_basic, hmv,
          Option.some_bind, if_neg hcapf]
      · intro sq
        dsimp only
        by_cases hsf : sq = m.fr
        · subst hsf
          rw [updf_same, hx_p_tsq]
        · rw [updf_other _ _ _ hsf]
          by_cases hst : sq = m.toSq
          · subst hst
            rw [updf_same]
            exact hemp.symm
          · rw [updf_other _ _ _ hst, hx_pieces, hB3p,
              updf_other _ _ _ hst, updf_other _ _ _ hsf]
      · exact move_piece_poscore hmv hvfr
          (poscore_congr hx_pieces hx_positions hcB3)
    | CAPTURE_MOVE =>
      have hnp : ¬ (move_promoted m = true) := by
        simp [move_promoted, hfl]
      have hnc : ¬ (move_castled m = true) := by
        simp [move_castled, hfl]
      rw [make_apply, if_neg hnp, if_neg hnc, make_apply_basic,
        if_neg (by simp [hfl]), if_neg (by simp [hfl]), if_pos hfl,
        make_enpas_update, if_neg (by simp [hfl])] at hap
      simp only [MoveFacts, hfl] at hmf
      obtain ⟨hvts, hcapeq⟩ := hmf
      rcases Option.bind_eq_some.mp hap with ⟨Ba, hBa, h2⟩
      rcases Option.bind_eq_some.mp h2 with ⟨Bb, hBb, hB3⟩
      cases Option.some_inj.mp hB3
      obtain ⟨hvq, hmemq, hBaeq⟩ := remove_piece_eq_some.mp hBa
      have hps1 : (set_en_passant (make_start B m) INVALID_SQUARE).pieces =
          B.pieces := rfl
      have hpos1 : (set_en_passant (make_start B m) INVALID_SQUARE).positions =
          B.positions := rfl
      rw [hps1] at hvq
      rw [hps1, hpos1] at hmemq
      rw [hps1, hpos1] at hBaeq
      have hcBa : PosCore Ba :=
        remove_piece_poscore hBa (poscore_congr rfl rfl hcB)
      have hBap : Ba.pieces = updf B.pieces m.toSq INVALID_PIECE := by
        rw [hBaeq]
      obtain ⟨hempb, hmemb0, hBbeq⟩ := move_piece_eq_some.mp hBb
      have hvpf : valid_piece (Ba.pieces m.fr) :=
        mem_positions_valid hcBa hmemb0
      have hfrts : m.fr ≠ m.toSq := by
        intro hce
        rw [hce, hempb] at hvpf
        exact absurd hvpf (by decide)
      have haf : Ba.pieces m.fr = B.pieces m.fr := by
        rw [hBap, updf_other _ _ _ hfrts]
      have hplt : Ba.pieces m.fr < 16 := valid_piece_lt hvpf
      have hndpa : (Ba.positions (Ba.pieces m.fr)).Nodup := hcBa.2.1 _ hplt
      obtain ⟨A, Bb2, hl, hA, hBb2, hidx, hset⟩ :=
        set_indexOf_split m.toSq hmemb0 hndpa
      have hvfr : valid_square m.fr := (hcBa.1 _ hplt _ hmemb0).1
      have hcBb : PosCore Bb := move_piece_poscore hBb hvts hcBa
      have hBbp : Bb.pieces =
          updf (updf Ba.pieces m.fr INVALID_PIECE) m.toSq (Ba.pieces m.fr) := by
        rw [hBbeq]
      have hBbpos : Bb.positions = updf Ba.positions (Ba.pieces m.fr)
          ((Ba.positions (Ba.pieces m.fr)).set
            ((Ba.positions (Ba.pieces m.fr)).indexOf m.fr) m.toSq) := by
        rw [hBbeq]
      obtain ⟨hu1, hu2, -, -, -, -, -, -⟩ :=
        update_castling_proj Bb m.fr (moved_piece m)
      have hx_p_tsq : B5x.pieces m.toSq = Ba.pieces m.fr := by
        rw [hx_pieces, hu1, hBbp, updf_same]
      have hx_p_fr : B5x.pieces m.fr = INVALID_PIECE := by
        rw [hx_pieces, hu1, hBbp, updf_other _ _ _ hfrts, updf_same]
      have hx_pos_p : B5x.positions (Ba.pieces m.fr) = A ++ m.toSq :: Bb2 := by
        rw [hx_positions, hu2, hBbpos, updf_same, hset]
      have hmemb : m.toSq ∈ B5x.positions (B5x.pieces m.toSq) := by
        rw [hx_p_tsq, hx_pos_p]
        exact List.mem_append.mpr (Or.inr (List.mem_cons_self _ _))
      obtain ⟨Bc, hmv, hBcp, hBcpos⟩ :
          ∃ Bc, move_piece B5x m.toSq m.fr = some Bc ∧
            Bc.pieces = updf (updf B5x.pieces m.toSq INVALID_PIECE) m.fr
              (B5x.pieces m.toSq) ∧
            Bc.positions = updf B5x.positions (B5x.pieces m.toSq)
              ((B5x.positions (B5x.pieces m.toSq)).set
                ((B5x.positions (B5x.pieces m.toSq)).indexOf m.toSq) m.fr) :=
        ⟨_, move_piece_eq_some.mpr ⟨hx_p_fr, hmemb, rfl⟩, rfl, rfl⟩
      have hvcap : valid_piece m.captured := by
        rw [hcapeq]
        exact hvq
      have hBc_tsq : Bc.pieces m.toSq = INVALID_PIECE := by
        rw [hBcp, updf_other _ _ _ (Ne.symm hfrts), updf_same]
      obtain ⟨B6, hadd, hB6p, hB6pos⟩ :
          ∃ B6, add_piece Bc m.toSq m.captured = some B6 ∧
            B6.pieces = updf Bc.pieces m.toSq m.captured ∧
            B6.positions = updf Bc.positions m.captured
              (Bc.positions m.captured ++ [m.toSq]) :=
        ⟨_, add_piece_eq_some.mpr ⟨hvcap, hBc_tsq, rfl⟩, rfl, rfl⟩
      have hcapne : m.captured ≠ INVALID_PIECE := by
        intro h0
        rw [h0] at hvcap
        exact absurd hvcap (by decide)
      have hcapt : move_captured m = true := by
        simp [move_captured, bne_iff_ne]
        exact hcapne
      refine ⟨B6, ?_, ?_, ?_⟩
      · rw [unmake_reverse, if_neg hnp, if_neg hnc, unmake_reverse_basic, hmv,
          Option.some_bind, if_pos hcapt, if_pos hfl, captured_piece, hadd]
      · intro sq
        rw [hB6p]
        by_cases hst : sq = m.toSq
        · subst hst
          rw [updf_same]
          exact hcapeq
        · rw [updf_other _ _ _ hst, hBcp]
          by_cases hsf : sq = m.fr
          · subst hsf
            rw [updf_same, hx_p_tsq, haf]
          · rw [updf_other _ _ _ hsf, updf_other _ _ _ hst, hx_pieces, hu1,
              hBbp, updf_other _ _ _ hst, updf_other _ _ _ hsf, hBap,
              updf_other _ _ _ hst]
      · exact add_piece_poscore hadd hvts
          (move_piece_poscore hmv hvfr
            (poscore_congr (by rw [hx_pieces, hu1])
              (by rw [hx_positions, hu2]) hcBb))
    | EN_PASSANT_MOVE =>
      have hnp : ¬ (move_promoted m = true) := by
        simp [move_promoted, hfl]
      have hnc : ¬ (move_castled m = true) := by
        simp [move_castled, hfl]
      rw [make_apply, if_neg hnp, if_neg hnc, make_apply_basic,
        if_neg (by simp [hfl]), if_neg (by simp [hfl]),
        if_neg (by simp [hfl]), if_pos hfl, make_enpas_update,
        if_neg (by simp [hfl])] at hap
      simp only [MoveFacts, hfl] at hmf
      obtain ⟨htseq, hep0, hcapne⟩ := hmf
      have hcap := hep hfl
      obtain ⟨-, -, -, -, -, -, -, -, -, -, hepv, -⟩ := hV
      rcases hepv with hbad | ⟨hvep, -⟩
      · exact absurd hbad hep0
      have hvts : valid_square m.toSq := by
        rw [htseq]
        exact hvep
      rcases Option.bind_eq_some.mp hap with ⟨Ba, hBa, hB3e⟩
      obtain ⟨hvq, hmemq, hBaeq⟩ := remove_piece_eq_some.mp hBa
      have hps1 : (set_en_passant (make_start B m) INVALID_SQUARE).pieces =
          B.pieces := rfl
      have hpos1 : (set_en_passant (make_start B m) INVALID_SQUARE).positions =
          B.positions := rfl
      rw [hps1] at hvq
      rw [hps1, hpos1] at hmemq
      rw [hps1, hpos1] at hBaeq
      have hcBa : PosCore Ba :=
        remove_piece_poscore hBa (poscore_congr rfl rfl hcB)
      have hBap : Ba.pieces = updf B.pieces
          (enpas_capture_square B.next_move_colour m.toSq) INVALID_PIECE := by
        rw [hBaeq]
      obtain ⟨hempb, hmemb0, hB3eq⟩ := move_piece_eq_some.mp hB3e
      have hvpf : valid_piece (Ba.pieces m.fr) :=
        mem_positions_valid hcBa hmemb0
      have hctne : enpas_capture_square B.next_move_colour m.toSq ≠
          m.toSq := by
        obtain ⟨hv1, -, -, -⟩ := hvts
        unfold enpas_capture_square
        split
        · omega
        · omega
      have hcfne : enpas_capture_square B.next_move_colour m.toSq ≠ m.fr := by
        intro hce
        rw [hBap, hce, updf_same] at hvpf
        exact absurd hvpf (by decide)
      have haf : Ba.pieces m.fr = B.pieces m.fr := by
        rw [hBap, updf_other _ _ _ (Ne.symm hcfne)]
      have hBtsq : B.pieces m.toSq = INVALID_PIECE := by
        rw [hBap, updf_other _ _ _ (Ne.symm hctne)] at hempb
        exact hempb
      have hfrts : m.fr ≠ m.toSq := by
        intro hce
        rw [haf, hce, hBtsq] at hvpf
        exact absurd hvpf (by decide)
      have hplt : Ba.pieces m.fr < 16 := valid_piece_lt hvpf
      have hndpa : (Ba.positions (Ba.pieces m.fr)).Nodup := hcBa.2.1 _ hplt
      obtain ⟨A, Bb2, hl, hA, hBb2, hidx, hset⟩ :=
        set_indexOf_split m.toSq hmemb0 hndpa
      have hvfr : valid_square m.fr := (hcBa.1 _ hplt _ hmemb0).1
      have hcB3 : PosCore B3 := move_piece_poscore hB3e hvts hcBa
      have hB3p : B3.pieces =
          updf (updf Ba.pieces m.fr INVALID_PIECE) m.toSq (Ba.pieces m.fr) := by
        rw [hB3eq]
      have hB3pos : B3.positions = updf Ba.positions (Ba.pieces m.fr)
          ((Ba.positions (Ba.pieces m.fr)).set
            ((Ba.positions (Ba.pieces m.fr)).indexOf m.fr) m.toSq) := by
        rw [hB3eq]
      have hx_p_tsq : B5x.pieces m.toSq = Ba.pieces m.fr := by
        rw [hx_pieces, hB3p, updf_same]
      have hx_p_fr : B5x.pieces m.fr = INVALID_PIECE := by
        rw [hx_pieces, hB3p, updf_other _ _ _ hfrts, updf_same]
      have hx_pos_p : B5x.positions (Ba.pieces m.fr) = A ++ m.toSq :: Bb2 := by
        rw [hx_positions, hB3pos, updf_same, hset]
      have hmemb : m.toSq ∈ B5x.positions (B5x.pieces m.toSq) := by
        rw [hx_p_tsq, hx_pos_p]
        exact List.mem_append.mpr (Or.inr (List.mem_cons_self _ _))
      obtain ⟨Bc, hmv, hBcp, hBcpos⟩ :
          ∃ Bc, move_piece B5x m.toSq m.fr = some Bc ∧
            Bc.pieces = updf (updf B5x.pieces m.toSq INVALID_PIECE) m.fr
              (B5x.pieces m.toSq) ∧
            Bc.positions = updf B5x.positions (B5x.pieces m.toSq)
              ((B5x.positions (B5x.pieces m.toSq)).set
                ((B5x.positions (B5x.pieces m.toSq)).indexOf m.toSq) m.fr) :=
        ⟨_, move_piece_eq_some.mpr ⟨hx_p_fr, hmemb, rfl⟩, rfl, rfl⟩
      have hvcap : valid_piece m.captured := hcap ▸ hvq
      have hvcapsq : valid_square
          (enpas_capture_square B.next_move_colour m.toSq) :=
        (hcB.1 _ (valid_piece_lt hvq) _ hmemq).1
      have hBc_cap : Bc.pieces
          (enpas_capture_square B.next_move_colour m.toSq) =
          INVALID_PIECE := by
        rw [hBcp, updf_other _ _ _ hcfne, updf_other _ _ _ hctne, hx_pieces,
          hB3p, updf_other _ _ _ hctne, updf_other _ _ _ hcfne, hBap,
          updf_same]
      obtain ⟨B6, hadd, hB6p, hB6pos⟩ :
          ∃ B6, add_piece Bc
              (enpas_capture_square B.next_move_colour m.toSq) m.captured =
              some B6 ∧
            B6.pieces = updf Bc.pieces
              (enpas_capture_square B.next_move_colour m.toSq) m.captured ∧
            B6.positions = updf Bc.positions m.captured
              (Bc.positions m.captured ++
                [enpas_capture_square B.next_move_colour m.toSq]) :=
        ⟨_, add_piece_eq_some.mpr ⟨hvcap, hBc_cap, rfl⟩, rfl, rfl⟩
      have hcapt : move_captured m = true := by
        simp [move_captured, bne_iff_ne]
        exact hcapne
      refine ⟨B6, ?_, ?_, ?_⟩
      · rw [unmake_reverse, if_neg hnp, if_neg hnc, unmake_reverse_basic, hmv,
          Option.some_bind, if_pos hcapt, if_neg (by simp [hfl]),
          captured_piece]
        show add_piece Bc
          (enpas_capture_square B.next_move_colour B5x.en_passant)
          m.captured = some B6
        rw [hx_ep, ← htseq]
        exact hadd
      · intro sq
        rw [hB6p]
        by_cases hsc : sq = enpas_capture_square B.next_move_colour m.toSq
        · subst hsc
          rw [updf_same]
          exact hcap.symm
        · rw [updf_other _ _ _ hsc, hBcp]
          by_cases hsf : sq = m.fr
          · subst hsf
            rw [updf_same, hx_p_tsq, haf]
          · rw [updf_other _ _ _ hsf]
            by_cases hst : sq = m.toSq
            · subst hst
              rw [updf_same]
              exact hBtsq.symm
            · rw [updf_other _ _ _ hst, hx_pieces, hB3p,
                updf_other _ _ _ hst, updf_other _ _ _ hsf, hBap,
                updf_other _ _ _ hsc]
      · exact add_piece_poscore hadd hvcapsq
          (move_piece_poscore hmv hvfr
            (poscore_congr hx_pieces hx_positions hcB3))
    | SHORT_CASTLE_MOVE =>
      have hnp : ¬ (move_promoted m = true) := by
        simp [move_promoted, hfl]
      have hct : move_castled m = true := by
        simp [move_castled, hfl]
      rw [make_apply, if_neg hnp, if_pos hct, make_apply_castle] at hap
      rcases Option.bind_eq_some.mp hap with ⟨Bx, hBx, hB3⟩
      cases Option.some_inj.mp hB3
      rw [make_castle_moves] at hBx
      by_cases hw : B.next_move_colour = WHITE
      · rw [if_pos hw, if_pos hfl] at hBx
        rcases Option.bind_eq_some.mp hBx with ⟨By, hBy, hBx2⟩
        obtain ⟨hempKT, hmemKF, hByeq⟩ := move_piece_eq_some.mp hBy
        have hms1 : (make_start B m).pieces = B.pieces := rfl
        have hms2 : (make_start B m).positions = B.positions := rfl
        rw [hms1] at hempKT
        rw [hms1, hms2] at hmemKF
        rw [hms1, hms2] at hByeq
        have hByp : By.pieces =
            updf (updf B.pieces E1 INVALID_PIECE) G1 (B.pieces E1) := by
          rw [hByeq]
        have hcBy : PosCore By :=
          move_piece_poscore hBy (by decide) (poscore_congr rfl rfl hcB)
        obtain ⟨hempRT, hmemRF, hBxeq⟩ := move_piece_eq_some.mp hBx2
        have hrH : By.pieces H1 = B.pieces H1 := by
          rw [hByp, updf_other _ _ _ (by decide : H1 ≠ G1),
            updf_other _ _ _ (by decide : H1 ≠ E1)]
        have hBxp : Bx.pieces =
            updf (updf By.pieces H1 INVALID_PIECE) F1 (By.pieces H1) := by
          rw [hBxeq]
        have hempF : B.pieces F1 = INVALID_PIECE := by
          rw [hByp, updf_other _ _ _ (by decide : F1 ≠ G1),
            updf_other _ _ _ (by decide : F1 ≠ E1)] at hempRT
          exact hempRT
        have hcBx : PosCore Bx := move_piece_poscore hBx2 (by decide) hcBy
        have hxp : B5x.pieces = Bx.pieces := hx_pieces
        have hxpos : B5x.positions = Bx.positions := hx_positions
        have hcB5x : PosCore B5x := poscore_congr hxp hxpos hcBx
        have hvk : valid_piece (B.pieces E1) := mem_positions_valid hcB hmemKF
        have hvr : valid_piece (By.pieces H1) := mem_positions_valid hcBy hmemRF
        have hxE : B5x.pieces E1 = INVALID_PIECE := by
          rw [hxp, hBxp, updf_other _ _ _ (by decide : E1 ≠ F1),
            updf_other _ _ _ (by decide : E1 ≠ H1), hByp,
            updf_other _ _ _ (by decide : E1 ≠ G1), updf_same]
        have hxG : B5x.pieces G1 = B.pieces E1 := by
          rw [hxp, hBxp, updf_other _ _ _ (by decide : G1 ≠ F1),
            updf_other _ _ _ (by decide : G1 ≠ H1), hByp, updf_same]
        have hxH : B5x.pieces H1 = INVALID_PIECE := by
          rw [hxp, hBxp, updf_other _ _ _ (by decide : H1 ≠ F1), updf_same]
        have hxF : B5x.pieces F1 = By.pieces H1 := by
          rw [hxp, hBxp, updf_same]
        have hmemG : G1 ∈ B5x.positions (B5x.pieces G1) :=
          hcB5x.2.2.1 G1 (by decide) (by rw [hxG]; exact hvk)
        obtain ⟨Bc, hmv1, hBcp, hBcpos⟩ :
            ∃ Bc, move_piece B5x G1 E1 = some Bc ∧
              Bc.pieces = updf (updf B5x.pieces G1 INVALID_PIECE) E1
                (B5x.pieces G1) ∧
              Bc.positions = updf B5x.positions (B5x.pieces G1)
                ((B5x.positions (B5x.pieces G1)).set
                  ((B5x.positions (B5x.pieces G1)).indexOf G1) E1) :=
          ⟨_, move_piece_eq_some.mpr ⟨hxE, hmemG, rfl⟩, rfl, rfl⟩
        have hcBc : PosCore Bc := move_piece_poscore hmv1 (by decide) hcB5x
        have hcF : Bc.pieces F1 = By.pieces H1 := by
          rw [hBcp, updf_other _ _ _ (by decide : F1 ≠ E1),
            updf_other _ _ _ (by decide : F1 ≠ G1), hxF]
        have hcH : Bc.pieces H1 = INVALID_PIECE := by
          rw [hBcp, updf_other _ _ _ (by decide : H1 ≠ E1),
            updf_other _ _ _ (by decide : H1 ≠ G1), hxH]
        have hmemF : F1 ∈ Bc.positions (Bc.pieces F1) :=
          hcBc.2.2.1 F1 (by decide) (by rw [hcF]; exact hvr)
        obtain ⟨B6, hmv2, hB6p, hB6pos⟩ :
            ∃ B6, move_piece Bc F1 H1 = some B6 ∧
              B6.pieces = updf (updf Bc.pieces F1 INVALID_PIECE) H1
                (Bc.pieces F1) ∧
              B6.positions = updf Bc.positions (Bc.pieces F1)
                ((Bc.positions (Bc.pieces F1)).set
                  ((Bc.positions (Bc.pieces F1)).indexOf F1) H1) :=
          ⟨_, move_piece_eq_some.mpr ⟨hcH, hmemF, rfl⟩, rfl, rfl⟩
        refine ⟨B6, ?_, ?_, ?_⟩
        · rw [unmake_reverse, if_neg hnp, if_pos hct, unmake_castle_moves,
            if_pos hw, if_pos hfl, hmv1, Option.some_bind, hmv2]
        · intro sq
          rw [hB6p]
          by_cases hsH : sq = H1
          · subst hsH
            rw [updf_same, hcF, hrH]
          · rw [updf_other _ _ _ hsH]
            by_cases hsF : sq = F1
            · subst hsF
              rw [updf_same]
              exact hempF.symm
            · rw [updf_other _ _ _ hsF, hBcp]
              by_cases hsE : sq = E1
              · subst hsE
                rw [updf_same, hxG]
              · rw [updf_other _ _ _ hsE]
                by_cases hsG : sq = G1
                · subst hsG
                  rw [updf_same]
                  exact hempKT.symm
                · rw [updf_other _ _ _ hsG, hxp, hBxp,
                    updf_other _ _ _ hsF, updf_other _ _ _ hsH, hByp,
                    updf_other _ _ _ hsG, updf_other _ _ _ hsE]
        · exact move_piece_poscore hmv2 (by decide) hcBc
      · rw [if_neg hw, if_pos hfl] at hBx
        rcases Option.bind_eq_some.mp hBx with ⟨By, hBy, hBx2⟩
        obtain ⟨hempKT, hmemKF, hByeq⟩ := move_piece_eq_some.mp hBy
        have hms1 : (make_start B m).pieces = B.pieces := rfl
        have hms2 : (make_start B m).positions = B.positions := rfl
        rw [hms1] at hempKT
        rw [hms1, hms2] at hmemKF
        rw [hms1, hms2] at hByeq
        have hByp : By.pieces =
            updf (updf B.pieces E8 INVALID_PIECE) G8 (B.pieces E8) := by
          rw [hByeq]
        have hcBy : PosCore By :=
          move_piece_poscore hBy (by decide) (poscore_congr rfl rfl hcB)
        obtain ⟨hempRT, hmemRF, hBxeq⟩ := move_piece_eq_some.mp hBx2
        have hrH : By.pieces H8 = B.pieces H8 := by
          rw [hByp, updf_other _ _ _ (by decide : H8 ≠ G8),
            updf_other _ _ _ (by decide : H8 ≠ E8)]
        have hBxp : Bx.pieces =
            updf (updf By.pieces H8 INVALID_PIECE) F8 (By.pieces H8) := by
          rw [hBxeq]
        have hempF : B.pieces F8 = INVALID_PIECE := by
          rw [hByp, updf_other _ _ _ (by decide : F8 ≠ G8),
            updf_other _ _ _ (by decide : F8 ≠ E8)] at hempRT
          exact hempRT
        have hcBx : PosCore Bx := move_piece_poscore hBx2 (by decide) hcBy
        have hxp : B5x.pieces = Bx.pieces := hx_pieces
        have hxpos : B5x.positions = Bx.positions := hx_positions
        have hcB5x : PosCore B5x := poscore_congr hxp hxpos hcBx
        have hvk : valid_piece (B.pieces E8) := mem_positions_valid hcB hmemKF
        have hvr : valid_piece (By.pieces H8) := mem_positions_valid hcBy hmemRF
        have hxE : B5x.pieces E8 = INVALID_PIECE := by
          rw [hxp, hBxp, updf_other _ _ _ (by decide : E8 ≠ F8),
            updf_other _ _ _ (by decide : E8 ≠ H8), hByp,
            updf_other _ _ _ (by decide : E8 ≠ G8), updf_same]
        have hxG : B5x.pieces G8 = B.pieces E8 := by
          rw [hxp, hBxp, updf_other _ _ _ (by decide : G8 ≠ F8),
            updf_other _ _ _ (by decide : G8 ≠ H8), hByp, updf_same]
        have hxH : B5x.pieces H8 = INVALID_PIECE := by
          rw [hxp, hBxp, updf_other _ _ _ (by decide : H8 ≠ F8), updf_same]
        have hxF : B5x.pieces F8 = By.pieces H8 := by
          rw [hxp, hBxp, updf_same]
        have hmemG : G8 ∈ B5x.positions (B5x.pieces G8) :=
          hcB5x.2.2.1 G8 (by decide) (by rw [hxG]; exact hvk)
        obtain ⟨Bc, hmv1, hBcp, hBcpos⟩ :
            ∃ Bc, move_piece B5x G8 E8 = some Bc ∧
              Bc.pieces = updf (updf B5x.pieces G8 INVALID_PIECE) E8
                (B5x.pieces G8) ∧
              Bc.positions = updf B5x.positions (B5x.pieces G8)
                ((B5x.positions (B5x.pieces G8)).set
                  ((B5x.positions (B5x.pieces G8)).indexOf G8) E8) :=
          ⟨_, move_piece_eq_some.mpr ⟨hxE, hmemG, rfl⟩, rfl, rfl⟩
        have hcBc : PosCore Bc := move_piece_poscore hmv1 (by decide) hcB5x
        have hcF : Bc.pieces F8 = By.pieces H8 := by
          rw [hBcp, updf_other _ _ _ (by decide : F8 ≠ E8),
            updf_other _ _ _ (by decide : F8 ≠ G8), hxF]
        have hcH : Bc.pieces H8 = INVALID_PIECE := by
          rw [hBcp, updf_other _ _ _ (by decide : H8 ≠ E8),
            updf_other _ _ _ (by decide : H8 ≠ G8), hxH]
        have hmemF : F8 ∈ Bc.positions (Bc.pieces F8) :=
          hcBc.2.2.1 F8 (by decide) (by rw [hcF]; exact hvr)
        obtain ⟨B6, hmv2, hB6p, hB6pos⟩ :
            ∃ B6, move_piece Bc F8 H8 = some B6 ∧
              B6.pieces = updf (updf Bc.pieces F8 INVALID_PIECE) H8
                (Bc.pieces F8) ∧
              B6.positions = updf Bc.positions (Bc.pieces F8)
                ((Bc.positions (Bc.pieces F8)).set
                  ((Bc.positions (Bc.pieces F8)).indexOf F8) H8) :=
          ⟨_, move_piece_eq_some.mpr ⟨hcH, hmemF, rfl⟩, rfl, rfl⟩
        refine ⟨B6, ?_, ?_, ?_⟩
        · rw [unmake_reverse, if_neg hnp, if_pos hct, unmake_castle_moves,
            if_neg hw, if_pos hfl, hmv1, Option.some_bind, hmv2]
        · intro sq
          rw [hB6p]
          by_cases hsH : sq = H8
          · subst hsH
            rw [updf_same, hcF, hrH]
          · rw [updf_other _ _ _ hsH]
            by_cases hsF : sq = F8
            · subst hsF
              rw [updf_same]
              exact hempF.symm
            · rw [updf_other _ _ _ hsF, hBcp]
              by_cases hsE : sq = E8
              · subst hsE
                rw [updf_same, hxG]
              · rw [updf_other _ _ _ hsE]
                by_cases hsG : sq = G8
                · subst hsG
                  rw [updf_same]
                  exact hempKT.symm
                · rw [updf_other _ _ _ hsG, hxp, hBxp,
                    updf_other _ _ _ hsF, updf_other _ _ _ hsH, hByp,
                    updf_other _ _ _ hsG, updf_other _ _ _ hsE]
        · exact move_piece_poscore hmv2 (by decide) hcBc
    | LONG_CASTLE_MOVE =>
      have hnp : ¬ (move_promoted m = true) := by
        simp [move_promoted, hfl]
      have hct : move_castled m = true := by
        simp [move_castled, hfl]
      rw [make_apply, if_neg hnp, if_pos hct, make_apply_castle] at hap
      rcases Option.bind_eq_some.mp hap with ⟨Bx, hBx, hB3⟩
      cases Option.some_inj.mp hB3
      rw [make_castle_moves] at hBx
      by_cases hw : B.next_move_colour = WHITE
      · rw [if_pos hw, if_neg (by simp [hfl])] at hBx
        rcases Option.bind_eq_some.mp hBx with ⟨By, hBy, hBx2⟩
        obtain ⟨hempKT, hmemKF, hByeq⟩ := move_piece_eq_some.mp hBy
        have hms1 : (make_start B m).pieces = B.pieces := rfl
        have hms2 : (make_start B m).positions = B.positions := rfl
        rw [hms1] at hempKT
        rw [hms1, hms2] at hmemKF
        rw [hms1, hms2] at hByeq
        have hByp : By.pieces =
            updf (updf B.pieces E1 INVALID_PIECE) C1 (B.pieces E1) := by
          rw [hByeq]
        have hcBy : PosCore By :=
          move_piece_poscore hBy (by decide) (poscore_congr rfl rfl hcB)
        obtain ⟨hempRT, hmemRF, hBxeq⟩ := move_piece_eq_some.mp hBx2
        have hrH : By.pieces A1 = B.pieces A1 := by
          rw [hByp, updf_other _ _ _ (by decide : A1 ≠ C1),
            updf_other _ _ _ (by decide : A1 ≠ E1)]
        have hBxp : Bx.pieces =
            updf (updf By.pieces A1 INVALID_PIECE) D1 (By.pieces A1) := by
          rw [hBxeq]
        have hempF : B.pieces D1 = INVALID_PIECE := by
          rw [hByp, updf_other _ _ _ (by decide : D1 ≠ C1),
            updf_other _ _ _ (by decide : D1 ≠ E1)] at hempRT
          exact hempRT
        have hcBx : PosCore Bx := move_piece_poscore hBx2 (by decide) hcBy
        have hxp : B5x.pieces = Bx.pieces := hx_pieces
        have hxpos : B5x.positions = Bx.positions := hx_positions
        have hcB5x : PosCore B5x := poscore_congr hxp hxpos hcBx
        have hvk : valid_piece (B.pieces E1) := mem_positions_valid hcB hmemKF
        have hvr : valid_piece (By.pieces A1) := mem_positions_valid hcBy hmemRF
        have hxE : B5x.pieces E1 = INVALID_PIECE := by
          rw [hxp, hBxp, updf_other _ _ _ (by decide : E1 ≠ D1),
            updf_other _ _ _ (by decide : E1 ≠ A1), hByp,
            updf_other _ _ _ (by decide : E1 ≠ C1), updf_same]
        have hxG : B5x.pieces C1 = B.pieces E1 := by
          rw [hxp, hBxp, updf_other _ _ _ (by decide : C1 ≠ D1),
            updf_other _ _ _ (by decide : C1 ≠ A1), hByp, updf_same]
        have hxH : B5x.pieces A1 = INVALID_PIECE := by
          rw [hxp, hBxp, updf_other _ _ _ (by decide : A1 ≠ D1), updf_same]
        have hxF : B5x.pieces D1 = By.pieces A1 := by
          rw [hxp, hBxp, updf_same]
        have hmemG : C1 ∈ B5x.positions (B5x.pieces C1) :=
          hcB5x.2.2.1 C1 (by decide) (by rw [hxG]; exact hvk)
        obtain ⟨Bc, hmv1, hBcp, hBcpos⟩ :
            ∃ Bc, move_piece B5x C1 E1 = some Bc ∧
              Bc.pieces = updf (updf B5x.pieces C1 INVALID_PIECE) E1
                (B5x.pieces C1) ∧
              Bc.positions = updf B5x.positions (B5x.pieces C1)
                ((B5x.positions (B5x.pieces C1)).set
                  ((B5x.positions (B5x.pieces C1)).indexOf C1) E1) :=
          ⟨_, move_piece_eq_some.mpr ⟨hxE, hmemG, rfl⟩, rfl, rfl⟩
        have hcBc : PosCore Bc := move_piece_poscore hmv1 (by decide) hcB5x
        have hcF : Bc.pieces D1 = By.pieces A1 := by
          rw [hBcp, updf_other _ _ _ (by decide : D1 ≠ E1),
            updf_other _ _ _ (by decide : D1 ≠ C1), hxF]
        have hcH : Bc.pieces A1 = INVALID_PIECE := by
          rw [hBcp, updf_other _ _ _ (by decide : A1 ≠ E1),
            updf_other _ _ _ (by decide : A1 ≠ C1), hxH]
        have hmemF : D1 ∈ Bc.positions (Bc.pieces D1) :=
          hcBc.2.2.1 D1 (by decide) (by rw [hcF]; exact hvr)
        obtain ⟨B6, hmv2, hB6p, hB6pos⟩ :
            ∃ B6, move_piece Bc D1 A1 = some B6 ∧
              B6.pieces = updf (updf Bc.pieces D1 INVALID_PIECE) A1
                (Bc.pieces D1) ∧
              B6.positions = updf Bc.positions (Bc.pieces D1)
                ((Bc.positions (Bc.pieces D1)).set
                  ((Bc.positions (Bc.pieces D1)).indexOf D1) A1) :=
          ⟨_, move_piece_eq_some.mpr ⟨hcH, hmemF, rfl⟩, rfl, rfl⟩
        refine ⟨B6, ?_, ?_, ?_⟩
        · rw [unmake_reverse, if_neg hnp, if_pos hct, unmake_castle_moves,
            if_pos hw, if_neg (by simp [hfl]), hmv1, Option.some_bind, hmv2]
        · intro sq
          rw [hB6p]
          by_cases hsH : sq = A1
          · subst hsH
            rw [updf_same, hcF, hrH]
          · rw [updf_other _ _ _ hsH]
            by_cases hsF : sq = D1
            · subst hsF
              rw [updf_same]
              exact hempF.symm
            · rw [updf_other _ _ _ hsF, hBcp]
              by_cases hsE : sq = E1
              · subst hsE
                rw [updf_same, hxG]
              · rw [updf_other _ _ _ hsE]
                by_cases hsG : sq = C1
                · subst hsG
                  rw [updf_same]
                  exact hempKT.symm
                · rw [updf_other _ _ _ hsG, hxp, hBxp,
                    updf_other _ _ _ hsF, updf_other _ _ _ hsH, hByp,
                    updf_other _ _ _ hsG, updf_other _ _ _ hsE]
        · exact move_piece_poscore hmv2 (by decide) hcBc
      · rw [if_neg hw, if_neg (by simp [hfl])] at hBx
        rcases Option.bind_eq_some.mp hBx with ⟨By, hBy, hBx2⟩
        obtain ⟨hempKT, hmemKF, hByeq⟩ := move_piece_eq_some.mp hBy
        have hms1 : (make_start B m).pieces = B.pieces := rfl
        have hms2 : (make_start B m).positions = B.positions := rfl
        rw [hms1] at hempKT
        rw [hms1, hms2] at hmemKF
        rw [hms1, hms2] at hByeq
        have hByp : By.pieces =
            updf (updf B.pieces E8 INVALID_PIECE) C8 (B.pieces E8) := by
          rw [hByeq]
        have hcBy : PosCore By :=
          move_piece_poscore hBy (by decide) (poscore_congr rfl rfl hcB)
        obtain ⟨hempRT, hmemRF, hBxeq⟩ := move_piece_eq_some.mp hBx2
        have hrH : By.pieces A8 = B.pieces A8 := by
          rw [hByp, updf_other _ _ _ (by decide : A8 ≠ C8),
            updf_other _ _ _ (by decide : A8 ≠ E8)]
        have hBxp : Bx.pieces =
            updf (updf By.pieces A8 INVALID_PIECE) D8 (By.pieces A8) := by
          rw [hBxeq]
        have hempF : B.pieces D8 = INVALID_PIECE := by
          rw [hByp, updf_other _ _ _ (by decide : D8 ≠ C8),
            updf_other _ _ _ (by decide : D8 ≠ E8)] at hempRT
          exact hempRT
        have hcBx : PosCore Bx := move_piece_poscore hBx2 (by decide) hcBy
        have hxp : B5x.pieces = Bx.pieces := hx_pieces
        have hxpos : B5x.positions = Bx.positions := hx_positions
        have hcB5x : PosCore B5x := poscore_congr hxp hxpos hcBx
        have hvk : valid_piece (B.pieces E8) := mem_positions_valid hcB hmemKF
        have hvr : valid_piece (By.pieces A8) := mem_positions_valid hcBy hmemRF
        have hxE : B5x.pieces E8 = INVALID_PIECE := by
          rw [hxp, hBxp, updf_other _ _ _ (by decide : E8 ≠ D8),
            updf_other _ _ _ (by decide : E8 ≠ A8), hByp,
            updf_other _ _ _ (by decide : E8 ≠ C8), updf_same]
        have hxG : B5x.pieces C8 = B.pieces E8 := by
          rw [hxp, hBxp, updf_other _ _ _ (by decide : C8 ≠ D8),
            updf_other _ _ _ (by decide : C8 ≠ A8), hByp, updf_same]
        have hxH : B5x.pieces A8 = INVALID_PIECE := by
          rw [hxp, hBxp, updf_other _ _ _ (by decide : A8 ≠ D8), updf_same]
        have hxF : B5x.pieces D8 = By.pieces A8 := by
          rw [hxp, hBxp, updf_same]
        have hmemG : C8 ∈ B5x.positions (B5x.pieces C8) :=
          hcB5x.2.2.1 C8 (by decide) (by rw [hxG]; exact hvk)
        obtain ⟨Bc, hmv1, hBcp, hBcpos⟩ :
            ∃ Bc, move_piece B5x C8 E8 = some Bc ∧
              Bc.pieces = updf (updf B5x.pieces C8 INVALID_PIECE) E8
                (B5x.pieces C8) ∧
              Bc.positions = updf B5x.positions (B5x.pieces C8)
                ((B5x.positions (B5x.pieces C8)).set
                  ((B5x.positions (B5x.pieces C8)).indexOf C8) E8) :=
          ⟨_, move_piece_eq_some.mpr ⟨hxE, hmemG, rfl⟩, rfl, rfl⟩
        have hcBc : PosCore Bc := move_piece_poscore hmv1 (by decide) hcB5x
        have hcF : Bc.pieces D8 = By.pieces A8 := by
          rw [hBcp, updf_other _ _ _ (by decide : D8 ≠ E8),
            updf_other _ _ _ (by decide : D8 ≠ C8), hxF]
        have hcH : Bc.pieces A8 = INVALID_PIECE := by
          rw [hBcp, updf_other _ _ _ (by decide : A8 ≠ E8),
            updf_other _ _ _ (by decide : A8 ≠ C8), hxH]
        have hmemF : D8 ∈ Bc.positions (Bc.pieces D8) :=
          hcBc.2.2.1 D8 (by decide) (by rw [hcF]; exact hvr)
        obtain ⟨B6, hmv2, hB6p, hB6pos⟩ :
            ∃ B6, move_piece Bc D8 A8 = some B6 ∧
              B6.pieces = updf (updf Bc.pieces D8 INVALID_PIECE) A8
                (Bc.pieces D8) ∧
              B6.positions = updf Bc.positions (Bc.pieces D8)
                ((Bc.positions (Bc.pieces D8)).set
                  ((Bc.positions (Bc.pieces D8)).indexOf D8) A8) :=
          ⟨_, move_piece_eq_some.mpr ⟨hcH, hmemF, rfl⟩, rfl, rfl⟩
        refine ⟨B6, ?_, ?_, ?_⟩
        · rw [unmake_reverse, if_neg hnp, if_pos hct, unmake_castle_moves,
            if_neg hw, if_neg (by simp [hfl]), hmv1, Option.some_bind, hmv2]
        · intro sq
          rw [hB6p]
          by_cases hsH : sq = A8
          · subst hsH
            rw [updf_same, hcF, hrH]
          · rw [updf_other _ _ _ hsH]
            by_cases hsF : sq = D8
            · subst hsF
              rw [updf_same]
              exact hempF.symm
            · rw [updf_other _ _ _ hsF, hBcp]
              by_cases hsE : sq = E8
              · subst hsE
                rw [updf_same, hxG]
              · rw [updf_other _ _ _ hsE]
                by_cases hsG : sq = C8
                · subst hsG
                  rw [updf_same]
                  exact hempKT.symm
                · rw [updf_other _ _ _ hsG, hxp, hBxp,
                    updf_other _ _ _ hsF, updf_other _ _ _ hsH, hByp,
                    updf_other _ _ _ hsG, updf_other _ _ _ hsE]
        · exact move_piece_poscore hmv2 (by decide) hcBc
    | PROMOTE_MOVE =>
      have hpt : move_promoted m = true := by
        simp [move_promoted, hfl]
      rw [make_apply, if_pos hpt, make_apply_promote] at hap
      simp only [MoveFacts, hfl] at hmf
      obtain ⟨hvts, hcap0, hmoved, hfrts⟩ := hmf
      have hcapf : ¬ (move_captured m = true) := by
        simp [move_captured, hcap0]
      rw [if_neg hcapf] at hap
      simp only [Option.some_bind] at hap
      rcases Option.bind_eq_some.mp hap with ⟨Bb, hBb, h2⟩
      rcases Option.bind_eq_some.mp h2 with ⟨Bc2, hBc, hB3⟩
      cases Option.some_inj.mp hB3
      obtain ⟨hvpr, hempt, hBbeq⟩ := add_piece_eq_some.mp hBb
      have hms1 : (make_start B m).pieces = B.pieces := rfl
      have hms2 : (make_start B m).positions = B.positions := rfl
      rw [hms1] at hempt
      rw [hms1, hms2] at hBbeq
      obtain ⟨hvf2, hmemf, hBceq⟩ := remove_piece_eq_some.mp hBc
      have hBbp : Bb.pieces = updf B.pieces m.toSq (promoted_piece m) := by
        rw [hBbeq]
      have hbf : Bb.pieces m.fr = B.pieces m.fr := by
        rw [hBbp, updf_other _ _ _ hfrts]
      have hvBf : valid_piece (B.pieces m.fr) := by
        rw [← hbf]
        exact hvf2
      have hcBb : PosCore Bb :=
        add_piece_poscore hBb hvts (poscore_congr rfl rfl hcB)
      have hvfr : valid_square m.fr :=
        (hcBb.1 _ (valid_piece_lt hvf2) _ hmemf).1
      have hcBc2 : PosCore Bc2 := remove_piece_poscore hBc hcBb
      have hBcp : Bc2.pieces = updf Bb.pieces m.fr INVALID_PIECE := by
        rw [hBceq]
      have hxp : B5x.pieces = Bc2.pieces := hx_pieces
      have hxpos : B5x.positions = Bc2.positions := hx_positions
      have hx_tsq : B5x.pieces m.toSq = promoted_piece m := by
        rw [hxp, hBcp, updf_other _ _ _ (Ne.symm hfrts), hBbp, updf_same]
      have hx_fr : B5x.pieces m.fr = INVALID_PIECE := by
        rw [hxp, hBcp, updf_same]
      have hcB5x : PosCore B5x := poscore_congr hxp hxpos hcBc2
      have hmemtsq : m.toSq ∈ B5x.positions (B5x.pieces m.toSq) :=
        hcB5x.2.2.1 m.toSq hvts (by rw [hx_tsq]; exact hvpr)
      obtain ⟨Ba2, hrm, hBa2p, hBa2pos⟩ :
          ∃ Ba2, remove_piece B5x m.toSq = some Ba2 ∧
            Ba2.pieces = updf B5x.pieces m.toSq INVALID_PIECE ∧
            Ba2.positions = updf B5x.positions (B5x.pieces m.toSq)
              (swap_remove (B5x.positions (B5x.pieces m.toSq)) m.toSq) :=
        ⟨_, remove_piece_eq_some.mpr
          ⟨(by rw [hx_tsq]; exact hvpr), hmemtsq, rfl⟩, rfl, rfl⟩
      have hBa2fr : Ba2.pieces m.fr = INVALID_PIECE := by
        rw [hBa2p, updf_other _ _ _ hfrts, hx_fr]
      have hvmoved : valid_piece (moved_piece m) := by
        rw [moved_piece, hmoved]
        exact hvBf
      obtain ⟨B6, hadd, hB6p, hB6pos⟩ :
          ∃ B6, add_piece Ba2 m.fr (moved_piece m) = some B6 ∧
            B6.pieces = updf Ba2.pieces m.fr (moved_piece m) ∧
            B6.positions = updf Ba2.positions (moved_piece m)
              (Ba2.positions (moved_piece m) ++ [m.fr]) :=
        ⟨_, add_piece_eq_some.mpr ⟨hvmoved, hBa2fr, rfl⟩, rfl, rfl⟩
      refine ⟨B6, ?_, ?_, ?_⟩
      · rw [unmake_reverse, if_pos hpt, unmake_reverse_promote, hrm,
          Option.some_bind, hadd, Option.some_bind, if_neg hcapf]
      · intro sq
        rw [hB6p]
        by_cases hsf : sq = m.fr
        · subst hsf
          rw [updf_same, moved_piece, hmoved]
        · rw [updf_other _ _ _ hsf, hBa2p]
          by_cases hst : sq = m.toSq
          · subst hst
            rw [updf_same]
            exact hempt.symm
          · rw [updf_other _ _ _ hst, hxp, hBcp, updf_other _ _ _ hsf,
              hBbp, updf_other _ _ _ hst]
      · exact add_piece_poscore hadd hvfr (remove_piece_poscore hrm hcB5x)
    | PROMOTE_CAPTURE_MOVE =>
      have hpt : move_promoted m = true := by
        simp [move_promoted, hfl]
      rw [make_apply, if_pos hpt, make_apply_promote] at hap
      simp only [MoveFacts, hfl] at hmf
      obtain ⟨hvts, hcapeq, hmoved, hfrts, hcapne⟩ := hmf
      have hcapt : move_captured m = true := by
        simp [move_captured, bne_iff_ne]
        exact hcapne
      rw [if_pos hcapt] at hap
      rcases Option.bind_eq_some.mp hap with ⟨Ba, hBaif, h2⟩
      obtain ⟨hvq, hmemq, hBaeq⟩ := remove_piece_eq_some.mp hBaif
      have hms1 : (make_start B m).pieces = B.pieces := rfl
      have hms2 : (make_start B m).positions = B.positions := rfl
      rw [hms1] at hvq
      rw [hms1, hms2] at hmemq
      rw [hms1, hms2] at hBaeq
      have hBap : Ba.pieces = updf B.pieces m.toSq INVALID_PIECE := by
        rw [hBaeq]
      have hcBa : PosCore Ba :=
        remove_piece_poscore hBaif (poscore_congr rfl rfl hcB)
      rcases Option.bind_eq_some.mp h2 with ⟨Bb, hBb, h3⟩
      rcases Option.bind_eq_some.mp h3 with ⟨Bc2, hBc, hB3⟩
      cases Option.some_inj.mp hB3
      obtain ⟨hvpr, -, hBbeq⟩ := add_piece_eq_some.mp hBb
      have hBbp : Bb.pieces = updf Ba.pieces m.toSq (promoted_piece m) := by
        rw [hBbeq]
      obtain ⟨hvf2, hmemf, hBceq⟩ := remove_piece_eq_some.mp hBc
      have hbf : Bb.pieces m.fr = B.pieces m.fr := by
        rw [hBbp, updf_other _ _ _ hfrts, hBap, updf_other _ _ _ hfrts]
      have hvBf : valid_piece (B.pieces m.fr) := by
        rw [← hbf]
        exact hvf2
      have hcBb : PosCore Bb := add_piece_poscore hBb hvts hcBa
      have hvfr : valid_square m.fr :=
        (hcBb.1 _ (valid_piece_lt hvf2) _ hmemf).1
      have hcBc2 : PosCore Bc2 := remove_piece_poscore hBc hcBb
      have hBcp : Bc2.pieces = updf Bb.pieces m.fr INVALID_PIECE := by
        rw [hBceq]
      have hxp : B5x.pieces = Bc2.pieces := hx_pieces
      have hxpos : B5x.positions = Bc2.positions := hx_positions
      have hx_tsq : B5x.pieces m.toSq = promoted_piece m := by
        rw [hxp, hBcp, updf_other _ _ _ (Ne.symm hfrts), hBbp, updf_same]
      have hx_fr : B5x.pieces m.fr = INVALID_PIECE := by
        rw [hxp, hBcp, updf_same]
      have hcB5x : PosCore B5x := poscore_congr hxp hxpos hcBc2
      have hmemtsq : m.toSq ∈ B5x.positions (B5x.pieces m.toSq) :=
        hcB5x.2.2.1 m.toSq hvts (by rw [hx_tsq]; exact hvpr)
      obtain ⟨Ba2, hrm, hBa2p, hBa2pos⟩ :
          ∃ Ba2, remove_piece B5x m.toSq = some Ba2 ∧
            Ba2.pieces = updf B5x.pieces m.toSq INVALID_PIECE ∧
            Ba2.positions = updf B5x.positions (B5x.pieces m.toSq)
              (swap_remove (B5x.positions (B5x.pieces m.toSq)) m.toSq) :=
        ⟨_, remove_piece_eq_some.mpr
          ⟨(by rw [hx_tsq]; exact hvpr), hmemtsq, rfl⟩, rfl, rfl⟩
      have hBa2fr : Ba2.pieces m.fr = INVALID_PIECE := by
        rw [hBa2p, updf_other _ _ _ hfrts, hx_fr]
      have hvmoved : valid_piece (moved_piece m) := by
        rw [moved_piece, hmoved]
        exact hvBf
      obtain ⟨Bb3, hadd1, hBb3p, hBb3pos⟩ :
          ∃ Bb3, add_piece Ba2 m.fr (moved_piece m) = some Bb3 ∧
            Bb3.pieces = updf Ba2.pieces m.fr (moved_piece m) ∧
            Bb3.positions = updf Ba2.positions (moved_piece m)
              (Ba2.positions (moved_piece m) ++ [m.fr]) :=
        ⟨_, add_piece_eq_some.mpr ⟨hvmoved, hBa2fr, rfl⟩, rfl, rfl⟩
      have hBb3tsq : Bb3.pieces m.toSq = INVALID_PIECE := by
        rw [hBb3p, updf_other _ _ _ (Ne.symm hfrts), hBa2p, updf_same]
      have hvcap : valid_piece m.captured := by
        rw [hcapeq]
        exact hvq
      obtain ⟨B6, hadd2, hB6p, hB6pos⟩ :
          ∃ B6, add_piece Bb3 m.toSq m.captured = some B6 ∧
            B6.pieces = updf Bb3.pieces m.toSq m.captured ∧
            B6.positions = updf Bb3.positions m.captured
              (Bb3.positions m.captured ++ [m.toSq]) :=
        ⟨_, add_piece_eq_some.mpr ⟨hvcap, hBb3tsq, rfl⟩, rfl, rfl⟩
      refine ⟨B6, ?_, ?_, ?_⟩
      · rw [unmake_reverse, if_pos hpt, unmake_reverse_promote, hrm,
          Option.some_bind, hadd1, Option.some_bind, if_pos hcapt,
          captured_piece, hadd2]
      · intro sq
        rw [hB6p]
        by_cases hst : sq = m.toSq
        · subst hst
          rw [updf_same]
          exact hcapeq
        · rw [updf_other _ _ _ hst, hBb3p]
          by_cases hsf : sq = m.fr
          · subst hsf
            rw [updf_same, moved_piece, hmoved]
          · rw [updf_other _ _ _ hsf, hBa2p, updf_other _ _ _ hst, hxp,
              hBcp, updf_other _ _ _ hsf, hBbp, updf_other _ _ _ hst,
              hBap, updf_other _ _ _ hst]
      · exact add_piece_poscore hadd2 hvts
          (add_piece_poscore hadd1 hvfr (remove_piece_poscore hrm hcB5x))
  obtain ⟨B6, hrev, hP6, hcore6⟩ := hbranch
  obtain ⟨g1, g2, g3, g4, g5, g6, g7⟩ := unmake_reverse_frame hrev
  have h6i : B6.hash = compute_hash B6 := unmake_reverse_hashinv hrev hxi
  have hhash6 : B6.hash = B.hash := by
    rw [h6i, hhi]
    rw [compute_hash_fields, compute_hash_fields]
    rw [board_hash_congr hP6, g2, hx_castle, g3, hx_ep, g1, hx_col]
  refine ⟨B6, unmake_move_eq_some.mpr ⟨make_entry B m, B.history, hist5,
    by rw [half5]; exact Nat.succ_ne_zero _, ?_, ?_⟩, ?_⟩
  · show unmake_reverse B5x B5x.next_move_colour m = some B6
    rw [hx_col]
    exact hrev
  · exact hhash6
  · exact ⟨hP6, fun p => poscore_positions_perm hcore6 hcB hP6 p,
      by rw [g1, hx_col], by rw [g2, hx_castle], by rw [g3, hx_ep],
      by rw [g4, hx_fifty], by rw [g5, hx_half], hhash6,
      by rw [g6, hx_hist], by rw [g7, hx_cache, cache5]⟩

/-! ## The parser writes only valid piece ids into the lists -/

theorem parse_placement_positions_empty {cs : List Char} :
    ∀ {idx : Nat} {pieces : Nat → Nat} {positions : Nat → List Nat}
      {st : List Char × Nat × (Nat → Nat) × (Nat → List Nat)},
      parse_placement cs idx pieces positions = some st →
      (∀ p, ¬ valid_piece p → positions p = []) →
      ∀ p, ¬ valid_piece p → st.2.2.2 p = [] := by
  induction cs with
  | nil =>
    intro idx pieces positions st h hbase
    simp [parse_placement] at h
  | cons c cs ih =>
    intro idx pieces positions st h hbase
    rw [parse_placement] at h
    by_cases h1 : c = ' '
    · rw [if_pos h1] at h
      cases Option.some_inj.mp h
      exact hbase
    · rw [if_neg h1] at h
      by_cases h2 : c = '/'
      · rw [if_pos h2] at h
        by_cases h3 : idx % 10 = 9
        · rw [if_pos h3] at h
          exact ih h hbase
        · rw [if_neg h3] at h
          cases h
      · rw [if_neg h2] at h
        by_cases h4 : '1' ≤ c ∧ c ≤ '8'
        · rw [if_pos h4] at h
          dsimp only at h
          split at h
          · exact ih h hbase
          · cases h
        · rw [if_neg h4] at h
          dsimp only at h
          by_cases h5 : valid_square idx ∧
              valid_piece (piece_from_char c) ∧
              (positions (piece_from_char c)).length < MAX_PIECE_FREQ
          · rw [if_pos h5] at h
            split at h
            · refine ih h ?_
              intro p hp
              have hpne : p ≠ piece_from_char c := by
                intro hce
                rw [hce] at hp
                exact hp h5.2.1
              rw [updf_other _ _ _ hpne]
              exact hbase p hp
            · cases h
          · rw [if_neg h5] at h
            cases h

theorem parse_after_placement_fields {rest1 : List Char} {idx : Nat}
    {pieces : Nat → Nat} {positions : Nat → List Nat} {B : Board}
    (h : parse_after_placement rest1 idx pieces positions = some B) :
    B.pieces = pieces ∧ B.positions = positions := by
  unfold parse_after_placement at h
  by_cases hidx : idx ≠ 29
  · rw [if_pos hidx] at h
    cases h
  · rw [if_neg hidx] at h
    rcases rest1 with - | ⟨a, - | ⟨b, rest2⟩⟩
    · exact Option.noConfusion h
    · exact Option.noConfusion h
    · rcases Option.bind_eq_some.mp h with ⟨colour, -, h2⟩
      rcases Option.bind_eq_some.mp h2 with ⟨st3, -, h3⟩
      rcases Option.bind_eq_some.mp h3 with ⟨st4, -, h4⟩
      rcases Option.bind_eq_some.mp h4 with ⟨st5, -, h5⟩
      rcases Option.bind_eq_some.mp h5 with ⟨full, -, h6⟩
      cases Option.some_inj.mp h6
      exact ⟨rfl, rfl⟩

theorem board_from_fen_positions_empty {fen : List Char} {B : Board}
    (h : board_from_fen fen = some B) :
    ∀ p, ¬ valid_piece p → B.positions p = [] := by
  unfold board_from_fen at h
  rcases Option.bind_eq_some.mp h with ⟨st1, h1, h2⟩
  have hpe := parse_placement_positions_empty h1 (fun p _ => rfl)
  obtain ⟨-, hpos⟩ := parse_after_placement_fields h2
  intro p hp
  rw [hpos]
  exact hpe p hp

theorem C1_counterexample :
    c1cx_move ∈ pseudo_moves_scratch c1cx_board ∧
    make_move c1cx_board c1cx_move = some (c1cx_after, true) ∧
    unmake_move c1cx_after = some c1cx_back ∧
    c1cx_board.positions BLACK_PAWN = [82, 33] ∧
    c1cx_back.positions BLACK_PAWN = [33, 82] :=
  ⟨by decide, by rfl, by rfl, by rfl, by rfl⟩

/-- C1 (amended): make/unmake round trip.  For a board satisfying the
documented invariants whose stored hash equals the recomputation, and any
pseudo-move the generator emits from it that is en-passant coherent — for
an `EN_PASSANT_MOVE` the board must actually hold the move's recorded
captured piece on the en-passant capture square, a condition the generator
does not check (it writes `captured = my_pawn ^ 8` without reading the
board) and which the invariants do not imply: without it the round trip can
fail outright (see `make_unmake_ep_incoherent`) — a completed `make_move`
followed by `unmake_move` restores the piece array pointwise, the castle
state, en-passant target, both clocks, the hash and the history
bit-exactly, but the per-piece position lists only up to permutation: a
capture removes the victim by swap-remove, which reorders the captured
side's list, so the restored board need not be byte-identical (see
`C1_counterexample`). -/
theorem C1_make_unmake_round_trip (B : Board) (m : Move)
    (hV : ValidBoard B) (hhi : B.hash = compute_hash B)
    (hm : m ∈ pseudo_moves_scratch B)
    (hep : m.flag = MoveFlag.EN_PASSANT_MOVE →
      B.pieces (enpas_capture_square B.next_move_colour m.toSq) = m.captured)
    (B5 : Board) (ok : Bool) (hmk : make_move B m = some (B5, ok)) :
    ∃ B6, unmake_move B5 = some B6 ∧ Restored B6 B := by
  refine make_unmake_restored hV hhi ?_ hep hmk
  unfold pseudo_moves_scratch at hm
  split at hm
  · cases hm
  · exact gen_moves_facts hV.2.2.1 hm

theorem C1_witness :
    ValidBoard c1cx_board ∧
    c1cx_move ∈ pseudo_moves_scratch c1cx_board ∧
    ∃ B6, unmake_move c1cx_after = some B6 ∧ Restored B6 c1cx_board := by
  have hV : ValidBoard c1cx_board := by
    refine ⟨by decide, by decide, by decide, by decide, by decide,
      @board_from_fen_positions_empty c1cx_fen c1cx_board (by rfl),
      by decide, by decide,
      by decide, by decide, by decide, by decide⟩
  refine ⟨hV, by decide, ?_⟩
  exact C1_make_unmake_round_trip c1cx_board c1cx_move hV (by rfl) (by decide)
    (fun h => absurd h (by decide)) c1cx_after true (by rfl)

theorem update_castling_castle (X : Board) (sq moved : Nat) :
    (update_castling X sq moved).castle_state =
      castle_rights_after sq moved X.castle_state := by
  unfold update_castling castle_rights_after
  split
  · rfl
  · rfl

theorem C10_counterexample :
    c10_move ∈ pseudo_moves_scratch c10_board ∧
    c10_move.flag = MoveFlag.CAPTURE_MOVE ∧
    c10_board.pieces H8 = BLACK_ROOK ∧
    c10_board.castle_state = BLACK_SHORT ||| BLACK_LONG ∧
    make_move c10_board c10_move = some (c10_after, true) ∧
    c10_after.castle_state = BLACK_SHORT :=
  ⟨by decide, by rfl, by rfl, by rfl, by rfl, by rfl⟩

/-- C10 (amended): castle-right stripping is keyed on the from-square and on
castle flags, but `update_castling` also fires on from-square A8: a white
rook capturing from A8 to H8 strips BLACK_LONG via its own from-square while
the captured h8 rook leaves BLACK_SHORT intact (see `C10_counterexample`).
For captures and promotion-captures the new castle state is exactly
`castle_rights_after` of the from-square and the moving piece — the captured
rook's home square is never consulted. -/
theorem C10_castle_rights (B : Board) (m : Move) (B5 : Board) (ok : Bool)
    (hmk : make_move B m = some (B5, ok)) :
    (m.flag = MoveFlag.CAPTURE_MOVE →
      B5.castle_state =
        castle_rights_after m.fr (moved_piece m) B.castle_state) ∧
    (m.flag = MoveFlag.PROMOTE_CAPTURE_MOVE →
      B5.castle_state = B.castle_state) := by
  obtain ⟨B3, hap, hB5, -⟩ := make_move_eq_some.mp hmk
  subst hB5
  constructor
  · intro hfl
    have hnp : ¬ (move_promoted m = true) := by
      simp [move_promoted, hfl]
    have hnc : ¬ (move_castled m = true) := by
      simp [move_castled, hfl]
    rw [make_apply, if_neg hnp, if_neg hnc, make_apply_basic,
      if_neg (by simp [hfl]), if_neg (by simp [hfl]), if_pos hfl,
      make_enpas_update, if_neg (by simp [hfl])] at hap
    rcases Option.bind_eq_some.mp hap with ⟨Ba, hBa, h2⟩
    rcases Option.bind_eq_some.mp h2 with ⟨Bb, hBb, hB3⟩
    cases Option.some_inj.mp hB3
    show (update_castling Bb m.fr (moved_piece m)).castle_state = _
    rw [update_castling_castle]
    have hc1 : Bb.castle_state = Ba.castle_state := (move_piece_frame hBb).2.1
    have hc2 : Ba.castle_state = B.castle_state :=
      (remove_piece_frame hBa).2.1
    rw [hc1, hc2]
  · intro hfl
    have hpt : move_promoted m = true := by
      simp [move_promoted, hfl]
    rw [make_apply, if_pos hpt, make_apply_promote] at hap
    rcases Option.bind_eq_some.mp hap with ⟨Ba, hBaif, h2⟩
    rcases Option.bind_eq_some.mp h2 with ⟨Bb, hBb, h3⟩
    rcases Option.bind_eq_some.mp h3 with ⟨Bc2, hBc, hB3⟩
    cases Option.some_inj.mp hB3
    show Bc2.castle_state = _
    have hc1 : Bc2.castle_state = Bb.castle_state :=
      (remove_piece_frame hBc).2.1
    have hc2 : Bb.castle_state = Ba.castle_state := (add_piece_frame hBb).2.1
    have hc3 : Ba.castle_state = B.castle_state := by
      by_cases hcap : move_captured m = true
      · rw [if_pos hcap] at hBaif
        exact (remove_piece_frame hBaif).2.1
      · rw [if_neg hcap] at hBaif
        cases Option.some_inj.mp hBaif
        rfl
    rw [hc1, hc2, hc3]

theorem C10_witness :
    make_move c10_board c10_move = some (c10_after, true) ∧
    c10_after.castle_state =
      castle_rights_after c10_move.fr (moved_piece c10_move)
        c10_board.castle_state := by
  have h := C10_castle_rights c10_board c10_move c10_after true (by rfl)
  exact ⟨by rfl, h.1 (by rfl)⟩

/-! ## C5: the castling emission conditions -/

theorem mem_ite_single_append {A C : Prop} [Decidable A] [Decidable C]
    {x y m : Move} :
    m ∈ ((if A then [x] else []) ++ (if C then [y] else [])) ↔
      ((m = x ∧ A) ∨ (m = y ∧ C)) := by
  constructor
  · intro h
    rcases List.mem_append.mp h with h1 | h2
    · obtain ⟨hA, hm⟩ := mem_ite_nil h1
      exact Or.inl ⟨List.mem_singleton.mp hm, hA⟩
    · obtain ⟨hC, hm⟩ := mem_ite_nil h2
      exact Or.inr ⟨List.mem_singleton.mp hm, hC⟩
  · rintro (⟨rfl, hA⟩ | ⟨rfl, hC⟩)
    · refine List.mem_append.mpr (Or.inl ?_)
      rw [if_pos hA]
      exact List.mem_singleton.mpr rfl
    · refine List.mem_append.mpr (Or.inr ?_)
      rw [if_pos hC]
      exact List.mem_singleton.mpr rfl

theorem pawn_moves_not_castled {pieces : Nat → Nat} {ep : Nat} {side : Bool}
    {pp : Nat} {promos : List Nat} {start : Nat} {m : Move}
    (hm : m ∈ pawn_moves_from pieces ep side pp promos start) :
    move_castled m = false := by
  unfold pawn_moves_from at hm
  dsimp only at hm
  set off : Int := if side = WHITE then (10 : Int) else -10 with hoff
  rcases List.mem_append.mp hm with hm | hm_ep
  · rcases List.mem_append.mp hm with hm | hm_c2
    · rcases List.mem_append.mp hm with hm | hm_c1
      · rcases List.mem_append.mp hm with hm_d | hm_s
        · rcases List.mem_append.mp hm_d with hw | hb
          · obtain ⟨-, hmem⟩ := mem_ite_nil hw
            rcases List.mem_singleton.mp hmem with rfl
            rfl
          · obtain ⟨-, hmem⟩ := mem_ite_nil hb
            rcases List.mem_singleton.mp hmem with rfl
            rfl
        · obtain ⟨-, hmem⟩ := mem_ite_nil hm_s
          split at hmem
          · rcases List.mem_map.mp hmem with ⟨pr, -, rfl⟩
            rfl
          · rcases List.mem_singleton.mp hmem with rfl
            rfl
      · obtain ⟨-, hmem⟩ := mem_ite_nil hm_c1
        split at hmem
        · rcases List.mem_map.mp hmem with ⟨pr, -, rfl⟩
          rfl
        · rcases List.mem_singleton.mp hmem with rfl
          rfl
    · obtain ⟨-, hmem⟩ := mem_ite_nil hm_c2
      split at hmem
      · rcases List.mem_map.mp hmem with ⟨pr, -, rfl⟩
        rfl
      · rcases List.mem_singleton.mp hmem with rfl
        rfl
  · obtain ⟨-, hmem⟩ := mem_ite_nil hm_ep
    rcases List.mem_append.mp hmem with hm1 | hm2
    · obtain ⟨-, hmem1⟩ := mem_ite_nil hm1
      rcases List.mem_singleton.mp hmem1 with rfl
      rfl
    · obtain ⟨-, hmem2⟩ := mem_ite_nil hm2
      rcases List.mem_singleton.mp hmem2 with rfl
      rfl

theorem gen_moves_castled {pieces : Nat → Nat} {positions : Nat → List Nat}
    {side : Bool} {cs ep : Nat} {m : Move}
    (hm : m ∈ gen_moves pieces positions side cs ep)
    (hfl : move_castled m = true) :
    m ∈ castle_gen pieces positions side cs := by
  unfold gen_moves at hm
  dsimp only at hm
  rcases List.mem_append.mp hm with hm | hm7
  · exfalso
    rcases List.mem_append.mp hm with hm | hm6
    · rcases List.mem_append.mp hm with hm | hm5
      · rcases List.mem_append.mp hm with hm | hm4
        · rcases List.mem_append.mp hm with hm | hm3
          · rcases List.mem_append.mp hm with hm1 | hm2
            · obtain ⟨start, c, -, (⟨rfl, -⟩ | ⟨rfl, -⟩)⟩ := slider_facts hm1
              · exact Bool.noConfusion hfl
              · exact Bool.noConfusion hfl
            · obtain ⟨start, c, -, (⟨rfl, -⟩ | ⟨rfl, -⟩)⟩ := slider_facts hm2
              · exact Bool.noConfusion hfl
              · exact Bool.noConfusion hfl
          · obtain ⟨start, c, -, (⟨rfl, -⟩ | ⟨rfl, -⟩)⟩ := slider_facts hm3
            · exact Bool.noConfusion hfl
            · exact Bool.noConfusion hfl
        · rcases List.mem_flatMap.mp hm4 with ⟨start, -, hmk⟩
          obtain ⟨c, -, (⟨rfl, -⟩ | ⟨rfl, -⟩)⟩ := leaper_facts hmk
          · exact Bool.noConfusion hfl
          · exact Bool.noConfusion hfl
      · rcases List.mem_flatMap.mp hm5 with ⟨start, -, hmp⟩
        rw [pawn_moves_not_castled hmp] at hfl
        exact Bool.noConfusion hfl
    · obtain ⟨c, -, (⟨rfl, -⟩ | ⟨rfl, -⟩)⟩ := leaper_facts hm6
      · exact Bool.noConfusion hfl
      · exact Bool.noConfusion hfl
  · exact hm7

theorem castle_gen_sub_gen_moves {pieces : Nat → Nat}
    {positions : Nat → List Nat} {side : Bool} {cs ep : Nat} {m : Move}
    (hm : m ∈ castle_gen pieces positions side cs) :
    m ∈ gen_moves pieces positions side cs ep := by
  unfold gen_moves
  dsimp only
  exact List.mem_append.mpr (Or.inr hm)

theorem castle_gen_mem_iff {pieces : Nat → Nat}
    {positions : Nat → List Nat} {side : Bool} {cs : Nat} {m : Move} :
    m ∈ castle_gen pieces positions side cs ↔
      ((side = WHITE ∧
        ((m = castle_move E1 G1 WHITE_KING MoveFlag.SHORT_CASTLE_MOVE ∧
          cs &&& WHITE_SHORT ≠ 0 ∧
          ¬ square_attacked_c pieces positions E1 BLACK ∧
          ¬ square_attacked_c pieces positions F1 BLACK ∧
          pieces F1 = INVALID_PIECE ∧ pieces G1 = INVALID_PIECE) ∨
         (m = castle_move E1 C1 WHITE_KING MoveFlag.LONG_CASTLE_MOVE ∧
          cs &&& WHITE_LONG ≠ 0 ∧
          ¬ square_attacked_c pieces positions E1 BLACK ∧
          ¬ square_attacked_c pieces positions D1 BLACK ∧
          pieces D1 = INVALID_PIECE ∧ pieces C1 = INVALID_PIECE ∧
          pieces B1 = INVALID_PIECE))) ∨
       (side = BLACK ∧
        ((m = castle_move E8 G8 BLACK_KING MoveFlag.SHORT_CASTLE_MOVE ∧
          cs &&& BLACK_SHORT ≠ 0 ∧
          ¬ square_attacked_c pieces positions E8 WHITE ∧
          ¬ square_attacked_c pieces positions F8 WHITE ∧
          pieces F8 = INVALID_PIECE ∧ pieces G8 = INVALID_PIECE) ∨
         (m = castle_move E8 C8 BLACK_KING MoveFlag.LONG_CASTLE_MOVE ∧
          cs &&& BLACK_LONG ≠ 0 ∧
          ¬ square_attacked_c pieces positions E8 WHITE ∧
          ¬ square_attacked_c pieces positions D8 WHITE ∧
          pieces D8 = INVALID_PIECE ∧ pieces C8 = INVALID_PIECE ∧
          pieces B8 = INVALID_PIECE)))) := by
  unfold castle_gen
  by_cases hw : side = WHITE
  · rw [if_pos hw]
    dsimp only
    rw [mem_ite_single_append]
    constructor
    · intro h
      exact Or.inl ⟨hw, h⟩
    · rintro (⟨-, h⟩ | ⟨hb, -⟩)
      · exact h
      · rw [hw] at hb
        exact absurd hb (by decide)
  · rw [if_neg hw]
    dsimp only
    rw [mem_ite_single_append]
    constructor
    · intro h
      refine Or.inr ⟨?_, h⟩
      cases hs : side
      · exact absurd hs hw
      · rfl
    · rintro (⟨hb, -⟩ | ⟨-, h⟩)
      · exact absurd hb hw
      · exact h

theorem C5_counterexample :
    c5_move ∈ pseudo_moves_scratch c5_board ∧
    square_attacked c5_board G1 BLACK = true :=
  ⟨by decide, by rfl⟩

/-- C5 (amended): castle emission.  Below the draw cut-offs, a castle-flagged
move is emitted by `pseudo_moves` exactly when the side's castle-right bit
is set, the squares between king and rook are empty (including the b-file
square on the queenside) and neither the king's origin square nor the single
square it passes over is attacked — the destination square is never
attack-tested, contrary to the claim (see `C5_counterexample`). -/
theorem C5_castle_emission (B : Board) (m : Move)
    (hcut : ¬ (B.half_move > 1000 ∨ B.fifty_move > 75))
    (hfl : move_castled m = true) :
    m ∈ pseudo_moves_scratch B ↔
      ((B.next_move_colour = WHITE ∧
        ((m = castle_move E1 G1 WHITE_KING MoveFlag.SHORT_CASTLE_MOVE ∧
          B.castle_state &&& WHITE_SHORT ≠ 0 ∧
          ¬ square_attacked B E1 BLACK ∧ ¬ square_attacked B F1 BLACK ∧
          B.pieces F1 = INVALID_PIECE ∧ B.pieces G1 = INVALID_PIECE) ∨
         (m = castle_move E1 C1 WHITE_KING MoveFlag.LONG_CASTLE_MOVE ∧
          B.castle_state &&& WHITE_LONG ≠ 0 ∧
          ¬ square_attacked B E1 BLACK ∧ ¬ square_attacked B D1 BLACK ∧
          B.pieces D1 = INVALID_PIECE ∧ B.pieces C1 = INVALID_PIECE ∧
          B.pieces B1 = INVALID_PIECE))) ∨
       (B.next_move_colour = BLACK ∧
        ((m = castle_move E8 G8 BLACK_KING MoveFlag.SHORT_CASTLE_MOVE ∧
          B.castle_state &&& BLACK_SHORT ≠ 0 ∧
          ¬ square_attacked B E8 WHITE ∧ ¬ square_attacked B F8 WHITE ∧
          B.pieces F8 = INVALID_PIECE ∧ B.pieces G8 = INVALID_PIECE) ∨
         (m = castle_move E8 C8 BLACK_KING MoveFlag.LONG_CASTLE_MOVE ∧
          B.castle_state &&& BLACK_LONG ≠ 0 ∧
          ¬ square_attacked B E8 WHITE ∧ ¬ square_attacked B D8 WHITE ∧
          B.pieces D8 = INVALID_PIECE ∧ B.pieces C8 = INVALID_PIECE ∧
          B.pieces B8 = INVALID_PIECE)))) := by
  unfold pseudo_moves_scratch
  rw [if_neg hcut]
  constructor
  · intro hm
    exact castle_gen_mem_iff.mp (gen_moves_castled hm hfl)
  · intro h
    exact castle_gen_sub_gen_moves (castle_gen_mem_iff.mpr h)

theorem C5_witness :
    ¬ (c5_board.half_move > 1000 ∨ c5_board.fifty_move > 75) ∧
    move_castled c5_move = true ∧
    c5_move ∈ pseudo_moves_scratch c5_board :=
  ⟨by decide, by rfl,
    (C5_castle_emission c5_board c5_move (by decide) (by rfl)).mpr
      (Or.inl ⟨by rfl, Or.inl
        ⟨rfl, by decide, by decide, by decide, by rfl, by rfl⟩⟩)⟩

theorem parse_ep_field_spec {rest3 : List Char} {colour : Bool}
    {pieces : Nat → Nat} {st : List Char × Nat}
    (h : parse_ep_field rest3 colour pieces = some st) :
    st.2 = INVALID_SQUARE ∨
    ∃ col : Int,
      (st.2 : Int) = 21 + 10 * (if colour = WHITE then (5 : Int) else 2) +
        col ∧
      (pieces_at pieces ((st.2 : Int) - 1) = side_pawn colour ∨
       pieces_at pieces ((st.2 : Int) + 1) = side_pawn colour) := by
  unfold parse_ep_field at h
  split at h
  · split at h
    · cases Option.some_inj.mp h
      exact Or.inl rfl
    · cases h
  · next c1 c2 c3 cs hne =>
    dsimp only at h
    by_cases hcond : (colour = WHITE → (c2.toNat : Int) - 49 = 5) ∧
        (colour = BLACK → (c2.toNat : Int) - 49 = 2) ∧ c3 = ' '
    · rw [if_pos hcond] at h
      by_cases helide :
          pieces_at pieces
              (21 + 10 * ((c2.toNat : Int) - 49) +
                ((c1.toNat : Int) - 97) - 1) ≠
            (if colour = WHITE then WHITE_PAWN else BLACK_PAWN) ∧
          pieces_at pieces
              (21 + 10 * ((c2.toNat : Int) - 49) +
                ((c1.toNat : Int) - 97) + 1) ≠
            (if colour = WHITE then WHITE_PAWN else BLACK_PAWN)
      · rw [if_pos helide] at h
        cases Option.some_inj.mp h
        exact Or.inl rfl
      · rw [if_neg helide] at h
        cases Option.some_inj.mp h
        by_cases hge :
            (0 : Int) ≤ 21 + 10 * ((c2.toNat : Int) - 49) +
              ((c1.toNat : Int) - 97)
        · refine Or.inr ⟨(c1.toNat : Int) - 97, ?_, ?_⟩
          · show ((21 + 10 * ((c2.toNat : Int) - 49) +
                ((c1.toNat : Int) - 97)).toNat : Int) = _
            rw [Int.toNat_of_nonneg hge]
            obtain ⟨hw, hb, -⟩ := hcond
            by_cases hco : colour = WHITE
            · rw [if_pos hco, hw hco]
            · rw [if_neg hco]
              have hbt : colour = BLACK := by
                cases hcol : colour
                · exact absurd hcol hco
                · rfl
              rw [hb hbt]
          · show pieces_at pieces
                (((21 + 10 * ((c2.toNat : Int) - 49) +
                  ((c1.toNat : Int) - 97)).toNat : Int) - 1) = _ ∨
              pieces_at pieces
                (((21 + 10 * ((c2.toNat : Int) - 49) +
                  ((c1.toNat : Int) - 97)).toNat : Int) + 1) = _
            rw [Int.toNat_of_nonneg hge]
            rcases not_and_or.mp helide with h1 | h1
            · exact Or.inl (not_not.mp h1)
            · exact Or.inr (not_not.mp h1)
        · refine Or.inl ?_
          show ((21 + 10 * ((c2.toNat : Int) - 49) +
            ((c1.toNat : Int) - 97)).toNat) = 0
          omega
    · rw [if_neg hcond] at h
      cases h
  · cases h

theorem board_from_fen_enpas {fen : List Char} {B : Board}
    (h : board_from_fen fen = some B) :
    B.en_passant = INVALID_SQUARE ∨
    ∃ col : Int,
      (B.en_passant : Int) =
        21 + 10 * (if B.next_move_colour = WHITE then (5 : Int) else 2) +
          col ∧
      (pieces_at B.pieces ((B.en_passant : Int) - 1) =
         side_pawn B.next_move_colour ∨
       pieces_at B.pieces ((B.en_passant : Int) + 1) =
         side_pawn B.next_move_colour) := by
  unfold board_from_fen at h
  rcases Option.bind_eq_some.mp h with ⟨st1, -, h2⟩
  obtain ⟨rest1, idx, pieces, positions⟩ := st1
  unfold parse_after_placement at h2
  by_cases hidx : idx ≠ 29
  · rw [if_pos hidx] at h2
    cases h2
  · rw [if_neg hidx] at h2
    rcases rest1 with - | ⟨a, - | ⟨b, rest2⟩⟩
    · exact Option.noConfusion h2
    · exact Option.noConfusion h2
    · rcases Option.bind_eq_some.mp h2 with ⟨colour, -, h3⟩
      rcases Option.bind_eq_some.mp h3 with ⟨st3, -, h4⟩
      rcases Option.bind_eq_some.mp h4 with ⟨st4, hep, h5⟩
      rcases Option.bind_eq_some.mp h5 with ⟨st5, -, h6⟩
      rcases Option.bind_eq_some.mp h6 with ⟨full, -, h7⟩
      cases Option.some_inj.mp h7
      exact parse_ep_field_spec hep

theorem make_apply_enpas {B1 B3 : Board} {cs : Bool} {m : Move}
    (h : make_apply B1 cs m = some B3) :
    B3.en_passant = (if m.flag = MoveFlag.DOUBLE_PAWN_MOVE then
      enpas_capture_square cs m.toSq else INVALID_SQUARE) := by
  unfold make_apply at h
  by_cases hp : move_promoted m = true
  · have hnd : ¬ (m.flag = MoveFlag.DOUBLE_PAWN_MOVE) := by
      intro hd
      rw [move_promoted, hd] at hp
      exact Bool.noConfusion hp
    rw [if_neg hnd]
    rw [if_pos hp, make_apply_promote] at h
    rcases Option.bind_eq_some.mp h with ⟨Ba, -, h2⟩
    rcases Option.bind_eq_some.mp h2 with ⟨Bb, -, h3⟩
    rcases Option.bind_eq_some.mp h3 with ⟨Bc, -, h4⟩
    cases Option.some_inj.mp h4
    rfl
  · rw [if_neg hp] at h
    by_cases hc : move_castled m = true
    · have hnd : ¬ (m.flag = MoveFlag.DOUBLE_PAWN_MOVE) := by
        intro hd
        rw [move_castled, hd] at hc
        exact Bool.noConfusion hc
      rw [if_neg hnd]
      rw [if_pos hc, make_apply_castle] at h
      rcases Option.bind_eq_some.mp h with ⟨Bx, -, h2⟩
      cases Option.some_inj.mp h2
      rfl
    · rw [if_neg hc, make_apply_basic] at h
      by_cases h1 : m.flag = MoveFlag.QUIET_MOVE
      · rw [if_pos h1] at h
        rw [if_neg (by simp [h1])]
        rcases Option.bind_eq_some.mp h with ⟨Ba, hBa, h2⟩
        cases Option.some_inj.mp h2
        have he1 := (update_castling_proj Ba m.fr (moved_piece m)).2.2.2.1
        rw [he1, (move_piece_frame hBa).2.2.1]
        rw [make_enpas_update, if_neg (by simp [h1])]
        rfl
      · rw [if_neg h1] at h
        by_cases h2f : m.flag = MoveFlag.DOUBLE_PAWN_MOVE
        · rw [if_pos h2f] at h
          rw [if_pos h2f]
          rw [(move_piece_frame h).2.2.1]
          rw [make_enpas_update, if_pos h2f]
          rfl
        · rw [if_neg h2f] at h
          rw [if_neg h2f]
          by_cases h3f : m.flag = MoveFlag.CAPTURE_MOVE
          · rw [if_pos h3f] at h
            rcases Option.bind_eq_some.mp h with ⟨Ba, hBa, h2⟩
            rcases Option.bind_eq_some.mp h2 with ⟨Bb, hBb, h3⟩
            cases Option.some_inj.mp h3
            have he1 := (update_castling_proj Bb m.fr (moved_piece m)).2.2.2.1
            rw [he1, (move_piece_frame hBb).2.2.1,
              (remove_piece_frame hBa).2.2.1]
            rw [make_enpas_update, if_neg h2f]
            rfl
          · rw [if_neg h3f] at h
            by_cases h4f : m.flag = MoveFlag.EN_PASSANT_MOVE
            · rw [if_pos h4f] at h
              rcases Option.bind_eq_some.mp h with ⟨Ba, hBa, h2⟩
              rw [(move_piece_frame h2).2.2.1,
                (remove_piece_frame hBa).2.2.1]
              rw [make_enpas_update, if_neg h2f]
              rfl
            · rw [if_neg h4f] at h
              cases Option.some_inj.mp h
              rw [make_enpas_update, if_neg h2f]
              rfl

theorem C6_counterexample :
    c6_move ∈ pseudo_moves_scratch c6_board ∧
    make_move c6_board c6_move = some (c6_after, true) ∧
    c6_after.en_passant = 44 ∧
    c6_after.next_move_colour = BLACK ∧
    c6_after.pieces 43 ≠ side_pawn BLACK ∧
    c6_after.pieces 45 ≠ side_pawn BLACK :=
  ⟨by decide, by rfl, by rfl, by rfl, by decide, by decide⟩

/-- C6 (amended): the en-passant field.  (1) After a FEN construction the
field is `INVALID_SQUARE` or decomposes as `21 + 10*row + col` with `row`
the rank offset the side to move indicates (5 for white, 2 for black) and
`col` the file character's offset from `a`, and a pawn of the side to move
stands on a same-rank neighbour square `ep±1` (elided to `INVALID_SQUARE`
otherwise) — the parser checks the horizontal neighbours, not the
capturing-pawn squares, and never validates the file character, so `col` is
unconstrained and the target need not lie on the indicated rank (see
`parse_ep_unvalidated_column`: field `z6` is accepted and leaves the target
on rank 8).  (2) After `make_move` the field is `INVALID_SQUARE` or a valid
square on the rank matching the side to move, but it is never elided: a
double pawn move always records the target even when no enemy pawn can
capture (see `C6_counterexample`).  (3) The rank property also holds after
an `unmake_move` that reverts a completed `make_move` from a valid board
with coherent stored hash and, for an en-passant move, the recorded
captured piece actually on the capture square. -/
theorem C6_en_passant_field :
    (∀ (f : List Char) (B : Board), board_from_fen f = some B →
      B.en_passant = INVALID_SQUARE ∨
      ∃ col : Int,
        (B.en_passant : Int) =
          21 + 10 * (if B.next_move_colour = WHITE then (5 : Int) else 2) +
            col ∧
        (pieces_at B.pieces ((B.en_passant : Int) - 1) =
           side_pawn B.next_move_colour ∨
         pieces_at B.pieces ((B.en_passant : Int) + 1) =
           side_pawn B.next_move_colour)) ∧
    (∀ (B : Board) (m : Move) (B5 : Board) (ok : Bool), ValidBoard B →
      m ∈ pseudo_moves_scratch B → make_move B m = some (B5, ok) →
      B5.en_passant = INVALID_SQUARE ∨
      (valid_square B5.en_passant ∧
        get_square_row (B5.en_passant : Int) =
          (if B5.next_move_colour = WHITE then 5 else 2))) ∧
    (∀ (B : Board) (m : Move) (B5 B6 : Board) (ok : Bool), ValidBoard B →
      B.hash = compute_hash B → m ∈ pseudo_moves_scratch B →
      (m.flag = MoveFlag.EN_PASSANT_MOVE →
        B.pieces (enpas_capture_square B.next_move_colour m.toSq) =
          m.captured) →
      make_move B m = some (B5, ok) → unmake_move B5 = some B6 →
      B6.en_passant = INVALID_SQUARE ∨
      (valid_square B6.en_passant ∧
        get_square_row (B6.en_passant : Int) =
          (if B6.next_move_colour = WHITE then 5 else 2))) := by
  refine ⟨fun f B h => board_from_fen_enpas h, ?_, ?_⟩
  · intro B m B5 ok hV hm hmk
    obtain ⟨B3, hap, hB5, -⟩ := make_move_eq_some.mp hmk
    subst hB5
    have hepv := make_apply_enpas hap
    have hcol : (make_finish B3 m).next_move_colour = !B.next_move_colour := by
      show (!B3.next_move_colour) = _
      rw [(make_apply_frame hap).1]
      rfl
    have hep5 : (make_finish B3 m).en_passant = B3.en_passant := rfl
    rw [hep5, hepv]
    by_cases hd : m.flag = MoveFlag.DOUBLE_PAWN_MOVE
    · rw [if_pos hd]
      have hmf : MoveFacts B.pieces B.positions B.next_move_colour
          B.castle_state B.en_passant m := by
        unfold pseudo_moves_scratch at hm
        split at hm
        · cases hm
        · exact gen_moves_facts hV.2.2.1 hm
      simp only [MoveFacts, hd] at hmf
      obtain ⟨hvts, -, hrw, hrb⟩ := hmf
      obtain ⟨a1, a2, a3, a4⟩ := hvts
      refine Or.inr ⟨?_, ?_⟩
      · unfold enpas_capture_square
         
        by_cases hw : B.next_move_colour = WHITE
        · rw [if_pos hw]
          have h5 := hrw hw
          unfold valid_square
          refine ⟨?_, ?_, ?_, ?_⟩ <;> omega
        · rw [if_neg hw]
          have h6 := hrb (by
            cases hcb : B.next_move_colour
            · exact absurd hcb hw
            · rfl)
          unfold valid_square
          refine ⟨?_, ?_, ?_, ?_⟩ <;> omega
      · rw [hcol]
        unfold enpas_capture_square get_square_row
        by_cases hw : B.next_move_colour = WHITE
        · rw [if_pos hw, hw]
          have h5 := hrw hw
          rw [if_neg (by decide : ¬ ((!WHITE) = WHITE))]
          omega
        · rw [if_neg hw]
          have hb : B.next_move_colour = BLACK := by
            cases hcb : B.next_move_colour
            · exact absurd hcb hw
            · rfl
          have h6 := hrb hb
          rw [hb, if_pos (by decide : (!BLACK) = WHITE)]
          omega
    · rw [if_neg hd]
      exact Or.inl rfl
  · intro B m B5 B6 ok hV hhi hm hepc hmk hun
    have hmf : MoveFacts B.pieces B.positions B.next_move_colour
        B.castle_state B.en_passant m := by
      unfold pseudo_moves_scratch at hm
      split at hm
      · cases hm
      · exact gen_moves_facts hV.2.2.1 hm
    obtain ⟨B6', hun', hres⟩ := make_unmake_restored hV hhi hmf hepc hmk
    rw [hun] at hun'
    cases Option.some_inj.mp hun'
    obtain ⟨-, -, hcol, -, hepq, -, -, -, -, -⟩ := hres
    rw [hepq, hcol]
    obtain ⟨-, -, -, -, -, -, -, -, -, -, hepv, -⟩ := hV
    exact hepv

theorem C6_witness :
    ValidBoard c6_board ∧
    (c6_after.en_passant = INVALID_SQUARE ∨
      (valid_square c6_after.en_passant ∧
        get_square_row (c6_after.en_passant : Int) =
          (if c6_after.next_move_colour = WHITE then 5 else 2))) := by
  have hV : ValidBoard c6_board := by
    refine ⟨by decide, by decide, by decide, by decide, by decide,
      @board_from_fen_positions_empty c6_fen c6_board (by rfl),
      by decide, by decide, by decide, by decide, by decide, by decide⟩
  exact ⟨hV, C6_en_passant_field.2.1 c6_board c6_move c6_after true hV
    (by decide) (by rfl)⟩

/-! ## C8: FEN round trip -/

theorem toNat_ofNat_small {n : Nat} (h : n < 55296) :
    (Char.ofNat n).toNat = n := by
  unfold Char.ofNat
  rw [dif_pos (Or.inl h)]
  rfl

theorem digit_char_spec : ∀ d < 10,
    ('0' ≤ Char.ofNat (48 + d) ∧ Char.ofNat (48 + d) ≤ '9') ∧
    Char.ofNat (48 + d) ≠ ' ' ∧ (Char.ofNat (48 + d)).toNat = 48 + d := by
  decide

theorem piece_char_rt : ∀ p < 16, valid_piece p →
    piece_from_char (char_from_piece p) = p ∧
    char_from_piece p ≠ ' ' ∧ char_from_piece p ≠ '/' ∧
    ¬ ('1' ≤ char_from_piece p ∧ char_from_piece p ≤ '8') := by
  decide

theorem blank_char_spec : ∀ b < 9, 1 ≤ b →
    Char.ofNat (48 + b) ≠ ' ' ∧ Char.ofNat (48 + b) ≠ '/' ∧
    ('1' ≤ Char.ofNat (48 + b) ∧ Char.ofNat (48 + b) ≤ '8') ∧
    (Char.ofNat (48 + b)).toNat = 48 + b := by
  decide

theorem pns_digits : ∀ n cs acc, parse_number_sp (dec_digits n ++ cs) acc =
    parse_number_sp cs (10 ^ (dec_digits n).length * acc + n) := by
  intro n
  induction n using Nat.strong_induction_on with
  | _ n ih =>
    intro cs acc
    by_cases h : n < 10
    · rw [dec_digits, dif_pos h]
      obtain ⟨⟨hle, hge⟩, hsp, htn⟩ := digit_char_spec n h
      simp only [List.singleton_append, List.length_cons, List.length_nil]
      rw [parse_number_sp, if_neg hsp, if_pos ⟨hle, hge⟩, htn]
      congr 1
      omega
    · rw [dec_digits, dif_neg h]
      rw [List.append_assoc, ih (n / 10) (Nat.div_lt_self (by omega) (by omega))]
      obtain ⟨⟨hle, hge⟩, hsp, htn⟩ := digit_char_spec (n % 10) (by omega)
      simp only [List.singleton_append]
      rw [parse_number_sp, if_neg hsp, if_pos ⟨hle, hge⟩, htn]
      congr 1
      rw [List.length_append, List.length_cons, List.length_nil]
      have h10 : 10 * (n / 10) + n % 10 = n := by omega
      rw [pow_succ]
      calc 10 * (10 ^ (dec_digits (n / 10)).length * acc + n / 10) +
            (48 + n % 10 - 48)
          = 10 ^ (dec_digits (n / 10)).length * 10 * acc +
            (10 * (n / 10) + n % 10) := by ring_nf; omega
        _ = 10 ^ (dec_digits (n / 10)).length * 10 * acc + n := by rw [h10]

theorem pne_digits : ∀ n cs acc, parse_number_end (dec_digits n ++ cs) acc =
    parse_number_end cs (10 ^ (dec_digits n).length * acc + n) := by
  intro n
  induction n using Nat.strong_induction_on with
  | _ n ih =>
    intro cs acc
    by_cases h : n < 10
    · rw [dec_digits, dif_pos h]
      obtain ⟨⟨hle, hge⟩, hsp, htn⟩ := digit_char_spec n h
      simp only [List.singleton_append, List.length_cons, List.length_nil]
      rw [parse_number_end, if_pos ⟨hle, hge⟩, htn]
      congr 1
      omega
    · rw [dec_digits, dif_neg h]
      rw [List.append_assoc, ih (n / 10) (Nat.div_lt_self (by omega) (by omega))]
      obtain ⟨⟨hle, hge⟩, hsp, htn⟩ := digit_char_spec (n % 10) (by omega)
      simp only [List.singleton_append]
      rw [parse_number_end, if_pos ⟨hle, hge⟩, htn]
      congr 1
      rw [List.length_append, List.length_cons, List.length_nil]
      have h10 : 10 * (n / 10) + n % 10 = n := by omega
      rw [pow_succ]
      calc 10 * (10 ^ (dec_digits (n / 10)).length * acc + n / 10) +
            (48 + n % 10 - 48)
          = 10 ^ (dec_digits (n / 10)).length * 10 * acc +
            (10 * (n / 10) + n % 10) := by ring_nf; omega
        _ = 10 ^ (dec_digits (n / 10)).length * 10 * acc + n := by rw [h10]

theorem sq_occs_split (pieces : Nat → Nat) (p lo m n : Nat) :
    sq_occs pieces p lo (m + n) =
      sq_occs pieces p lo m ++ sq_occs pieces p (lo + m) n := by
  unfold sq_occs
  have h2 := List.range'_append lo m n 1
  rw [Nat.one_mul] at h2
  rw [Nat.add_comm m n, ← h2, List.filter_append]

theorem sq_occs_zero (pieces : Nat → Nat) (p lo : Nat) :
    sq_occs pieces p lo 0 = [] := rfl

theorem sq_occs_blank {pieces : Nat → Nat} {p lo len : Nat}
    (hp : p ≠ INVALID_PIECE)
    (hb : ∀ sq, lo ≤ sq → sq < lo + len → pieces sq = INVALID_PIECE) :
    sq_occs pieces p lo len = [] := by
  unfold sq_occs
  rw [List.filter_eq_nil_iff]
  intro sq hsq
  rw [List.mem_range'_1] at hsq
  rw [hb sq hsq.1 hsq.2]
  rw [beq_eq_false_iff_ne.mpr (fun hce => hp hce.symm)]
  exact Bool.false_ne_true

theorem sq_occs_one {pieces : Nat → Nat} {p lo : Nat} :
    sq_occs pieces p lo 1 = if pieces lo = p then [lo] else [] := by
  unfold sq_occs
  show List.filter _ [lo] = _
  by_cases h : pieces lo = p
  · rw [if_pos h]
    rw [List.filter_cons]
    rw [if_pos (by exact beq_iff_eq.mpr h)]
    rfl
  · rw [if_neg h]
    rw [List.filter_cons]
    rw [if_neg (by simp [h])]
    rfl

theorem foldl_updf_invalid (f : Nat → Nat) (idx : Nat) :
    ∀ (n : Nat) (sq : Nat),
      ((List.range n).foldl (fun g i => updf g (idx + i) INVALID_PIECE) f) sq =
        if idx ≤ sq ∧ sq < idx + n then INVALID_PIECE else f sq := by
  intro n
  induction n with
  | zero =>
    intro sq
    rw [if_neg (by omega)]
    rfl
  | succ n ih =>
    intro sq
    rw [List.range_succ, List.foldl_append]
    simp only [List.foldl_cons, List.foldl_nil]
    by_cases h1 : sq = idx + n
    · subst h1
      rw [updf_same, if_pos (by omega)]
    · rw [updf_other _ _ _ h1, ih sq]
      by_cases h2 : idx ≤ sq ∧ sq < idx + n
      · rw [if_pos h2, if_pos (by omega)]
      · rw [if_neg h2, if_neg (by omega)]

theorem valid_piece_ne_zero {p : Nat} (hp : valid_piece p) :
    p ≠ INVALID_PIECE := by
  intro hce
  rw [hce] at hp
  exact absurd hp (by decide)

theorem parse_flush {b idx : Nat} (pieces0 : Nat → Nat)
    (positions0 : Nat → List Nat) (T : List Char)
    (hb8 : b ≤ 8)
    (hcond : (idx + b) % 10 = 9 ∨ valid_square (idx + b)) :
    parse_placement (flush_blank b ++ T) idx pieces0 positions0 =
      parse_placement T (idx + b)
        ((List.range b).foldl (fun g i => updf g (idx + i) INVALID_PIECE)
          pieces0) positions0 := by
  by_cases hb : b = 0
  · subst hb
    rw [show flush_blank 0 = [] from rfl, List.nil_append, Nat.add_zero]
    rfl
  · obtain ⟨hsp, hsl, hdig, htn⟩ := blank_char_spec b (by omega) (by omega)
    rw [show flush_blank b = [Char.ofNat (48 + b)] by
      rw [flush_blank, if_neg hb]]
    rw [List.singleton_append, parse_placement]
    rw [if_neg hsp, if_neg hsl, if_pos hdig]
    dsimp only
    rw [htn, show 48 + b - 48 = b by omega, if_pos hcond]

theorem parse_encode_rank (P : Board) :
    ∀ (cells : List Nat) (b idx : Nat)
      (pieces0 : Nat → Nat) (positions0 : Nat → List Nat),
      (∀ i, i < cells.length → cells.getD i 0 = P.pieces (idx + b + i)) →
      (∀ c ∈ cells, c = INVALID_PIECE ∨ valid_piece c) →
      (∀ sq, idx ≤ sq → sq < idx + b → P.pieces sq = INVALID_PIECE) →
      21 ≤ idx →
      1 ≤ idx % 10 →
      idx + b + cells.length ≤ 99 →
      (idx + b + cells.length) % 10 = 9 →
      idx / 10 = (idx + b + cells.length) / 10 →
      (∀ p, valid_piece p → (positions0 p).length +
        (sq_occs P.pieces p idx (b + cells.length)).length ≤
          MAX_PIECE_FREQ) →
      ∃ pieces1 positions1,
        (∀ K : List Char,
          parse_placement (encode_rank cells b ++ K) idx pieces0 positions0 =
            parse_placement K (idx + b + cells.length) pieces1 positions1) ∧
        (∀ sq, idx ≤ sq → sq < idx + b + cells.length →
          pieces1 sq = P.pieces sq) ∧
        (∀ sq, sq < idx ∨ idx + b + cells.length ≤ sq →
          pieces1 sq = pieces0 sq) ∧
        (∀ p, valid_piece p →
          positions1 p = positions0 p ++
            sq_occs P.pieces p idx (b + cells.length)) ∧
        (∀ p, ¬ valid_piece p → positions1 p = positions0 p) := by
  intro cells
  induction cells with
  | nil =>
    intro b idx pieces0 positions0 hcells hvc hblank h21 hc1 h99 hmod hdiv hcap
    have hb8 : b ≤ 8 := by omega
    refine ⟨(List.range b).foldl (fun g i => updf g (idx + i) INVALID_PIECE)
      pieces0, positions0, ?_, ?_, ?_, ?_, fun p _ => rfl⟩
    · intro K
      rw [show encode_rank [] b = flush_blank b from rfl]
      rw [parse_flush pieces0 positions0 K hb8 (Or.inl (by simpa using hmod))]
      rfl
    · intro sq h1 h2
      rw [foldl_updf_invalid]
      rw [if_pos ⟨h1, by simpa using h2⟩]
      exact (hblank sq h1 (by simpa using h2)).symm
    · intro sq hd
      rw [foldl_updf_invalid]
      rw [if_neg (by simp at hd; omega)]
    · intro p hp
      rw [show b + List.length ([] : List Nat) = b by simp]
      rw [sq_occs_blank (valid_piece_ne_zero hp) hblank, List.append_nil]
  | cons c rest ih =>
    intro b idx pieces0 positions0 hcells hvc hblank h21 hc1 h99 hmod hdiv hcap
    have hlen : (c :: rest).length = rest.length + 1 := rfl
    have hc0 : c = P.pieces (idx + b) := by
      have h0 := hcells 0 (by simp)
      simpa using h0
    by_cases hcz : c = INVALID_PIECE
    · rw [show encode_rank (c :: rest) b = encode_rank rest (b + 1) by
        rw [encode_rank, if_pos hcz]]
      have harg : idx + (b + 1) + rest.length = idx + b + (c :: rest).length := by
        rw [hlen]; omega
      have hargb : b + 1 + rest.length = b + (c :: rest).length := by
        rw [hlen]; omega
      have hcells2 : ∀ i, i < rest.length →
          rest.getD i 0 = P.pieces (idx + (b + 1) + i) := by
        intro i hi
        have h2 := hcells (i + 1) (by rw [hlen]; omega)
        rw [List.getD_cons_succ] at h2
        rw [show idx + (b + 1) + i = idx + b + (i + 1) by omega]
        exact h2
      have hvc2 : ∀ x ∈ rest, x = INVALID_PIECE ∨ valid_piece x :=
        fun x hx => hvc x (List.mem_cons_of_mem _ hx)
      have hblank2 : ∀ sq, idx ≤ sq → sq < idx + (b + 1) →
          P.pieces sq = INVALID_PIECE := by
        intro sq h1 h2
        by_cases h3 : sq < idx + b
        · exact hblank sq h1 h3
        · have hsq : sq = idx + b := by omega
          rw [hsq, ← hc0]
          exact hcz
      have h99b : idx + (b + 1) + rest.length ≤ 99 := by rw [harg]; exact h99
      have hmodb : (idx + (b + 1) + rest.length) % 10 = 9 := by
        rw [harg]; exact hmod
      have hdivb : idx / 10 = (idx + (b + 1) + rest.length) / 10 := by
        rw [harg]; exact hdiv
      have hcapb : ∀ p, valid_piece p → (positions0 p).length +
          (sq_occs P.pieces p idx (b + 1 + rest.length)).length ≤
            MAX_PIECE_FREQ := by
        intro p hp
        rw [hargb]
        exact hcap p hp
      obtain ⟨p1, q1, heq, hin, hfr, hpos, hposi⟩ :=
        ih (b + 1) idx pieces0 positions0 hcells2 hvc2 hblank2 h21 hc1
          h99b hmodb hdivb hcapb
      rw [harg] at heq
      refine ⟨p1, q1, heq, ?_, ?_, ?_, hposi⟩
      · intro sq h1 h2
        exact hin sq h1 (by omega)
      · intro sq hd
        exact hfr sq (by rw [hlen] at hd; omega)
      · intro p hp
        rw [← hargb]
        exact hpos p hp
    · have hvcp : valid_piece c := (hvc c (List.mem_cons_self _ _)).resolve_left hcz
      have hb8 : b ≤ 8 := by rw [hlen] at hmod hdiv h99; omega
      have hvsq : valid_square (idx + b) := by
        rw [hlen] at hmod hdiv h99
        refine ⟨by omega, by omega, by omega, by omega⟩
      obtain ⟨hrt, hnsp, hnsl, hndig⟩ :=
        piece_char_rt c (valid_piece_lt hvcp) hvcp
      have hcap0 : (positions0 c).length < MAX_PIECE_FREQ := by
        have h1 := hcap c hvcp
        have h2 : (sq_occs P.pieces c idx (b + (c :: rest).length)).length ≥ 1 := by
          have hsplit : b + (c :: rest).length = b + 1 + rest.length := by
            rw [hlen]; omega
          rw [hsplit, sq_occs_split, sq_occs_split, sq_occs_one,
            if_pos hc0.symm]
          simp only [List.length_append, List.length_cons, List.length_nil]
          omega
        omega
      have hnext : (idx + b + 1) % 10 = 9 ∨ valid_square (idx + b + 1) := by
        rw [hlen] at hmod hdiv h99
        by_cases hend : rest.length = 0
        · exact Or.inl (by omega)
        · refine Or.inr ⟨by omega, by omega, by omega, by omega⟩
      have hcells2 : ∀ i, i < rest.length →
          rest.getD i 0 = P.pieces (idx + b + 1 + 0 + i) := by
        intro i hi
        have h2 := hcells (i + 1) (by rw [hlen]; omega)
        rw [List.getD_cons_succ] at h2
        rw [show idx + b + 1 + 0 + i = idx + b + (i + 1) by omega]
        exact h2
      have hvc2 : ∀ x ∈ rest, x = INVALID_PIECE ∨ valid_piece x :=
        fun x hx => hvc x (List.mem_cons_of_mem _ hx)
      have hblank2 : ∀ sq, idx + b + 1 ≤ sq → sq < idx + b + 1 + 0 →
          P.pieces sq = INVALID_PIECE := by
        intro sq h1 h2
        omega
      have h21b : 21 ≤ idx + b + 1 := by omega
      have hc1b : 1 ≤ (idx + b + 1) % 10 := by
        rw [hlen] at hmod hdiv h99
        omega
      have h99b : idx + b + 1 + 0 + rest.length ≤ 99 := by
        rw [hlen] at h99
        omega
      have hmodb : (idx + b + 1 + 0 + rest.length) % 10 = 9 := by
        rw [hlen] at hmod
        have : idx + b + 1 + 0 + rest.length = idx + b + (rest.length + 1) := by
          omega
        rw [this]
        exact hmod
      have hdivb : (idx + b + 1) / 10 = (idx + b + 1 + 0 + rest.length) / 10 := by
        rw [hlen] at hmod hdiv h99
        omega
      have hsplit : b + (c :: rest).length = b + 1 + rest.length := by
        rw [hlen]; omega
      have hcapb : ∀ p, valid_piece p →
          ((updf positions0 c (positions0 c ++ [idx + b]) p).length +
            (sq_occs P.pieces p (idx + b + 1) (0 + rest.length)).length ≤
              MAX_PIECE_FREQ) := by
        intro p hp
        rw [Nat.zero_add]
        have h1 := hcap p hp
        rw [hsplit, sq_occs_split, sq_occs_split, sq_occs_one] at h1
        rw [sq_occs_blank (valid_piece_ne_zero hp) hblank] at h1
        rw [show idx + (b + 1) = idx + b + 1 by omega] at h1
        by_cases hpc : p = c
        · subst hpc
          rw [updf_same]
          rw [if_pos hc0.symm] at h1
          simp only [List.length_append, List.length_cons, List.length_nil,
            List.nil_append] at h1 ⊢
          omega
        · rw [updf_other _ _ _ hpc]
          rw [if_neg (by rw [← hc0]; exact fun hc2 => hpc hc2.symm)] at h1
          simp only [List.length_append, List.length_cons, List.length_nil,
            List.nil_append, List.append_nil] at h1 ⊢
          omega
      obtain ⟨p1, q1, heq, hin, hfr, hpos, hposi⟩ :=
        ih 0 (idx + b + 1)
          (updf ((List.range b).foldl
            (fun g i => updf g (idx + i) INVALID_PIECE) pieces0) (idx + b) c)
          (updf positions0 c (positions0 c ++ [idx + b]))
          hcells2 hvc2 hblank2 h21b hc1b h99b hmodb hdivb hcapb
      have harg : idx + b + 1 + 0 + rest.length = idx + b + (c :: rest).length := by
        rw [hlen]; omega
      rw [harg] at heq
      refine ⟨p1, q1, ?_, ?_, ?_, ?_, ?_⟩
      · intro K
        rw [show encode_rank (c :: rest) b =
            flush_blank b ++ char_from_piece c :: encode_rank rest 0 by
          rw [encode_rank, if_neg hcz]]
        rw [List.append_assoc]
        rw [parse_flush pieces0 positions0 _ hb8 (Or.inr hvsq)]
        rw [List.cons_append, parse_placement]
        rw [if_neg hnsp, if_neg hnsl, if_neg hndig]
        dsimp only
        rw [hrt]
        rw [if_pos ⟨hvsq, hvcp, hcap0⟩]
        rw [if_pos hnext]
        exact heq K
      · intro sq h1 h2
        by_cases h3 : idx + b + 1 ≤ sq
        · exact hin sq h3 (by omega)
        · rw [hfr sq (Or.inl (by omega))]
          by_cases h4 : sq = idx + b
          · rw [h4, updf_same, hc0]
          · rw [updf_other _ _ _ h4, foldl_updf_invalid,
              if_pos ⟨h1, by omega⟩]
            exact (hblank sq h1 (by omega)).symm
      · intro sq hd
        rw [hlen] at hd
        rw [hfr sq (by omega)]
        rw [updf_other _ _ _ (by omega : sq ≠ idx + b), foldl_updf_invalid,
          if_neg (by omega)]
      · intro p hp
        have hq := hpos p hp
        rw [Nat.zero_add] at hq
        rw [hq]
        rw [hsplit, sq_occs_split, sq_occs_split, sq_occs_one]
        rw [sq_occs_blank (valid_piece_ne_zero hp) hblank]
        rw [show idx + (b + 1) = idx + b + 1 by omega]
        by_cases hpc : p = c
        · subst hpc
          rw [updf_same, if_pos hc0.symm]
          simp [List.append_assoc]
        · rw [updf_other _ _ _ hpc,
            if_neg (by rw [← hc0]; exact fun hc2 => hpc hc2.symm)]
          simp
      · intro p hp
        rw [hposi p hp]
        rw [updf_other _ _ _ (fun hce => hp (by rw [hce]; exact hvcp))]

theorem rank_cells_length (f : Nat → Nat) (row : Nat) :
    (rank_cells f row).length = 8 := by
  unfold rank_cells
  rw [List.length_map, List.length_range]

theorem rank_cells_getD (f : Nat → Nat) (row i : Nat) (hi : i < 8) :
    (rank_cells f row).getD i 0 = f (21 + 10 * row + i) := by
  unfold rank_cells
  rw [List.getD_eq_getElem?_getD, List.getElem?_map, List.getElem?_range hi]
  rfl

theorem parse_slash (T : List Char) (E : Nat) (pieces0 : Nat → Nat)
    (positions0 : Nat → List Nat) (hE : E % 10 = 9) :
    parse_placement ('/' :: T) E pieces0 positions0 =
      parse_placement T (E - 18) pieces0 positions0 := by
  rw [parse_placement, if_neg (by decide), if_pos rfl, if_pos hE]

theorem parse_space (T : List Char) (E : Nat) (pieces0 : Nat → Nat)
    (positions0 : Nat → List Nat) :
    parse_placement (' ' :: T) E pieces0 positions0 =
      some (T, E, pieces0, positions0) := by
  rw [parse_placement, if_pos rfl]

theorem positions_length_eq (P : Board) (hV : ValidBoard P) (p : Nat)
    (hp : valid_piece p) :
    (P.positions p).length =
      (sq_occs P.pieces p 91 8).length + (sq_occs P.pieces p 81 8).length +
      (sq_occs P.pieces p 71 8).length + (sq_occs P.pieces p 61 8).length +
      (sq_occs P.pieces p 51 8).length + (sq_occs P.pieces p 41 8).length +
      (sq_occs P.pieces p 31 8).length + (sq_occs P.pieces p 21 8).length := by
  have hnd8 : (List.range' 91 8 ++ (List.range' 81 8 ++ (List.range' 71 8 ++
      (List.range' 61 8 ++ (List.range' 51 8 ++ (List.range' 41 8 ++
      (List.range' 31 8 ++ List.range' 21 8))))))).Nodup := by decide
  have hmem1 : ∀ sq ∈ (List.range' 91 8 ++ (List.range' 81 8 ++
      (List.range' 71 8 ++ (List.range' 61 8 ++ (List.range' 51 8 ++
      (List.range' 41 8 ++ (List.range' 31 8 ++ List.range' 21 8))))))),
      valid_square sq := by decide
  have hmem2 : ∀ sq < 120, valid_square sq →
      sq ∈ (List.range' 91 8 ++ (List.range' 81 8 ++ (List.range' 71 8 ++
      (List.range' 61 8 ++ (List.range' 51 8 ++ (List.range' 41 8 ++
      (List.range' 31 8 ++ List.range' 21 8))))))) := by decide
  have hperm : (P.positions p).Perm
      ((List.range' 91 8 ++ (List.range' 81 8 ++ (List.range' 71 8 ++
      (List.range' 61 8 ++ (List.range' 51 8 ++ (List.range' 41 8 ++
      (List.range' 31 8 ++ List.range' 21 8))))))).filter
        (fun sq => P.pieces sq == p)) := by
    refine (List.perm_ext_iff_of_nodup
      (hV.2.2.2.1 p (valid_piece_lt hp)) (List.Nodup.filter _ hnd8)).mpr ?_
    intro sq
    rw [List.mem_filter,
      poscore_mem_positions_iff (validboard_poscore hV) hp]
    constructor
    · rintro ⟨hvs, hps⟩
      refine ⟨hmem2 sq (by obtain ⟨x1, x2, x3, x4⟩ := hvs; omega) hvs, ?_⟩
      exact beq_iff_eq.mpr hps
    · rintro ⟨hin, hbe⟩
      exact ⟨hmem1 sq hin, beq_iff_eq.mp hbe⟩
  have hlen := hperm.length_eq
  rw [hlen]
  unfold sq_occs
  simp only [List.filter_append, List.length_append]
  omega

theorem rank_cells_valid (P : Board) (hV : ValidBoard P) (row : Nat)
    (hrow : row < 8) :
    ∀ c ∈ rank_cells P.pieces row, c = INVALID_PIECE ∨ valid_piece c := by
  intro c hc
  obtain ⟨col, hcol, hcc⟩ := List.mem_map.mp hc
  rw [← hcc]
  exact hV.2.1 (21 + 10 * row + col)
    (by have := List.mem_range.mp hcol; omega)

theorem positions_perm_occs (P : Board) (hV : ValidBoard P) (p : Nat)
    (hp : valid_piece p) :
    (P.positions p).Perm
      (sq_occs P.pieces p 91 8 ++ (sq_occs P.pieces p 81 8 ++
      (sq_occs P.pieces p 71 8 ++ (sq_occs P.pieces p 61 8 ++
      (sq_occs P.pieces p 51 8 ++ (sq_occs P.pieces p 41 8 ++
      (sq_occs P.pieces p 31 8 ++ sq_occs P.pieces p 21 8))))))) := by
  have hnd8 : (List.range' 91 8 ++ (List.range' 81 8 ++ (List.range' 71 8 ++
      (List.range' 61 8 ++ (List.range' 51 8 ++ (List.range' 41 8 ++
      (List.range' 31 8 ++ List.range' 21 8))))))).Nodup := by decide
  have hmem1 : ∀ sq ∈ (List.range' 91 8 ++ (List.range' 81 8 ++
      (List.range' 71 8 ++ (List.range' 61 8 ++ (List.range' 51 8 ++
      (List.range' 41 8 ++ (List.range' 31 8 ++ List.range' 21 8))))))),
      valid_square sq := by decide
  have hmem2 : ∀ sq < 120, valid_square sq →
      sq ∈ (List.range' 91 8 ++ (List.range' 81 8 ++ (List.range' 71 8 ++
      (List.range' 61 8 ++ (List.range' 51 8 ++ (List.range' 41 8 ++
      (List.range' 31 8 ++ List.range' 21 8))))))) := by decide
  have hperm : (P.positions p).Perm
      ((List.range' 91 8 ++ (List.range' 81 8 ++ (List.range' 71 8 ++
      (List.range' 61 8 ++ (List.range' 51 8 ++ (List.range' 41 8 ++
      (List.range' 31 8 ++ List.range' 21 8))))))).filter
        (fun sq => P.pieces sq == p)) := by
    refine (List.perm_ext_iff_of_nodup
      (hV.2.2.2.1 p (valid_piece_lt hp)) (List.Nodup.filter _ hnd8)).mpr ?_
    intro sq
    rw [List.mem_filter,
      poscore_mem_positions_iff (validboard_poscore hV) hp]
    constructor
    · rintro ⟨hvs, hps⟩
      refine ⟨hmem2 sq (by obtain ⟨x1, x2, x3, x4⟩ := hvs; omega) hvs, ?_⟩
      exact beq_iff_eq.mpr hps
    · rintro ⟨hin, hbe⟩
      exact ⟨hmem1 sq hin, beq_iff_eq.mp hbe⟩
  unfold sq_occs
  simpa only [List.filter_append] using hperm

theorem parse_encode_placement (P : Board) (hV : ValidBoard P) :
    ∃ pieces1 positions1,
      (∀ REST : List Char,
        parse_placement (encode_placement P.pieces ++ REST) A8
            (fun _ => INVALID_PIECE) (fun _ => []) =
          parse_placement REST 29 pieces1 positions1) ∧
      (∀ sq < 120, pieces1 sq = P.pieces sq) ∧
      (∀ p, valid_piece p → (positions1 p).Perm (P.positions p)) ∧
      (∀ p, ¬ valid_piece p → positions1 p = []) := by
  obtain ⟨pA, qA, heqA, hinA, hfrA, hposA, hposiA⟩ :=
    parse_encode_rank P (rank_cells P.pieces 7) 0 91 (fun _ => INVALID_PIECE) (fun _ => ([] : List Nat))
      (fun i hi => by
        rw [rank_cells_length] at hi
        rw [rank_cells_getD P.pieces 7 i hi])
      (rank_cells_valid P hV 7 (by omega))
      (fun sq h1 h2 => absurd (Nat.lt_of_le_of_lt h1 h2) (by omega))
      (by omega)
      (by omega)
      (by have := rank_cells_length P.pieces 7; omega)
      (by have := rank_cells_length P.pieces 7; omega)
      (by have := rank_cells_length P.pieces 7; omega)
      (fun p hp => by
        rw [rank_cells_length, Nat.zero_add]
        show 0 + (sq_occs P.pieces p 91 8).length ≤ MAX_PIECE_FREQ
        have hc := hV.2.2.2.2.2.2.2.2.1 p (valid_piece_lt hp)
        rw [positions_length_eq P hV p hp] at hc
        omega)
  have hlenA : ∀ p, valid_piece p →
      (qA p).length = (sq_occs P.pieces p 91 8).length := by
    intro p hp
    have h := hposA p hp
    rw [rank_cells_length, Nat.zero_add] at h
    rw [h]
    rfl
  have heqAx : ∀ K : List Char,
      parse_placement (encode_rank (rank_cells P.pieces 7) 0 ++ K) 91
          (fun _ => INVALID_PIECE) (fun _ => ([] : List Nat)) =
        parse_placement K 99 pA qA := by
    intro K
    have h := heqA K
    rw [show 91 + 0 + (rank_cells P.pieces 7).length = 99 by
      have := rank_cells_length P.pieces 7; omega] at h
    exact h
  obtain ⟨pB, qB, heqB, hinB, hfrB, hposB, hposiB⟩ :=
    parse_encode_rank P (rank_cells P.pieces 6) 0 81 pA qA
      (fun i hi => by
        rw [rank_cells_length] at hi
        rw [rank_cells_getD P.pieces 6 i hi])
      (rank_cells_valid P hV 6 (by omega))
      (fun sq h1 h2 => absurd (Nat.lt_of_le_of_lt h1 h2) (by omega))
      (by omega)
      (by omega)
      (by have := rank_cells_length P.pieces 6; omega)
      (by have := rank_cells_length P.pieces 6; omega)
      (by have := rank_cells_length P.pieces 6; omega)
      (fun p hp => by
        rw [rank_cells_length, Nat.zero_add]
        have hc := hV.2.2.2.2.2.2.2.2.1 p (valid_piece_lt hp)
        rw [positions_length_eq P hV p hp] at hc
        have e0 := hlenA p hp
        omega)
  have hlenB : ∀ p, valid_piece p →
      (qB p).length = (qA p).length +
        (sq_occs P.pieces p 81 8).length := by
    intro p hp
    have h := hposB p hp
    rw [rank_cells_length, Nat.zero_add] at h
    rw [h, List.length_append]
  have heqBx : ∀ K : List Char,
      parse_placement (encode_rank (rank_cells P.pieces 6) 0 ++ K) 81
          pA qA =
        parse_placement K 89 pB qB := by
    intro K
    have h := heqB K
    rw [show 81 + 0 + (rank_cells P.pieces 6).length = 89 by
      have := rank_cells_length P.pieces 6; omega] at h
    exact h
  obtain ⟨pC, qC, heqC, hinC, hfrC, hposC, hposiC⟩ :=
    parse_encode_rank P (rank_cells P.pieces 5) 0 71 pB qB
      (fun i hi => by
        rw [rank_cells_length] at hi
        rw [rank_cells_getD P.pieces 5 i hi])
      (rank_cells_valid P hV 5 (by omega))
      (fun sq h1 h2 => absurd (Nat.lt_of_le_of_lt h1 h2) (by omega))
      (by omega)
      (by omega)
      (by have := rank_cells_length P.pieces 5; omega)
      (by have := rank_cells_length P.pieces 5; omega)
      (by have := rank_cells_length P.pieces 5; omega)
      (fun p hp => by
        rw [rank_cells_length, Nat.zero_add]
        have hc := hV.2.2.2.2.2.2.2.2.1 p (valid_piece_lt hp)
        rw [positions_length_eq P hV p hp] at hc
        have e0 := hlenA p hp
        have e1 := hlenB p hp
        omega)
  have hlenC : ∀ p, valid_piece p →
      (qC p).length = (qB p).length +
        (sq_occs P.pieces p 71 8).length := by
    intro p hp
    have h := hposC p hp
    rw [rank_cells_length, Nat.zero_add] at h
    rw [h, List.length_append]
  have heqCx : ∀ K : List Char,
      parse_placement (encode_rank (rank_cells P.pieces 5) 0 ++ K) 71
          pB qB =
        parse_placement K 79 pC qC := by
    intro K
    have h := heqC K
    rw [show 71 + 0 + (rank_cells P.pieces 5).length = 79 by
      have := rank_cells_length P.pieces 5; omega] at h
    exact h
  obtain ⟨pD, qD, heqD, hinD, hfrD, hposD, hposiD⟩ :=
    parse_encode_rank P (rank_cells P.pieces 4) 0 61 pC qC
      (fun i hi => by
        rw [rank_cells_length] at hi
        rw [rank_cells_getD P.pieces 4 i hi])
      (rank_cells_valid P hV 4 (by omega))
      (fun sq h1 h2 => absurd (Nat.lt_of_le_of_lt h1 h2) (by omega))
      (by omega)
      (by omega)
      (by have := rank_cells_length P.pieces 4; omega)
      (by have := rank_cells_length P.pieces 4; omega)
      (by have := rank_cells_length P.pieces 4; omega)
      (fun p hp => by
        rw [rank_cells_length, Nat.zero_add]
        have hc := hV.2.2.2.2.2.2.2.2.1 p (valid_piece_lt hp)
        rw [positions_length_eq P hV p hp] at hc
        have e0 := hlenA p hp
        have e1 := hlenB p hp
        have e2 := hlenC p hp
        omega)
  have hlenD : ∀ p, valid_piece p →
      (qD p).length = (qC p).length +
        (sq_occs P.pieces p 61 8).length := by
    intro p hp
    have h := hposD p hp
    rw [rank_cells_length, Nat.zero_add] at h
    rw [h, List.length_append]
  have heqDx : ∀ K : List Char,
      parse_placement (encode_rank (rank_cells P.pieces 4) 0 ++ K) 61
          pC qC =
        parse_placement K 69 pD qD := by
    intro K
    have h := heqD K
    rw [show 61 + 0 + (rank_cells P.pieces 4).length = 69 by
      have := rank_cells_length P.pieces 4; omega] at h
    exact h
  obtain ⟨pE, qE, heqE, hinE, hfrE, hposE, hposiE⟩ :=
    parse_encode_rank P (rank_cells P.pieces 3) 0 51 pD qD
      (fun i hi => by
        rw [rank_cells_length] at hi
        rw [rank_cells_getD P.pieces 3 i hi])
      (rank_cells_valid P hV 3 (by omega))
      (fun sq h1 h2 => absurd (Nat.lt_of_le_of_lt h1 h2) (by omega))
      (by omega)
      (by omega)
      (by have := rank_cells_length P.pieces 3; omega)
      (by have := rank_cells_length P.pieces 3; omega)
      (by have := rank_cells_length P.pieces 3; omega)
      (fun p hp => by
        rw [rank_cells_length, Nat.zero_add]
        have hc := hV.2.2.2.2.2.2.2.2.1 p (valid_piece_lt hp)
        rw [positions_length_eq P hV p hp] at hc
        have e0 := hlenA p hp
        have e1 := hlenB p hp
        have e2 := hlenC p hp
        have e3 := hlenD p hp
        omega)
  have hlenE : ∀ p, valid_piece p →
      (qE p).length = (qD p).length +
        (sq_occs P.pieces p 51 8).length := by
    intro p hp
    have h := hposE p hp
    rw [rank_cells_length, Nat.zero_add] at h
    rw [h, List.length_append]
  have heqEx : ∀ K : List Char,
      parse_placement (encode_rank (rank_cells P.pieces 3) 0 ++ K) 51
          pD qD =
        parse_placement K 59 pE qE := by
    intro K
    have h := heqE K
    rw [show 51 + 0 + (rank_cells P.pieces 3).length = 59 by
      have := rank_cells_length P.pieces 3; omega] at h
    exact h
  obtain ⟨pF, qF, heqF, hinF, hfrF, hposF, hposiF⟩ :=
    parse_encode_rank P (rank_cells P.pieces 2) 0 41 pE qE
      (fun i hi => by
        rw [rank_cells_length] at hi
        rw [rank_cells_getD P.pieces 2 i hi])
      (rank_cells_valid P hV 2 (by omega))
      (fun sq h1 h2 => absurd (Nat.lt_of_le_of_lt h1 h2) (by omega))
      (by omega)
      (by omega)
      (by have := rank_cells_length P.pieces 2; omega)
      (by have := rank_cells_length P.pieces 2; omega)
      (by have := rank_cells_length P.pieces 2; omega)
      (fun p hp => by
        rw [rank_cells_length, Nat.zero_add]
        have hc := hV.2.2.2.2.2.2.2.2.1 p (valid_piece_lt hp)
        rw [positions_length_eq P hV p hp] at hc
        have e0 := hlenA p hp
        have e1 := hlenB p hp
        have e2 := hlenC p hp
        have e3 := hlenD p hp
        have e4 := hlenE p hp
        omega)
  have hlenF : ∀ p, valid_piece p →
      (qF p).length = (qE p).length +
        (sq_occs P.pieces p 41 8).length := by
    intro p hp
    have h := hposF p hp
    rw [rank_cells_length, Nat.zero_add] at h
    rw [h, List.length_append]
  have heqFx : ∀ K : List Char,
      parse_placement (encode_rank (rank_cells P.pieces 2) 0 ++ K) 41
          pE qE =
        parse_placement K 49 pF qF := by
    intro K
    have h := heqF K
    rw [show 41 + 0 + (rank_cells P.pieces 2).length = 49 by
      have := rank_cells_length P.pieces 2; omega] at h
    exact h
  obtain ⟨pG, qG, heqG, hinG, hfrG, hposG, hposiG⟩ :=
    parse_encode_rank P (rank_cells P.pieces 1) 0 31 pF qF
      (fun i hi => by
        rw [rank_cells_length] at hi
        rw [rank_cells_getD P.pieces 1 i hi])
      (rank_cells_valid P hV 1 (by omega))
      (fun sq h1 h2 => absurd (Nat.lt_of_le_of_lt h1 h2) (by omega))
      (by omega)
      (by omega)
      (by have := rank_cells_length P.pieces 1; omega)
      (by have := rank_cells_length P.pieces 1; omega)
      (by have := rank_cells_length P.pieces 1; omega)
      (fun p hp => by
        rw [rank_cells_length, Nat.zero_add]
        have hc := hV.2.2.2.2.2.2.2.2.1 p (valid_piece_lt hp)
        rw [positions_length_eq P hV p hp] at hc
        have e0 := hlenA p hp
        have e1 := hlenB p hp
        have e2 := hlenC p hp
        have e3 := hlenD p hp
        have e4 := hlenE p hp
        have e5 := hlenF p hp
        omega)
  have hlenG : ∀ p, valid_piece p →
      (qG p).length = (qF p).length +
        (sq_occs P.pieces p 31 8).length := by
    intro p hp
    have h := hposG p hp
    rw [rank_cells_length, Nat.zero_add] at h
    rw [h, List.length_append]
  have heqGx : ∀ K : List Char,
      parse_placement (encode_rank (rank_cells P.pieces 1) 0 ++ K) 31
          pF qF =
        parse_placement K 39 pG qG := by
    intro K
    have h := heqG K
    rw [show 31 + 0 + (rank_cells P.pieces 1).length = 39 by
      have := rank_cells_length P.pieces 1; omega] at h
    exact h
  obtain ⟨pH, qH, heqH, hinH, hfrH, hposH, hposiH⟩ :=
    parse_encode_rank P (rank_cells P.pieces 0) 0 21 pG qG
      (fun i hi => by
        rw [rank_cells_length] at hi
        rw [rank_cells_getD P.pieces 0 i hi])
      (rank_cells_valid P hV 0 (by omega))
      (fun sq h1 h2 => absurd (Nat.lt_of_le_of_lt h1 h2) (by omega))
      (by omega)
      (by omega)
      (by have := rank_cells_length P.pieces 0; omega)
      (by have := rank_cells_length P.pieces 0; omega)
      (by have := rank_cells_length P.pieces 0; omega)
      (fun p hp => by
        rw [rank_cells_length, Nat.zero_add]
        have hc := hV.2.2.2.2.2.2.2.2.1 p (valid_piece_lt hp)
        rw [positions_length_eq P hV p hp] at hc
        have e0 := hlenA p hp
        have e1 := hlenB p hp
        have e2 := hlenC p hp
        have e3 := hlenD p hp
        have e4 := hlenE p hp
        have e5 := hlenF p hp
        have e6 := hlenG p hp
        omega)
  have hlenH : ∀ p, valid_piece p →
      (qH p).length = (qG p).length +
        (sq_occs P.pieces p 21 8).length := by
    intro p hp
    have h := hposH p hp
    rw [rank_cells_length, Nat.zero_add] at h
    rw [h, List.length_append]
  have heqHx : ∀ K : List Char,
      parse_placement (encode_rank (rank_cells P.pieces 0) 0 ++ K) 21
          pG qG =
        parse_placement K 29 pH qH := by
    intro K
    have h := heqH K
    rw [show 21 + 0 + (rank_cells P.pieces 0).length = 29 by
      have := rank_cells_length P.pieces 0; omega] at h
    exact h
  refine ⟨pH, qH, ?_, ?_, ?_, ?_⟩
  · intro REST
    show parse_placement (encode_placement P.pieces ++ REST) 91
        (fun _ => INVALID_PIECE) (fun _ => ([] : List Nat)) =
      parse_placement REST 29 pH qH
    unfold encode_placement
    simp only [List.append_assoc, List.cons_append]
    rw [heqAx]
    rw [parse_slash _ 99 pA qA (by decide), show (99:Nat) - 18 = 81 by decide]
    rw [heqBx]
    rw [parse_slash _ 89 pB qB (by decide), show (89:Nat) - 18 = 71 by decide]
    rw [heqCx]
    rw [parse_slash _ 79 pC qC (by decide), show (79:Nat) - 18 = 61 by decide]
    rw [heqDx]
    rw [parse_slash _ 69 pD qD (by decide), show (69:Nat) - 18 = 51 by decide]
    rw [heqEx]
    rw [parse_slash _ 59 pE qE (by decide), show (59:Nat) - 18 = 41 by decide]
    rw [heqFx]
    rw [parse_slash _ 49 pF qF (by decide), show (49:Nat) - 18 = 31 by decide]
    rw [heqGx]
    rw [parse_slash _ 39 pG qG (by decide), show (39:Nat) - 18 = 21 by decide]
    rw [heqHx]
  · intro sq hsq
    by_cases hw7 : 91 ≤ sq ∧ sq < 99
    · rw [hfrH sq (by have := rank_cells_length P.pieces 0; omega), hfrG sq (by have := rank_cells_length P.pieces 1; omega), hfrF sq (by have := rank_cells_length P.pieces 2; omega), hfrE sq (by have := rank_cells_length P.pieces 3; omega), hfrD sq (by have := rank_cells_length P.pieces 4; omega), hfrC sq (by have := rank_cells_length P.pieces 5; omega), hfrB sq (by have := rank_cells_length P.pieces 6; omega)]
      exact hinA sq hw7.1 (by have := rank_cells_length P.pieces 7; omega)
    by_cases hw6 : 81 ≤ sq ∧ sq < 89
    · rw [hfrH sq (by have := rank_cells_length P.pieces 0; omega), hfrG sq (by have := rank_cells_length P.pieces 1; omega), hfrF sq (by have := rank_cells_length P.pieces 2; omega), hfrE sq (by have := rank_cells_length P.pieces 3; omega), hfrD sq (by have := rank_cells_length P.pieces 4; omega), hfrC sq (by have := rank_cells_length P.pieces 5; omega)]
      exact hinB sq hw6.1 (by have := rank_cells_length P.pieces 6; omega)
    by_cases hw5 : 71 ≤ sq ∧ sq < 79
    · rw [hfrH sq (by have := rank_cells_length P.pieces 0; omega), hfrG sq (by have := rank_cells_length P.pieces 1; omega), hfrF sq (by have := rank_cells_length P.pieces 2; omega), hfrE sq (by have := rank_cells_length P.pieces 3; omega), hfrD sq (by have := rank_cells_length P.pieces 4; omega)]
      exact hinC sq hw5.1 (by have := rank_cells_length P.pieces 5; omega)
    by_cases hw4 : 61 ≤ sq ∧ sq < 69
    · rw [hfrH sq (by have := rank_cells_length P.pieces 0; omega), hfrG sq (by have := rank_cells_length P.pieces 1; omega), hfrF sq (by have := rank_cells_length P.pieces 2; omega), hfrE sq (by have := rank_cells_length P.pieces 3; omega)]
      exact hinD sq hw4.1 (by have := rank_cells_length P.pieces 4; omega)
    by_cases hw3 : 51 ≤ sq ∧ sq < 59
    · rw [hfrH sq (by have := rank_cells_length P.pieces 0; omega), hfrG sq (by have := rank_cells_length P.pieces 1; omega), hfrF sq (by have := rank_cells_length P.pieces 2; omega)]
      exact hinE sq hw3.1 (by have := rank_cells_length P.pieces 3; omega)
    by_cases hw2 : 41 ≤ sq ∧ sq < 49
    · rw [hfrH sq (by have := rank_cells_length P.pieces 0; omega), hfrG sq (by have := rank_cells_length P.pieces 1; omega)]
      exact hinF sq hw2.1 (by have := rank_cells_length P.pieces 2; omega)
    by_cases hw1 : 31 ≤ sq ∧ sq < 39
    · rw [hfrH sq (by have := rank_cells_length P.pieces 0; omega)]
      exact hinG sq hw1.1 (by have := rank_cells_length P.pieces 1; omega)
    by_cases hw0 : 21 ≤ sq ∧ sq < 29
    · exact hinH sq hw0.1 (by have := rank_cells_length P.pieces 0; omega)
    · rw [hfrH sq (by have := rank_cells_length P.pieces 0; omega), hfrG sq (by have := rank_cells_length P.pieces 1; omega), hfrF sq (by have := rank_cells_length P.pieces 2; omega), hfrE sq (by have := rank_cells_length P.pieces 3; omega), hfrD sq (by have := rank_cells_length P.pieces 4; omega), hfrC sq (by have := rank_cells_length P.pieces 5; omega), hfrB sq (by have := rank_cells_length P.pieces 6; omega), hfrA sq (by have := rank_cells_length P.pieces 7; omega)]
      have hnv : ¬ valid_square sq := by
        intro hv
        obtain ⟨x1, x2, x3, x4⟩ := hv
        omega
      exact (hV.1 sq hsq hnv).symm
  · intro p hp
    have hA := hposA p hp
    rw [rank_cells_length, Nat.zero_add] at hA
    have hB := hposB p hp
    rw [rank_cells_length, Nat.zero_add] at hB
    have hC := hposC p hp
    rw [rank_cells_length, Nat.zero_add] at hC
    have hD := hposD p hp
    rw [rank_cells_length, Nat.zero_add] at hD
    have hE := hposE p hp
    rw [rank_cells_length, Nat.zero_add] at hE
    have hF := hposF p hp
    rw [rank_cells_length, Nat.zero_add] at hF
    have hG := hposG p hp
    rw [rank_cells_length, Nat.zero_add] at hG
    have hH := hposH p hp
    rw [rank_cells_length, Nat.zero_add] at hH
    rw [hH, hG, hF, hE, hD, hC, hB, hA]
    simp only [List.append_assoc, List.nil_append]
    exact (positions_perm_occs P hV p hp).symm
  · intro p hnp
    rw [hposiH p hnp, hposiG p hnp, hposiF p hnp, hposiE p hnp, hposiD p hnp, hposiC p hnp, hposiB p hnp, hposiA p hnp]

theorem board_hash_congr_lt {f g : Nat → Nat} (h : ∀ sq < 120, f sq = g sq) :
    board_hash f = board_hash g := by
  unfold board_hash
  exact foldl_xor_congr _ _ _
    (fun x hx => by rw [h x (List.mem_range.mp hx)])

theorem castle_chars_rt (c : Nat) (hc : c < 16) (rest3 : List Char) :
    parse_castle_field (castle_chars c ++ ' ' :: rest3) = some (rest3, c) := by
  interval_cases c <;> rfl

theorem render_ep_rt (P : Board) (hV : ValidBoard P) (pieces1 : Nat → Nat)
    (rest4 : List Char) :
    ∃ ep1,
      parse_ep_field (string_from_square P.en_passant ++ ' ' :: rest4)
          P.next_move_colour pieces1 = some (rest4, ep1) ∧
      (ep1 = P.en_passant ∨ ep1 = INVALID_SQUARE) := by
  rcases hV.2.2.2.2.2.2.2.2.2.2.1 with hep0 | ⟨hvs, hrow⟩
  · refine ⟨INVALID_SQUARE, ?_, Or.inr rfl⟩
    rw [hep0]
    rw [show string_from_square INVALID_SQUARE = (['-'] : List Char) from rfl]
    rw [show ((['-'] : List Char) ++ ' ' :: rest4) = '-' :: ' ' :: rest4 from rfl]
    rw [parse_ep_field]
    rw [if_pos rfl]
  · have h21 : 21 ≤ P.en_passant := hvs.1
    have h98 : P.en_passant ≤ 98 := hvs.2.1
    have hm1 : 1 ≤ P.en_passant % 10 := hvs.2.2.1
    have hm8 : P.en_passant % 10 ≤ 8 := hvs.2.2.2
    have hne0 : ¬ P.en_passant = INVALID_SQUARE := by
      show ¬ P.en_passant = 0
      omega
    have hc1 : (Char.ofNat (97 + (P.en_passant % 10 - 1))).toNat =
        97 + (P.en_passant % 10 - 1) := toNat_ofNat_small (by omega)
    have hc2 : (Char.ofNat (49 + (P.en_passant / 10 - 2))).toNat =
        49 + (P.en_passant / 10 - 2) := toNat_ofNat_small (by omega)
    unfold get_square_row at hrow
    have hrw : (P.next_move_colour = WHITE → P.en_passant / 10 = 7) ∧
        (P.next_move_colour = BLACK → P.en_passant / 10 = 4) := by
      constructor <;> intro hco <;> rw [hco] at hrow <;>
        [rw [if_pos rfl] at hrow; rw [if_neg (by decide)] at hrow] <;> omega
    rw [string_from_square, if_neg hne0]
    simp only [List.cons_append, List.nil_append]
    unfold parse_ep_field
    split
    · next c cs heq =>
      exfalso
      injection heq with h1 hrest
      have h2 := congrArg Char.toNat h1
      rw [hc1] at h2
      rw [show Char.toNat '-' = 45 from rfl] at h2
      omega
    · next c1 c2 c3 cs hne heq =>
      injection heq with e1 h
      injection h with e2 h
      injection h with e3 e4
      subst e1
      subst e2
      subst e3
      subst e4
      dsimp only
      have hcond : (P.next_move_colour = WHITE →
          ((Char.ofNat (49 + (P.en_passant / 10 - 2))).toNat : Int) - 49 = 5) ∧
          (P.next_move_colour = BLACK →
          ((Char.ofNat (49 + (P.en_passant / 10 - 2))).toNat : Int) - 49 = 2) ∧
          (' ' : Char) = ' ' := by
        refine ⟨fun hco => ?_, fun hco => ?_, rfl⟩
        · rw [hc2]
          have h7 := hrw.1 hco
          omega
        · rw [hc2]
          have h4 := hrw.2 hco
          omega
      rw [if_pos hcond]
      split
      · split
        · exact ⟨INVALID_SQUARE, rfl, Or.inr rfl⟩
        · refine ⟨_, rfl, Or.inl ?_⟩
          rw [hc1, hc2]
          omega
      · split
        · exact ⟨INVALID_SQUARE, rfl, Or.inr rfl⟩
        · refine ⟨_, rfl, Or.inl ?_⟩
          rw [hc1, hc2]
          omega
    · next hne1 hne2 =>
      exact absurd rfl (hne2 _ _ _ _)

/-- C8 (amended): FEN round trip.  For every board satisfying the documented
invariants whose stored hash equals the recomputation, parsing the rendered
FEN succeeds and returns a board that agrees on the piece array (pointwise
below 120), has permuted per-piece position lists, and preserves side to
move, castle rights and both clocks; the en-passant target is preserved or
elided to `INVALID_SQUARE`, and the hash differs from the original exactly
by the XOR of the two en-passant hash terms — it is preserved when the
target survives, but NOT when the target is elided (see
`C8_counterexample`). -/
theorem C8_fen_round_trip (P : Board) (hV : ValidBoard P)
    (hh : P.hash = compute_hash P) :
    ∃ Q, board_from_fen (fen_string P) = some Q ∧
      (∀ sq < 120, Q.pieces sq = P.pieces sq) ∧
      (∀ p, valid_piece p → (Q.positions p).Perm (P.positions p)) ∧
      Q.next_move_colour = P.next_move_colour ∧
      Q.castle_state = P.castle_state ∧
      Q.fifty_move = P.fifty_move ∧
      Q.half_move = P.half_move ∧
      (Q.en_passant = P.en_passant ∨ Q.en_passant = INVALID_SQUARE) ∧
      Q.hash = P.hash ^^^ enpas_hash P.en_passant ^^^ enpas_hash Q.en_passant ∧
      (Q.en_passant = P.en_passant → Q.hash = P.hash) := by
  obtain ⟨pieces1, positions1, heqP, hpcs, hperm, hpinv⟩ :=
    parse_encode_placement P hV
  have hside : (if (if P.next_move_colour = WHITE then 'w' else 'b') = 'w'
      then some WHITE else
      if (if P.next_move_colour = WHITE then 'w' else 'b') = 'b'
      then some BLACK else none) = some P.next_move_colour := by
    cases P.next_move_colour
    · rfl
    · rfl
  obtain ⟨ep1, hepeq, hepd⟩ :=
    render_ep_rt P hV pieces1
      (dec_digits P.fifty_move ++ ' ' :: dec_digits (P.half_move / 2))
  unfold board_from_fen fen_string
  rw [heqP, parse_space, Option.some_bind]
  dsimp only
  unfold parse_after_placement
  rw [if_neg (by omega)]
  dsimp only
  rw [hside, Option.some_bind]
  rw [castle_chars_rt P.castle_state hV.2.2.2.2.2.2.2.2.2.1 _, Option.some_bind]
  rw [hepeq, Option.some_bind]
  rw [pns_digits, Nat.mul_zero, Nat.zero_add]
  rw [parse_number_sp, if_pos rfl, Option.some_bind]
  rw [show dec_digits (P.half_move / 2) =
    dec_digits (P.half_move / 2) ++ ([] : List Char) from
      (List.append_nil _).symm]
  rw [pne_digits, Nat.mul_zero, Nat.zero_add]
  rw [parse_number_end, Option.some_bind]
  refine ⟨_, rfl, hpcs, hperm, rfl, rfl, rfl, ?_, hepd, ?_, ?_⟩
  · show 2 * (P.half_move / 2) + (if P.next_move_colour then 1 else 0) =
      P.half_move
    have h12 := hV.2.2.2.2.2.2.2.2.2.2.2
    omega
  · show board_hash pieces1 ^^^ castle_hash P.castle_state ^^^
        enpas_hash ep1 ^^^ (if P.next_move_colour then side_hash else 0) =
      P.hash ^^^ enpas_hash P.en_passant ^^^ enpas_hash ep1
    rw [board_hash_congr_lt hpcs, hh, compute_hash_fields]
    simp [Nat.xor_assoc, Nat.xor_comm, nat_xor_left_comm, nat_xor_cancel_left,
      Nat.xor_self, Nat.xor_zero, Nat.zero_xor]
  · intro he
    have he' : ep1 = P.en_passant := he
    show board_hash pieces1 ^^^ castle_hash P.castle_state ^^^
        enpas_hash ep1 ^^^ (if P.next_move_colour then side_hash else 0) =
      P.hash
    rw [he', board_hash_congr_lt hpcs, hh, compute_hash_fields]

theorem c8cx_valid : ValidBoard c8cx_P := by
  refine ⟨by decide, by decide, by decide, by decide, by decide, ?_,
    by decide, by decide, by decide, by decide, by decide, by decide⟩
  intro p hp
  show (if p = WHITE_KING then [25] else if p = BLACK_KING then [95]
    else if p = WHITE_PAWN then [54] else []) = []
  rw [if_neg (fun he => hp (by rw [he]; decide)),
    if_neg (fun he => hp (by rw [he]; decide)),
    if_neg (fun he => hp (by rw [he]; decide))]

theorem dec_digits_zero : dec_digits 0 = ['0'] := by
  rw [dec_digits]
  rfl

theorem c8cx_fen_eval : fen_string c8cx_P = c8cx_qfen := by
  show encode_placement c8cx_P.pieces ++ ' ' ::
    ((if c8cx_P.next_move_colour = WHITE then 'w' else 'b') :: ' ' ::
    (castle_chars c8cx_P.castle_state ++ ' ' ::
    (string_from_square c8cx_P.en_passant ++ ' ' ::
    (dec_digits c8cx_P.fifty_move ++ ' ' ::
      dec_digits (c8cx_P.half_move / 2))))) = c8cx_qfen
  rw [show c8cx_P.fifty_move = 0 from rfl,
    show c8cx_P.half_move / 2 = 0 from rfl, dec_digits_zero]
  decide

theorem C8_counterexample :
    ValidBoard c8cx_P ∧
    c8cx_P.hash = compute_hash c8cx_P ∧
    board_from_fen (fen_string c8cx_P) = some c8cx_Q ∧
    (∀ sq < 120, c8cx_Q.pieces sq = c8cx_P.pieces sq) ∧
    c8cx_Q.next_move_colour = c8cx_P.next_move_colour ∧
    c8cx_Q.castle_state = c8cx_P.castle_state ∧
    c8cx_Q.fifty_move = c8cx_P.fifty_move ∧
    c8cx_Q.half_move = c8cx_P.half_move ∧
    c8cx_P.en_passant = 44 ∧
    c8cx_Q.en_passant = INVALID_SQUARE ∧
    c8cx_Q.hash ≠ c8cx_P.hash :=
  ⟨c8cx_valid, by decide, by rw [c8cx_fen_eval]; rfl, by decide, by decide,
    by decide, by decide, by decide, by decide, by decide, by decide⟩

theorem C8_witness :
    ∃ Q, board_from_fen (fen_string c8w_board) = some Q ∧
      (∀ sq < 120, Q.pieces sq = c8w_board.pieces sq) ∧
      (∀ p, valid_piece p → (Q.positions p).Perm (c8w_board.positions p)) ∧
      Q.next_move_colour = c8w_board.next_move_colour ∧
      Q.castle_state = c8w_board.castle_state ∧
      Q.fifty_move = c8w_board.fifty_move ∧
      Q.half_move = c8w_board.half_move ∧
      (Q.en_passant = c8w_board.en_passant ∨
        Q.en_passant = INVALID_SQUARE) ∧
      Q.hash = c8w_board.hash ^^^ enpas_hash c8w_board.en_passant ^^^
        enpas_hash Q.en_passant ∧
      (Q.en_passant = c8w_board.en_passant → Q.hash = c8w_board.hash) :=
  C8_fen_round_trip c8w_board
    ⟨by decide, by decide, by decide, by decide, by decide,
      @board_from_fen_positions_empty c8w_fen c8w_board (by rfl),
      by decide, by decide, by decide, by decide, by decide, by decide⟩
    (by decide)


/-- The en-passant coherence condition of the make/unmake round trip is not
implied by the documented invariants plus generator emission: `c1ep_board`
is FEN-parseable and satisfies them all, the generator emits the en-passant
capture, `make_move` completes — but the board holds a knight, not the
recorded captured pawn, on the capture square, and `unmake_move` fails its
final hash assertion (in a release build the knight would be replaced by a
pawn). -/
theorem make_unmake_ep_incoherent :
    ValidBoard c1ep_board ∧
    c1ep_board.hash = compute_hash c1ep_board ∧
    c1ep_move ∈ pseudo_moves_scratch c1ep_board ∧
    c1ep_board.pieces
        (enpas_capture_square c1ep_board.next_move_colour c1ep_move.toSq) ≠
      c1ep_move.captured ∧
    (make_move c1ep_board c1ep_move).isSome = true ∧
    unmake_move c1ep_after = none := by
  refine ⟨⟨by decide, by decide, by decide, by decide, by decide,
    @board_from_fen_positions_empty c1ep_fen c1ep_board (by rfl),
    by decide, by decide, by decide, by decide, by decide, by decide⟩,
    by decide, by decide, by decide, by rfl, by rfl⟩

/-- The FEN parser validates the en-passant row character but not the file
character: the field `z6` is accepted whenever the neighbour-pawn check
passes, leaving a target off the rank the side to move indicates (here
square 96, on rank 8, with white to move). -/
theorem parse_ep_unvalidated_column :
    board_from_fen c6z_fen = some c6z_board ∧
    c6z_board.next_move_colour = WHITE ∧
    c6z_board.en_passant = 96 ∧
    valid_square c6z_board.en_passant ∧
    get_square_row (c6z_board.en_passant : Int) = 7 :=
  ⟨by rfl, by decide, by decide, by decide, by decide⟩

end Playchess
